import Mathlib

/-!
Verification of the IOC intent-graph compiler (core: src/core/graph.py,
src/core/optimizer.py, src/core/types.py, src/solvers/strategies.py,
src/solvers/kernel.py, src/solvers/profiler.py).

Shallow embedding conventions:
* Python runtime values are modelled by `Val` (ints, strings, bools, lists,
  tuples, dicts, None).  Floats do not occur in any claim-relevant code path
  and are not modelled.  Value equality in the model is structural; Python's
  numeric conflation `True == 1` is not modelled (noted where relevant).
  Python dict equality is order-insensitive; the model compares dicts
  structurally (no claim compares dicts).
* User predicate/transform functions are opaque callables compared by
  reference identity.  They are modelled by `FnExpr`: `base h` is a user
  function referenced by the handle `h` (its Python id), and the closures
  allocated by the optimizer (`make_combined`, `make_composed`) carry a fresh
  allocation tag so that structural equality of `FnExpr` coincides with
  Python object identity.  Binary user functions (reduce operations, join
  conditions) are referenced by a plain handle.  A `FunEnv` interprets
  handles as (partial, exception-raising) functions.
* Python exceptions are modelled by `PyErr`; fallible code returns
  `Except PyErr α`.  `PyErr.fuelOut` is used only by the fuel-indexed
  denotational evaluator `deval` (a specification device); the executable
  `execute` path never produces it for terminating runs.
* Python dicts that hold graph nodes are insertion-ordered; they are
  modelled by association lists (`dlookup`/`dinsert`/...).  Node ids in the
  source are fresh uuid strings; the model generates fresh ids from the
  graph's counter (the source keeps a `_node_counter` field as well); only
  freshness matters anywhere.
-/

/-- Model of the Python runtime values flowing through a compiled plan. -/
inductive Val where
  | none  : Val
  | int   : Int → Val
  | bool  : Bool → Val
  | str   : String → Val
  | list  : List Val → Val
  | tuple : List Val → Val
  | dict  : List (Val × Val) → Val
deriving Repr

/-- Model of the Python exception kinds raised by the claim-relevant code. -/
inductive PyErr where
  | typeError      : PyErr
  | attributeError : PyErr
  | keyError       : PyErr
  | valueError     : PyErr
  | indexError     : PyErr
  | nameError      : PyErr
  | stopIteration  : PyErr
  | recursionError : PyErr
  | syntaxError    : PyErr
  | notImplementedError : PyErr
  | zeroDivisionError : PyErr
  | fuelOut        : PyErr
deriving Repr, DecidableEq

mutual
/-- Structural value equality (the model's reading of Python ==). -/
def Val.beq : Val → Val → Bool
  | .none, .none => true
  | .int a, .int b => a == b
  | .bool a, .bool b => a == b
  | .str a, .str b => a == b
  | .list a, .list b => Val.beqList a b
  | .tuple a, .tuple b => Val.beqList a b
  | .dict a, .dict b => Val.beqPairs a b
  | _, _ => false

def Val.beqList : List Val → List Val → Bool
  | [], [] => true
  | a :: as, b :: bs => Val.beq a b && Val.beqList as bs
  | _, _ => false

def Val.beqPairs : List (Val × Val) → List (Val × Val) → Bool
  | [], [] => true
  | (k, v) :: as, (k2, v2) :: bs => Val.beq k k2 && Val.beq v v2 && Val.beqPairs as bs
  | _, _ => false
end

instance : BEq Val := ⟨Val.beq⟩

mutual
theorem Val.beq_refl : (a : Val) → Val.beq a a = true
  | .none => rfl
  | .int a => by simp [Val.beq]
  | .bool a => by simp [Val.beq]
  | .str a => by simp [Val.beq]
  | .list a => by simp [Val.beq, Val.beqList_refl a]
  | .tuple a => by simp [Val.beq, Val.beqList_refl a]
  | .dict a => by simp [Val.beq, Val.beqPairs_refl a]

theorem Val.beqList_refl : (as : List Val) → Val.beqList as as = true
  | [] => rfl
  | a :: as => by simp [Val.beqList, Val.beq_refl a, Val.beqList_refl as]

theorem Val.beqPairs_refl : (as : List (Val × Val)) → Val.beqPairs as as = true
  | [] => rfl
  | (k, v) :: as => by
      simp [Val.beqPairs, Val.beq_refl k, Val.beq_refl v, Val.beqPairs_refl as]
end

mutual
theorem Val.eq_of_beq : {a b : Val} → Val.beq a b = true → a = b
  | .none, .none, _ => rfl
  | .int a, .int b, h => by simp [Val.beq] at h; simp [h]
  | .bool a, .bool b, h => by simp [Val.beq] at h; simp [h]
  | .str a, .str b, h => by simp [Val.beq] at h; simp [h]
  | .list a, .list b, h => by
      simp only [Val.beq] at h; exact congrArg Val.list (Val.eqList_of_beq h)
  | .tuple a, .tuple b, h => by
      simp only [Val.beq] at h; exact congrArg Val.tuple (Val.eqList_of_beq h)
  | .dict a, .dict b, h => by
      simp only [Val.beq] at h; exact congrArg Val.dict (Val.eqPairs_of_beq h)

theorem Val.eqList_of_beq : {as bs : List Val} → Val.beqList as bs = true → as = bs
  | [], [], _ => rfl
  | a :: as, b :: bs, h => by
      simp only [Val.beqList, Bool.and_eq_true] at h
      rw [Val.eq_of_beq h.1, Val.eqList_of_beq h.2]

theorem Val.eqPairs_of_beq :
    {as bs : List (Val × Val)} → Val.beqPairs as bs = true → as = bs
  | [], [], _ => rfl
  | (k, v) :: as, (k2, v2) :: bs, h => by
      simp only [Val.beqPairs, Bool.and_eq_true] at h
      rw [Val.eq_of_beq h.1.1, Val.eq_of_beq h.1.2, Val.eqPairs_of_beq h.2]
end

instance : LawfulBEq Val where
  rfl := Val.beq_refl _
  eq_of_beq := Val.eq_of_beq

instance : DecidableEq Val := fun a b =>
  decidable_of_iff (Val.beq a b = true) ⟨Val.eq_of_beq, fun h => h ▸ Val.beq_refl a⟩

/-- Python truthiness of a value (always defined on the modelled values). -/
def truthy : Val → Bool
  | .none => false
  | .int n => n != 0
  | .bool b => b
  | .str s => s ≠ ""
  | .list xs => !xs.isEmpty
  | .tuple xs => !xs.isEmpty
  | .dict d => !d.isEmpty

/-- Python iteration over a value (`for _item in v`): lists, tuples and
strings (characters) and dicts (keys) are iterable; other values raise
TypeError. -/
def pyIter : Val → Except PyErr (List Val)
  | .list xs => .ok xs
  | .tuple xs => .ok xs
  | .str s => .ok (s.toList.map (fun c => .str c.toString))
  | .dict d => .ok (d.map (·.1))
  | _ => .error .typeError

mutual
/-- Whether a value is hashable in Python (usable as a dict key / set
element): lists and dicts are unhashable, tuples are hashable when their
components are. -/
def Val.hashable : Val → Bool
  | .list _ => false
  | .dict _ => false
  | .tuple xs => Val.hashableList xs
  | _ => true

/-- Hashability of every element of a list. -/
def Val.hashableList : List Val → Bool
  | [] => true
  | x :: xs => x.hashable && Val.hashableList xs
end

/-- Numeric view of a value for Python comparisons (bool is an int
subclass: True compares as 1 and False as 0). -/
def Val.asNum : Val → Option Int
  | .int n => some n
  | .bool b => some (if b then 1 else 0)
  | _ => Option.none

mutual
/-- Python strict less-than on values: numeric for int/bool, lexicographic
for strings, lists and tuples (elementwise == then <, then length);
everything else raises TypeError. -/
def pyLt : Val → Val → Except PyErr Bool
  | .str a, .str b => .ok (decide (a < b))
  | .list a, .list b => pyLtLex a b
  | .tuple a, .tuple b => pyLtLex a b
  | a, b =>
    match a.asNum, b.asNum with
    | some x, some y => .ok (decide (x < y))
    | _, _ => .error .typeError

/-- Lexicographic list comparison: skip equal prefixes (Python uses == for
that), compare the first differing pair with <, fall back to length. -/
def pyLtLex : List Val → List Val → Except PyErr Bool
  | [], [] => .ok false
  | [], _ :: _ => .ok true
  | _ :: _, [] => .ok false
  | a :: as, b :: bs => if a == b then pyLtLex as bs else pyLt a b
end

/-- Opaque user callables and the closures the optimizer builds over them.
`base h` is a user function with Python id `h`; `conj t p1 p2` is the
closure built by filter fusion (`make_combined`, allocation tag `t`);
`comp t f1 f2` is the closure built by map fusion (`make_composed`);
`lit v` is a non-callable value sitting in a callable position (calling it
raises TypeError); `bin h` is a binary user function used with one
argument (TypeError).  Structural equality models Python object identity
because every allocation carries a distinct tag. -/
inductive FnExpr where
  | base : Nat → FnExpr
  | conj : Nat → FnExpr → FnExpr → FnExpr
  | comp : Nat → FnExpr → FnExpr → FnExpr
  | lit  : Val → FnExpr
  | bin  : Nat → FnExpr
deriving Repr, DecidableEq

/-- Node parameter values: literal data, a unary callable, or a binary
callable (referenced by its Python id). -/
inductive PVal where
  | val   : Val → PVal
  | func  : FnExpr → PVal
  | func2 : Nat → PVal
deriving Repr, DecidableEq

/-- Interpretation of user function handles: `ap1` runs a unary user
function, `ap2` a binary one.  They may raise any `PyErr`. -/
structure FunEnv where
  ap1 : Nat → Val → Except PyErr Val
  ap2 : Nat → Val → Val → Except PyErr Val

/-- Call a (possibly optimizer-built) unary callable.  `conj` evaluates
the inner predicate first and short-circuits exactly like Python's
`p1(x) and p2(x)` (the value of `p1(x)` is returned when it is falsy);
`comp` is `f2(f1(x))`. -/
def applyFn (fe : FunEnv) : FnExpr → Val → Except PyErr Val
  | .base h, x => fe.ap1 h x
  | .conj _ p1 p2, x => do
      let r1 ← applyFn fe p1 x
      if truthy r1 then applyFn fe p2 x else .ok r1
  | .comp _ f1 f2, x => do
      let y ← applyFn fe f1 x
      applyFn fe f2 y
  | .lit _, _ => .error .typeError
  | .bin _, _ => .error .typeError

/-- View a parameter value as a unary callable (non-callables raise
TypeError when called, per-call, matching Python). -/
def PVal.asFn : PVal → FnExpr
  | .func f => f
  | .val v => .lit v
  | .func2 h => .bin h

/-- View a parameter value as a binary callable. -/
def PVal.asFn2 (fe : FunEnv) : PVal → Val → Val → Except PyErr Val
  | .func2 h => fe.ap2 h
  | _ => fun _ _ => .error .typeError

/-- Node kinds (src/core/graph.py IntentType). -/
inductive IntentType where
  | input | output | filter | map | reduce | compose | parallel | constant
  | sort | group_by | join | flatten | distinct | assert
deriving Repr, DecidableEq

/-- Structural types (src/core/types.py).  Floats do not occur in the value
model; the FloatType bounds are carried for shape only. -/
inductive IOCType where
  | anyT : IOCType
  | intT (min_value max_value : Option Int) : IOCType
  | floatT (min_value max_value : Option Int) : IOCType
  | boolT : IOCType
  | listT (element_type : IOCType) (min_length max_length : Option Nat) : IOCType
deriving Repr, DecidableEq

/-- Membership test of the type lattice (types.py, matches methods). -/
def IOCType.matches : IOCType → Val → Bool
  | .anyT, _ => true
  | .intT lo hi, .int n =>
      (match lo with | some l => decide (l ≤ n) | _ => true) &&
      (match hi with | some h => decide (n ≤ h) | _ => true)
  | .intT _ _, _ => false
  | .floatT lo hi, .int n =>
      (match lo with | some l => decide (l ≤ n) | _ => true) &&
      (match hi with | some h => decide (n ≤ h) | _ => true)
  | .floatT _ _, _ => false
  | .boolT, .bool _ => true
  | .boolT, _ => false
  | .listT elemT lo hi, .list xs =>
      (match lo with | some l => decide (l ≤ xs.length) | _ => true) &&
      (match hi with | some h => decide (xs.length ≤ h) | _ => true) &&
      xs.attach.all (fun x => elemT.matches x.1)
  | .listT _ _ _, _ => false

/-- Type inference for constant literals (types.py infer_type): Bool before
Int; a list takes its element type from its first element; strings and
everything else are Any. -/
def infer_type : Val → IOCType
  | .bool _ => .boolT
  | .int _ => .intT Option.none Option.none
  | .list [] => .listT .anyT Option.none Option.none
  | .list (x :: _) => .listT (infer_type x) Option.none Option.none
  | _ => .anyT

/-- An intent-graph node (graph.py IntentNode). -/
structure IntentNode where
  id : String
  intent_type : IntentType
  inputs : List String
  params : List (String × PVal)
  output_type : IOCType
  metadata : List (String × Val)
deriving Repr, DecidableEq

section AListHelpers

variable {α : Type}

/-- Lookup in an insertion-ordered string-keyed association list (a Python
dict whose keys are unique). -/
def dlookup : List (String × α) → String → Option α
  | [], _ => Option.none
  | (k, v) :: rest, key => if k = key then some v else dlookup rest key

/-- Membership of a key (Python `k in d`). -/
def dmem (l : List (String × α)) (key : String) : Bool :=
  (dlookup l key).isSome

/-- Insertion `d[k] = v`: replaces in place if the key is present,
otherwise appends. -/
def dinsert : List (String × α) → String → α → List (String × α)
  | [], key, v => [(key, v)]
  | (k, w) :: rest, key, v =>
      if k = key then (k, v) :: rest else (k, w) :: dinsert rest key v

/-- Deletion `del d[k]` (no error if absent; callers guard). -/
def ddel : List (String × α) → String → List (String × α)
  | [], _ => []
  | (k, w) :: rest, key => if k = key then rest else (k, w) :: ddel rest key

end AListHelpers

/-- The intent graph (graph.py Graph): insertion-ordered node dict plus the
ordered outputs.  `node_counter` drives fresh id generation in the model
(the source draws uuid fragments; only freshness is relevant). -/
structure Graph where
  nodes : List (String × IntentNode)
  outputs : List String
  node_counter : Nat
deriving Repr, DecidableEq

/-- Fresh node id (graph.py _generate_id). -/
def Graph.generateId (g : Graph) (prefixStr : String) : String :=
  s!"{prefixStr}_{g.node_counter}"

/-- Register a node (graph.py _add_node; provenance tracking is an external
collaborator and is not modelled). -/
def Graph.addNode (g : Graph) (node : IntentNode) : String × Graph :=
  (node.id, { g with nodes := dinsert g.nodes node.id node,
                     node_counter := g.node_counter + 1 })

/-! ## Graph builder (src/core/graph.py) -/

/-- Constructor for Input nodes (graph.py Graph.input).  The Python type
hint dispatch (IOCType instance / list / int / float / bool / anything
else) is collapsed to an optional IOCType, `Option.none` giving AnyType. -/
def Graph.input (g : Graph) (name : String) (type_hint : Option IOCType := Option.none) :
    String × Graph :=
  let output_type := type_hint.getD .anyT
  let node : IntentNode :=
    { id := g.generateId "input", intent_type := .input, inputs := [],
      params := [("name", .val (.str name))], output_type := output_type,
      metadata := [] }
  g.addNode node

/-- Constructor for Constant nodes (graph.py Graph.constant).  The stored
value may be any parameter value; type inference applies to literals and
falls back to AnyType for callables (as infer_type does in Python). -/
def Graph.constant (g : Graph) (value : PVal) : String × Graph :=
  let node : IntentNode :=
    { id := g.generateId "const", intent_type := .constant, inputs := [],
      params := [("value", value)],
      output_type := match value with | .val v => infer_type v | _ => .anyT,
      metadata := [] }
  g.addNode node

/-- Constructor for Filter nodes (graph.py Graph.filter).  Reads the input
node's output type, so an unknown input id raises KeyError. -/
def Graph.filter (g : Graph) (input_node : String) (predicate : FnExpr) :
    Except PyErr (String × Graph) :=
  match dlookup g.nodes input_node with
  | Option.none => .error .keyError
  | some inNode =>
    let node : IntentNode :=
      { id := g.generateId "filter", intent_type := .filter, inputs := [input_node],
        params := [("predicate", .func predicate)],
        output_type := inNode.output_type,
        metadata := [("parallelizable", .bool true)] }
    .ok (g.addNode node)

/-- Constructor for Map nodes (graph.py Graph.map).  The source performs no
lookup of the input id: an unknown id silently yields a dangling input
reference. -/
def Graph.map (g : Graph) (input_node : String) (transform : FnExpr) :
    String × Graph :=
  let node : IntentNode :=
    { id := g.generateId "map", intent_type := .map, inputs := [input_node],
      params := [("transform", .func transform)],
      output_type := .listT .anyT Option.none Option.none,
      metadata := [("parallelizable", .bool true), ("vectorizable", .bool true)] }
  g.addNode node

/-- Constructor for Reduce nodes (graph.py Graph.reduce; no input lookup).
The binary operation is referenced by handle; the default initial value is
Python None. -/
def Graph.reduce (g : Graph) (input_node : String) (operation : Nat)
    (initial : Val := .none) : String × Graph :=
  let node : IntentNode :=
    { id := g.generateId "reduce", intent_type := .reduce, inputs := [input_node],
      params := [("operation", .func2 operation), ("initial", .val initial)],
      output_type := .anyT,
      metadata := [("parallelizable", .bool false)] }
  g.addNode node

/-- Constructor for Sort nodes (graph.py Graph.sort; reads the input type,
so an unknown input id raises KeyError). -/
def Graph.sort (g : Graph) (input_node : String) (key : Option FnExpr := Option.none)
    (reverse : Bool := false) : Except PyErr (String × Graph) :=
  match dlookup g.nodes input_node with
  | Option.none => .error .keyError
  | some inNode =>
    let node : IntentNode :=
      { id := g.generateId "sort", intent_type := .sort, inputs := [input_node],
        params := [("key", match key with | some f => .func f | _ => .val .none),
                   ("reverse", .val (.bool reverse))],
        output_type := inNode.output_type,
        metadata := [("parallelizable", .bool false)] }
    .ok (g.addNode node)

/-- Constructor for GroupBy nodes (graph.py Graph.group_by; no input
lookup). -/
def Graph.group_by (g : Graph) (input_node : String) (key : FnExpr) :
    String × Graph :=
  let node : IntentNode :=
    { id := g.generateId "group", intent_type := .group_by, inputs := [input_node],
      params := [("key", .func key)],
      output_type := .anyT,
      metadata := [("parallelizable", .bool true)] }
  g.addNode node

/-- Constructor for Join nodes (graph.py Graph.join; no lookup of either
input). -/
def Graph.join (g : Graph) (left_node right_node : String) (onFn : Nat) :
    String × Graph :=
  let node : IntentNode :=
    { id := g.generateId "join", intent_type := .join,
      inputs := [left_node, right_node],
      params := [("on", .func2 onFn)],
      output_type := .listT .anyT Option.none Option.none,
      metadata := [("parallelizable", .bool true)] }
  g.addNode node

/-- Constructor for Flatten nodes (graph.py Graph.flatten; no input
lookup). -/
def Graph.flatten (g : Graph) (input_node : String) : String × Graph :=
  let node : IntentNode :=
    { id := g.generateId "flatten", intent_type := .flatten, inputs := [input_node],
      params := [],
      output_type := .listT .anyT Option.none Option.none,
      metadata := [("parallelizable", .bool true)] }
  g.addNode node

/-- Constructor for Distinct nodes (graph.py Graph.distinct; reads the
input type, so an unknown input id raises KeyError). -/
def Graph.distinct (g : Graph) (input_node : String) :
    Except PyErr (String × Graph) :=
  match dlookup g.nodes input_node with
  | Option.none => .error .keyError
  | some inNode =>
    let node : IntentNode :=
      { id := g.generateId "distinct", intent_type := .distinct,
        inputs := [input_node], params := [],
        output_type := inNode.output_type,
        metadata := [("parallelizable", .bool false)] }
    .ok (g.addNode node)

/-- Constructor for Assert nodes (graph.py Graph.assert_invariant; reads
the input type, so an unknown input id raises KeyError). -/
def Graph.assert_invariant (g : Graph) (input_node : String) (predicate : FnExpr)
    (message : String := "Assertion failed") : Except PyErr (String × Graph) :=
  match dlookup g.nodes input_node with
  | Option.none => .error .keyError
  | some inNode =>
    let node : IntentNode :=
      { id := g.generateId "assert", intent_type := .assert,
        inputs := [input_node],
        params := [("predicate", .func predicate), ("message", .val (.str message))],
        output_type := inNode.output_type,
        metadata := [("parallelizable", .bool false)] }
    .ok (g.addNode node)

/-- Mark a node as a graph output (graph.py Graph.output; unknown ids raise
ValueError). -/
def Graph.output (g : Graph) (node : String) : Except PyErr Graph :=
  if dmem g.nodes node then .ok { g with outputs := g.outputs ++ [node] }
  else .error .valueError

/-! ## Strategies (src/solvers/strategies.py) -/

/-- String value of a node kind (graph.py IntentType values). -/
def IntentType.value : IntentType → String
  | .input => "input" | .output => "output" | .filter => "filter"
  | .map => "map" | .reduce => "reduce" | .compose => "compose"
  | .parallel => "parallel" | .constant => "constant" | .sort => "sort"
  | .group_by => "group_by" | .join => "join" | .flatten => "flatten"
  | .distinct => "distinct" | .assert => "assert"

/-- NaiveStrategy.can_handle. -/
def naiveCanHandle (intent_type : String) : Bool :=
  intent_type ∈ ["filter", "map", "reduce", "input", "output", "constant"]

/-- OptimizedStrategy.can_handle. -/
def optimizedCanHandle (intent_type : String) : Bool :=
  intent_type ∈ ["filter", "map", "reduce", "input", "output", "constant",
                 "sort", "group_by", "join", "flatten", "distinct"]

/-- VectorizedStrategy.can_handle (a declared but non-capable stub). -/
def vectorizedCanHandle (_ : String) : Bool := false

/-- A strategy object as the kernel sees it.  `tag` models Python object
identity (strategy classes define no custom equality, so list membership
compares identity). -/
structure StrategyInst where
  tag : Nat
  name : String
  canHandle : String → Bool

/-- The OptimizedStrategy instance allocated by the kernel constructor. -/
def optimizedInst : StrategyInst := ⟨0, "OptimizedStrategy", optimizedCanHandle⟩

/-- The NaiveStrategy instance allocated by the kernel constructor. -/
def naiveInst : StrategyInst := ⟨1, "NaiveStrategy", naiveCanHandle⟩

/-- SolverKernel.strategies: Optimized first, Naive second. -/
def kernelStrategies : List StrategyInst := [optimizedInst, naiveInst]

/-- The fresh NaiveStrategy() object allocated inside _select_strategy's
memory branch; its identity differs from every object in
`kernelStrategies`. -/
def freshNaive : StrategyInst := ⟨2, "NaiveStrategy", naiveCanHandle⟩

/-! ## Profiler (src/solvers/profiler.py).  Execution times are floats in
the source; the model uses rationals. -/

/-- A profiler record (profiler.py ProfileRecord). -/
structure ProfileRecord where
  intent_type : String
  strategy_name : String
  input_size : Nat
  execution_time_ms : ℚ
  sample_count : Nat
deriving Repr, DecidableEq

/-- EMA update of a record with weight alpha = 0.3 on the new sample
(ProfileRecord.update). -/
def ProfileRecord.update (r : ProfileRecord) (new_time_ms : ℚ) : ProfileRecord :=
  { r with execution_time_ms := (3 / 10) * new_time_ms + (7 / 10) * r.execution_time_ms,
           sample_count := r.sample_count + 1 }

/-- The profiler's in-memory store: insertion-ordered map from
(intent_type, strategy_name, size_bucket) to record.  Keys are encoded as
a single string triple for the association-list helpers. -/
abbrev Profiles := List ((String × String × Nat) × ProfileRecord)

/-- Size bucketing (profiler.py PerformanceProfiler._bucket_size).  All
call sites pass non-negative sizes. -/
def bucketSize (size : Nat) : Nat :=
  if size < 10 then size
  else if size < 100 then size / 10 * 10
  else if size < 1000 then size / 100 * 100
  else size / 1000 * 1000

/-- Triple-keyed lookup in the profile store. -/
def plookup (ps : Profiles) (key : String × String × Nat) : Option ProfileRecord :=
  match ps with
  | [] => Option.none
  | (k, r) :: rest => if k = key then some r else plookup rest key

/-- PerformanceProfiler._find_similar_profile: first record with matching
intent and strategy at minimal absolute bucket distance (Python min keeps
the first minimum in iteration order). -/
def findSimilarProfile (ps : Profiles) (intent_type strategy_name : String)
    (size : Nat) : Option ProfileRecord :=
  let candidates := (ps.filter
    (fun kr => kr.1.1 = intent_type ∧ kr.1.2.1 = strategy_name)).map (·.2)
  let dist : ProfileRecord → Nat := fun r => (Int.natAbs ((r.input_size : Int) - size))
  candidates.foldl
    (fun best r => match best with
      | Option.none => some r
      | some b => if dist r < dist b then some r else some b)
    Option.none

/-- PerformanceProfiler._default_cost_estimate. -/
def defaultCostEstimate (intent_type : String) (input_size : Nat) : ℚ :=
  let base : ℚ :=
    if intent_type = "filter" then 1 else if intent_type = "map" then 1
    else if intent_type = "reduce" then 3 / 2 else if intent_type = "sort" then 2
    else if intent_type = "group_by" then 2 else if intent_type = "join" then 3
    else if intent_type = "flatten" then 1 / 2
    else if intent_type = "distinct" then 3 / 2 else 1
  base * input_size

/-- PerformanceProfiler.get_cost_estimate: exact bucket hit, else linear
extrapolation from the closest record (Python would raise
ZeroDivisionError on a zero-sized record), else the per-kind default. -/
def getCostEstimate (ps : Profiles) (intent_type strategy_name : String)
    (input_size : Nat) : Except PyErr ℚ :=
  let size_bucket := bucketSize input_size
  match plookup ps (intent_type, strategy_name, size_bucket) with
  | some r => .ok r.execution_time_ms
  | Option.none =>
    match findSimilarProfile ps intent_type strategy_name size_bucket with
    | some r =>
        if r.input_size = 0 then .error .zeroDivisionError
        else .ok (r.execution_time_ms * ((input_size : ℚ) / (r.input_size : ℚ)))
    | Option.none => .ok (defaultCostEstimate intent_type input_size)

/-- PerformanceProfiler.record_execution. -/
def recordExecution (ps : Profiles) (intent_type strategy_name : String)
    (input_size : Nat) (execution_time_ms : ℚ) : Profiles :=
  let key := (intent_type, strategy_name, bucketSize input_size)
  match plookup ps key with
  | some _ =>
      ps.map (fun kr => if kr.1 = key then (kr.1, kr.2.update execution_time_ms) else kr)
  | Option.none =>
      ps ++ [(key, { intent_type := intent_type, strategy_name := strategy_name,
                     input_size := bucketSize input_size,
                     execution_time_ms := execution_time_ms, sample_count := 1 })]

/-! ## Solver kernel (src/solvers/kernel.py) -/

/-- SolverKernel._estimate_input_size: explicit size metadata wins; input
nodes default to 1000; otherwise trace the first input back through the
graph (raising KeyError on a dangling reference) and apply the kind ratio;
kinds without a ratio case fall through to the final default 1000.  The
fuel argument models Python's recursion limit; it is irrelevant for
acyclic graphs of depth below it. -/
def estimateInputSize (g : Graph) (sizeMeta : List (String × Nat)) :
    Nat → IntentNode → Except PyErr Nat
  | 0, _ => .error .recursionError
  | fuel + 1, node =>
    match dlookup sizeMeta node.id with
    | some s => .ok s
    | Option.none =>
      match node.inputs.head? with
      | Option.none => .ok 1000
      | some input_node_id =>
        match dlookup g.nodes input_node_id with
        | Option.none => .error .keyError
        | some inNode => do
          let base ← estimateInputSize g sizeMeta fuel inNode
          let it := node.intent_type.value
          if it = "filter" then .ok (base / 2)
          else if it = "map" then .ok base
          else if it = "flatten" then .ok (base * 2)
          else if it = "distinct" then .ok (base / 2)
          else if it = "group_by" then .ok (min (base / 10) 100)
          else if it = "reduce" then .ok 1
          else .ok 1000

/-- First strategy whose cost is minimal (Python min over (cost, strategy)
pairs keyed on the cost keeps the first minimum). -/
def argminFirstCost (pairs : List (ℚ × StrategyInst)) : Option StrategyInst :=
  (pairs.foldl
    (fun best p => match best with
      | Option.none => some p
      | some b => if p.1 < b.1 then some p else some b)
    Option.none).map (·.2)

/-- SolverKernel._select_strategy on a fresh decision cache, given the
estimated input size.  The memory branch allocates a new NaiveStrategy
and tests list membership, which compares object identity, so the test
never succeeds against the kernel's own instances. -/
def selectStrategy (ps : Profiles) (node : IntentNode) (optimize_for : String)
    (input_size : Nat) : Except PyErr StrategyInst :=
  let intent_type_str := node.intent_type.value
  let capable := kernelStrategies.filter (fun s => s.canHandle intent_type_str)
  match capable with
  | [] => .error .valueError
  | first :: _ =>
    let bucketed := bucketSize input_size
    if optimize_for = "speed" then do
      let costs ← capable.mapM (fun s => do
        let c ← getCostEstimate ps intent_type_str s.name bucketed
        pure (c, s))
      match argminFirstCost costs with
      | some s => .ok s
      | Option.none => .error .valueError
    else if optimize_for = "memory" then
      let naive := freshNaive
      .ok (if capable.any (fun s => s.tag = naive.tag) then naive else first)
    else .ok first

/-! ## Runtime semantics of the emitted actions.

The solver kernel lowers each node with the strategy selected for it.  With
an empty profile store the speed mode always selects OptimizedStrategy
(both strategies obtain the same per-kind default estimate and Python's
`min` keeps the first, which is OptimizedStrategy).  The per-node runtime
semantics below follow OptimizedStrategy.generate_code; NaiveStrategy
computes identical values for every kind it handles and differs only in
the exception raised by an empty reduce without initial value, which is
modelled separately (`naiveReduceRun`). -/

/-- Python list(filter(p, xs)) for a callable p: keep elements whose
predicate result is truthy, first exception propagates. -/
def pyFilter (p : Val → Except PyErr Val) : List Val → Except PyErr (List Val)
  | [] => .ok []
  | x :: xs => do
      let r ← p x
      let rest ← pyFilter p xs
      if truthy r then .ok (x :: rest) else .ok rest

/-- Semantics of the NaiveStrategy reduce loop: explicit iteration; without
an initial value, next() on an empty iterator raises StopIteration. -/
def naiveReduceRun (op : Val → Val → Except PyErr Val) (init : Option Val)
    (v : Val) : Except PyErr Val := do
  let xs ← pyIter v
  match init with
  | some i => xs.foldlM op i
  | Option.none =>
    match xs with
    | [] => .error .stopIteration
    | x :: rest => rest.foldlM op x

/-- Semantics of the OptimizedStrategy reduce: functools.reduce; without an
initial value, an empty iterable raises TypeError. -/
def optimizedReduceRun (op : Val → Val → Except PyErr Val) (init : Option Val)
    (v : Val) : Except PyErr Val := do
  let xs ← pyIter v
  match init with
  | some i => xs.foldlM op i
  | Option.none =>
    match xs with
    | [] => .error .typeError
    | x :: rest => rest.foldlM op x

/-- Stable insertion of a (key, value) pair into a key-sorted list: the new
pair goes after every pair it is not strictly below. -/
def insertPairM (lt : Val → Val → Except PyErr Bool) (p : Val × Val) :
    List (Val × Val) → Except PyErr (List (Val × Val))
  | [] => .ok [p]
  | q :: rest => do
      let b ← lt p.1 q.1
      if b then .ok (p :: q :: rest)
      else do
        let tail ← insertPairM lt p rest
        .ok (q :: tail)

/-- Stable sort of decorated pairs by key under a monadic comparison. -/
def sortPairsM (lt : Val → Val → Except PyErr Bool) (ps : List (Val × Val)) :
    Except PyErr (List (Val × Val)) :=
  ps.foldlM (fun acc p => insertPairM lt p acc) []

/-- Python sorted(xs, key=?, reverse=?): the key is applied once per element
in input order, comparison is on keys only, the sort is stable, and
reverse flips the comparison. -/
def pySorted (fe : FunEnv) (key : Option FnExpr) (rev : Bool) (xs : List Val) :
    Except PyErr (List Val) := do
  let keyed ← xs.mapM (fun x =>
    match key with
    | some k => do let kv ← applyFn fe k x; pure (kv, x)
    | Option.none => pure (x, x))
  let cmp : Val → Val → Except PyErr Bool :=
    if rev then fun a b => pyLt b a else pyLt
  let sorted ← sortPairsM cmp keyed
  pure (sorted.map (·.2))

/-- Group adjacent elements of a (key, value)-decorated list by key
equality (itertools.groupby uses ==). -/
def chunkByKey : List (Val × Val) → List (Val × List Val)
  | [] => []
  | (k, x) :: rest =>
    match chunkByKey rest with
    | [] => [(k, [x])]
    | (k2, g) :: gs => if k == k2 then (k, x :: g) :: gs else (k, [x]) :: (k2, g) :: gs

/-- Insert into a Val-keyed dict (Python dict assignment: replace in place
or append). -/
def vdinsert : List (Val × Val) → Val → Val → List (Val × Val)
  | [], k, v => [(k, v)]
  | (k2, w) :: rest, k, v =>
      if k2 == k then (k2, v) :: rest else (k2, w) :: vdinsert rest k v

/-- Semantics of the OptimizedStrategy group_by: sort by key first, then
group adjacent equal keys (itertools.groupby re-applies the key function),
building the result dict in group order; an unhashable key raises
TypeError at dict insertion. -/
def pyGroupBy (fe : FunEnv) (key : FnExpr) (xs : List Val) : Except PyErr Val := do
  let sorted ← pySorted fe (some key) false xs
  let ks ← sorted.mapM (applyFn fe key)
  let groups := chunkByKey (ks.zip sorted)
  let d ← groups.foldlM
    (fun d kg =>
      if kg.1.hashable then .ok (vdinsert d kg.1 (.list kg.2))
      else .error .typeError)
    ([] : List (Val × Val))
  .ok (.dict d)

/-- Semantics of the join comprehension: cross product in left-outer then
right-inner order, filtered by the truthiness of the condition, producing
2-tuples. -/
def pyJoin (onFn : Val → Val → Except PyErr Val) (lv rv : Val) :
    Except PyErr Val := do
  let ls ← pyIter lv
  let rs ← pyIter rv
  let pairs ← ls.foldlM
    (fun (acc : List Val) l =>
      rs.foldlM
        (fun (acc : List Val) r => do
          let b ← onFn l r
          if truthy b then pure (acc ++ [.tuple [l, r]]) else pure acc)
        acc)
    []
  .ok (.list pairs)

/-- Semantics of flatten: list(chain.from_iterable(v)) concatenates one
nesting level; a non-iterable element raises TypeError. -/
def pyFlatten (v : Val) : Except PyErr Val := do
  let xss ← pyIter v
  let parts ← xss.mapM pyIter
  .ok (.list parts.flatten)

/-- Semantics of distinct: list(dict.fromkeys(xs)) keeps first occurrences
in order; an unhashable element raises TypeError. -/
def pyDistinct : List Val → Except PyErr (List Val) :=
  go []
where
  /-- Accumulating pass carrying the set of already-seen elements. -/
  go (seen : List Val) : List Val → Except PyErr (List Val)
    | [] => .ok []
    | x :: xs =>
      if x.hashable then
        if seen.contains x then go seen xs
        else do
          let rest ← go (x :: seen) xs
          .ok (x :: rest)
      else .error .typeError

/-- The lowered runtime action of one node (the data embedded in the code
string OptimizedStrategy.generate_code emits, with the captured callables
from the context table). -/
inductive NodeAction where
  | inputA (name : String)
  | constA (v : Val)
  | filterA (src : String) (p : FnExpr)
  | mapA (src : String) (f : FnExpr)
  | reduceA (src : String) (op : PVal) (init : Option Val)
  | sortA (src : String) (key : Option FnExpr) (rev : Bool)
  | groupByA (src : String) (key : FnExpr)
  | joinA (l r : String) (onP : PVal)
  | flattenA (src : String)
  | distinctA (src : String)
deriving Repr, DecidableEq

/-- Extraction of the reduce initial parameter at code generation time:
params.get("initial") returning None (or the parameter being None) selects
the no-initial variant; a callable initial would be embedded through repr
and break the generated source. -/
def initOf : Option PVal → Except PyErr (Option Val)
  | Option.none => .ok Option.none
  | some (.val .none) => .ok Option.none
  | some (.val v) => .ok (some v)
  | some _ => .error .syntaxError

/-- Code generation for one node: the kernel first selects a strategy
(ValueError when no strategy can handle the kind — this is how an Assert
node fails), then OptimizedStrategy.generate_code reads the node's inputs
and parameters.  Output-kind nodes are accepted by can_handle but have no
generate_code branch (NotImplementedError); the graph builder never
creates them. -/
def emitNode (node : IntentNode) : Except PyErr NodeAction :=
  let its := node.intent_type.value
  if (kernelStrategies.filter (fun s => s.canHandle its)).isEmpty then
    .error .valueError
  else
    match node.intent_type with
    | .input =>
      match dlookup node.params "name" with
      | Option.none => .error .keyError
      | some (.val (.str s)) => .ok (.inputA s)
      | some _ => .error .syntaxError
    | .constant =>
      match dlookup node.params "value" with
      | Option.none => .error .keyError
      | some (.val v) => .ok (.constA v)
      | some _ => .error .syntaxError
    | .filter =>
      match node.inputs.head? with
      | Option.none => .error .indexError
      | some src =>
        match dlookup node.params "predicate" with
        | Option.none => .error .keyError
        | some p => .ok (.filterA src p.asFn)
    | .map =>
      match node.inputs.head? with
      | Option.none => .error .indexError
      | some src =>
        match dlookup node.params "transform" with
        | Option.none => .error .keyError
        | some f => .ok (.mapA src f.asFn)
    | .reduce =>
      match node.inputs.head? with
      | Option.none => .error .indexError
      | some src =>
        match dlookup node.params "operation" with
        | Option.none => .error .keyError
        | some op => do
          let init ← initOf (dlookup node.params "initial")
          .ok (.reduceA src op init)
    | .sort =>
      match node.inputs.head? with
      | Option.none => .error .indexError
      | some src =>
        let keyO : Option FnExpr :=
          match dlookup node.params "key" with
          | Option.none => Option.none
          | some (.func f) => some f
          | some (.func2 h) => some (.bin h)
          | some (.val v) => if truthy v then some (.lit v) else Option.none
        match dlookup node.params "reverse" with
        | Option.none => .ok (.sortA src keyO false)
        | some (.val (.bool b)) => .ok (.sortA src keyO b)
        | some (.val (.int n)) => .ok (.sortA src keyO (n != 0))
        | some (.val .none) => .ok (.sortA src keyO false)
        | some _ => .error .nameError
    | .group_by =>
      match node.inputs.head? with
      | Option.none => .error .indexError
      | some src =>
        match dlookup node.params "key" with
        | Option.none => .error .keyError
        | some k => .ok (.groupByA src k.asFn)
    | .join =>
      match node.inputs with
      | [l, r] =>
        match dlookup node.params "on" with
        | Option.none => .error .keyError
        | some p => .ok (.joinA l r p)
      | _ => .error .valueError
    | .flatten =>
      match node.inputs.head? with
      | Option.none => .error .indexError
      | some src => .ok (.flattenA src)
    | .distinct =>
      match node.inputs.head? with
      | Option.none => .error .indexError
      | some src => .ok (.distinctA src)
    | .output => .error .notImplementedError
    | _ => .error .valueError

/-- Run one lowered action.  `args` are the keyword arguments of the plan
invocation (read by Input actions); `ρ` resolves the value of an
already-computed node variable. -/
def runAction (fe : FunEnv) (args : List (String × Val))
    (ρ : String → Except PyErr Val) : NodeAction → Except PyErr Val
  | .inputA name =>
    match dlookup args name with
    | some v => .ok v
    | Option.none => .error .typeError
  | .constA v => .ok v
  | .filterA src p => do
    let v ← ρ src
    let xs ← pyIter v
    match p with
    | .lit .none => .ok (.list (xs.filter truthy))
    | _ => do
      let ys ← pyFilter (applyFn fe p) xs
      .ok (.list ys)
  | .mapA src f => do
    let v ← ρ src
    let xs ← pyIter v
    let ys ← xs.mapM (applyFn fe f)
    .ok (.list ys)
  | .reduceA src op init => do
    let v ← ρ src
    optimizedReduceRun (op.asFn2 fe) init v
  | .sortA src key rev => do
    let v ← ρ src
    let xs ← pyIter v
    let ys ← pySorted fe key rev xs
    .ok (.list ys)
  | .groupByA src key => do
    let v ← ρ src
    let xs ← pyIter v
    pyGroupBy fe key xs
  | .joinA l r onP => do
    let lv ← ρ l
    let rv ← ρ r
    pyJoin (onP.asFn2 fe) lv rv
  | .flattenA src => do
    let v ← ρ src
    pyFlatten v
  | .distinctA src => do
    let v ← ρ src
    let xs ← pyIter v
    let ys ← pyDistinct xs
    .ok (.list ys)

/-- DFS visitor of graph.py get_execution_order: marks the node visited,
then visits its inputs (KeyError on a dangling id), then appends the node
(postorder).  The fuel models Python's recursion limit; any fuel above the
node count is never exhausted because each nesting level marks a fresh
node. -/
def visitDFS (g : Graph) : Nat → String → List String × List String →
    Except PyErr (List String × List String)
  | 0, _, _ => .error .recursionError
  | fuel + 1, node_id, (visited, order) =>
    if node_id ∈ visited then .ok (visited, order)
    else
      let visited := node_id :: visited
      match dlookup g.nodes node_id with
      | Option.none => .error .keyError
      | some node => do
        let st ← node.inputs.foldlM (fun st i => visitDFS g fuel i st) (visited, order)
        .ok (st.1, st.2 ++ [node_id])

/-- Topological execution order (graph.py get_execution_order): DFS
postorder from the outputs; unreachable nodes stay out of the order. -/
def getExecutionOrder (g : Graph) : Except PyErr (List String) := do
  let st ← g.outputs.foldlM
    (fun st o => visitDFS g (g.nodes.length + 1) o st) ([], [])
  .ok st.2

/-- Parameter names of the compiled function (kernel.compile): one per
Input-kind node over the whole node dict, in dict order; a missing name
parameter raises KeyError and a non-string one breaks the generated
source. -/
def inputParamNames (g : Graph) : Except PyErr (List String) :=
  (g.nodes.filter (fun kv => kv.2.intent_type = .input)).mapM
    (fun kv =>
      match dlookup kv.2.params "name" with
      | some (PVal.val (Val.str s)) => .ok s
      | some _ => .error .syntaxError
      | Option.none => .error .keyError)

/-- Compile the graph and invoke the resulting plan on keyword arguments
(kernel.SolverKernel.compile followed by the call of the generated
function): resolve the execution order, lower each node in order, bind the
keyword arguments against the function's parameters (missing or unexpected
keywords raise TypeError, duplicate parameter names break the generated
source), execute the actions in order, and return the single output value
or the tuple of outputs (None when there are no outputs). -/
def execute (fe : FunEnv) (g : Graph) (args : List (String × Val)) :
    Except PyErr Val := do
  let order ← getExecutionOrder g
  let actions ← order.mapM (fun id =>
    match dlookup g.nodes id with
    | Option.none => .error .nameError
    | some node => do
      let a ← emitNode node
      pure (id, a))
  let names ← inputParamNames g
  if ¬ names.Nodup then .error .syntaxError
  else if names.any (fun n => ¬ dmem args n) then .error .typeError
  else if args.any (fun kv => ¬ names.contains kv.1) then .error .typeError
  else
    let env ← actions.foldlM
      (fun env (idA : String × NodeAction) => do
        let v ← runAction fe args
          (fun s =>
            match dlookup env s with
            | some v => .ok v
            | Option.none => .error .nameError)
          idA.2
        pure (dinsert env idA.1 v))
      ([] : List (String × Val))
    match g.outputs with
    | [] => .ok .none
    | [o] =>
      match dlookup env o with
      | some v => .ok v
      | Option.none => .error .nameError
    | os => do
      let vs ← os.mapM (fun o =>
        match dlookup env o with
        | some v => .ok v
        | Option.none => (.error .nameError : Except PyErr Val))
      .ok (.tuple vs)

/-! ## Optimizer (src/core/optimizer.py) -/

/-- Recursive reachability marking of _dead_code_elimination: add the node,
then recurse into its inputs; a dangling id raises KeyError.  The fuel
models the recursion limit and is never exhausted above the node count. -/
def markReach (g : Graph) : Nat → String → List String → Except PyErr (List String)
  | 0, _, _ => .error .recursionError
  | fuel + 1, node_id, reachable =>
    if node_id ∈ reachable then .ok reachable
    else
      let reachable := node_id :: reachable
      match dlookup g.nodes node_id with
      | Option.none => .error .keyError
      | some node => node.inputs.foldlM (fun r i => markReach g fuel i r) reachable

/-- GraphOptimizer._dead_code_elimination: delete every node not reachable
from an output. -/
def deadCodeElimination (g : Graph) : Except PyErr Graph := do
  let reachable ← g.outputs.foldlM
    (fun r o => markReach g (g.nodes.length + 1) o r) []
  .ok { g with nodes := g.nodes.filter (fun kv => kv.1 ∈ reachable) }

/-- One entry of a CSE parameter signature: callables contribute their
identity (the model's FnExpr structural equality / binary handle),
non-callables contribute the value itself. -/
inductive SigVal where
  | fid : FnExpr → SigVal
  | fid2 : Nat → SigVal
  | lit : Val → SigVal
deriving Repr, DecidableEq

/-- CSE node signature (get_node_signature): kind, ordered inputs, and the
parameters sorted by key. -/
abbrev Sig := IntentType × List String × List (String × SigVal)

/-- Signature entry of one parameter value. -/
def sigValOf : PVal → SigVal
  | .func f => .fid f
  | .func2 h => .fid2 h
  | .val v => .lit v

/-- Insertion sort of the parameter list by key (Python sorted over the
unique dict keys). -/
def sortParams : List (String × PVal) → List (String × PVal)
  | [] => []
  | kv :: rest => insertByKey kv (sortParams rest)
where
  /-- Insert one pair keeping keys ascending. -/
  insertByKey (kv : String × PVal) : List (String × PVal) → List (String × PVal)
    | [] => [kv]
    | kv2 :: rest =>
      if kv.1 ≤ kv2.1 then kv :: kv2 :: rest else kv2 :: insertByKey kv rest

/-- The CSE signature of a node. -/
def sigOf (node : IntentNode) : Sig :=
  (node.intent_type, node.inputs,
   (sortParams node.params).map (fun kv => (kv.1, sigValOf kv.2)))

/-- Whether the node's signature tuple is hashable: callables hash by id;
a non-callable parameter whose value is unhashable (a list or dict, for
example a Constant holding a list) makes the signature unhashable, and
using it as a dict key raises TypeError. -/
def sigHashable (node : IntentNode) : Bool :=
  node.params.all (fun kv =>
    match kv.2 with
    | .val v => v.hashable
    | _ => true)

/-- Build signature_to_nodes: iterate the node dict in order, raising
TypeError at the first unhashable signature, grouping ids under their
signature in first-occurrence order. -/
def groupBySig : List (String × IntentNode) → Except PyErr (List (Sig × List String))
  | [] => .ok []
  | (id, node) :: rest => do
    if ¬ sigHashable node then .error .typeError
    else do
      let groups ← groupBySig rest
      pure (addTo (sigOf node) id groups)
where
  /-- Prepend the id to its signature group, keeping group order. -/
  addTo (s : Sig) (id : String) : List (Sig × List String) → List (Sig × List String)
    | [] => [(s, [id])]
    | (s2, ids) :: gs =>
      if s2 = s then (s2, id :: ids) :: gs else (s2, ids) :: addTo s id gs

/-- Python == on optional parameter values (node.params.get results):
callables compare by identity, literals structurally, a missing parameter
is None. -/
def pvalEqOpt : Option PVal → Option PVal → Bool
  | some a, some b => a == b
  | Option.none, Option.none => true
  | some (.val .none), Option.none => true
  | Option.none, some (.val .none) => true
  | _, _ => false

/-- GraphOptimizer._params_identical on one pair of values: two callables
compare by identity, everything else by _deep_equal (type-strict deep
equality, structural in the model; a callable against a non-callable is
never equal). -/
def pvIdentical : PVal → PVal → Bool
  | .func f, .func g => f == g
  | .func2 h, .func2 h2 => h == h2
  | .val a, .val b => a == b
  | _, _ => false

/-- GraphOptimizer._params_identical: equal key sets, and each shared key
identical under `pvIdentical`. -/
def paramsIdentical (p1 p2 : List (String × PVal)) : Bool :=
  (p1.all (fun kv => dmem p2 kv.1) && p2.all (fun kv => dmem p1 kv.1)) &&
  p1.all (fun kv =>
    match dlookup p2 kv.1 with
    | some v2 => pvIdentical kv.2 v2
    | Option.none => false)

/-- Duplicate-to-canonical pairs of CSE: in each signature group the first
id is canonical; Constant duplicates merge when their values compare
equal, other duplicates only when all parameters are identical (callables
by object identity). -/
def canonicalPairs (g : Graph) (groups : List (Sig × List String)) :
    List (String × String) :=
  groups.foldl
    (fun acc sg =>
      match sg.2 with
      | canonical_id :: rest =>
        if rest.isEmpty then acc
        else
          match dlookup g.nodes canonical_id with
          | Option.none => acc
          | some cnode =>
            if cnode.intent_type = .constant then
              acc ++ (rest.filter (fun dup =>
                match dlookup g.nodes dup with
                | some dnode =>
                    pvalEqOpt (dlookup cnode.params "value") (dlookup dnode.params "value")
                | Option.none => false)).map (fun dup => (dup, canonical_id))
            else
              acc ++ (rest.filter (fun dup =>
                match dlookup g.nodes dup with
                | some dnode => paramsIdentical cnode.params dnode.params
                | Option.none => false)).map (fun dup => (dup, canonical_id))
      | [] => acc)
    []

/-- The CSE rewrite of the outputs list: duplicates are redirected to their
canonical id but dropped when that canonical is already present;
non-duplicate outputs are kept unconditionally. -/
def rewriteOutputs (ntc : List (String × String)) (outs : List String) : List String :=
  outs.foldl
    (fun acc o =>
      match dlookup ntc o with
      | some canonical => if canonical ∈ acc then acc else acc ++ [canonical]
      | Option.none => acc ++ [o])
    []

/-- GraphOptimizer._common_subexpression_elimination: group nodes by
signature, choose the first node of each group as canonical, redirect
inputs and outputs, then run dead-code elimination; when nothing merged
the graph is left untouched. -/
def cse (g : Graph) : Except PyErr Graph := do
  let groups ← groupBySig g.nodes
  let ntc := canonicalPairs g groups
  if ntc.isEmpty then .ok g
  else
    let nodes := g.nodes.map (fun kv =>
      (kv.1, { kv.2 with inputs := kv.2.inputs.map (fun i => (dlookup ntc i).getD i) }))
    let outputs := rewriteOutputs ntc g.outputs
    deadCodeElimination { g with nodes := nodes, outputs := outputs }

/-- State threaded through the fusion passes: current graph, ids already
consumed as the inner half of a fusion, the allocation counter for the
fused closures and the change count. -/
structure FuseSt where
  g : Graph
  fused : List String
  tag : Nat
  changes : Nat

/-- One iteration of the filter-fusion scan: when the node is a Filter not
already fused away, whose first input exists, is a Filter and is not fused
away, replace its predicate by the combined closure (inner and-then outer,
short-circuiting) and rewire it to the inner node's inputs.  A filter
without a predicate parameter raises KeyError. -/
def filterFusionStep (st : FuseSt) (node_id : String) : Except PyErr FuseSt :=
  match dlookup st.g.nodes node_id with
  | Option.none => .ok st
  | some node =>
    if node.intent_type ≠ .filter then .ok st
    else if node.inputs.isEmpty ∨ node_id ∈ st.fused then .ok st
    else
      match node.inputs.head? with
      | Option.none => .ok st
      | some input_id =>
        match dlookup st.g.nodes input_id with
        | Option.none => .ok st
        | some input_node =>
          if input_node.intent_type ≠ .filter ∨ input_id ∈ st.fused then .ok st
          else
            match dlookup input_node.params "predicate",
                  dlookup node.params "predicate" with
            | some pred1, some pred2 =>
              let combined := FnExpr.conj st.tag pred1.asFn pred2.asFn
              let node2 := { node with
                params := dinsert node.params "predicate" (.func combined),
                inputs := input_node.inputs }
              .ok { g := { st.g with nodes := dinsert st.g.nodes node_id node2 },
                    fused := input_id :: st.fused,
                    tag := st.tag + 1, changes := st.changes + 1 }
            | _, _ => .error .keyError

/-- GraphOptimizer._filter_fusion: scan the node-dict snapshot in order,
fuse adjacent filter pairs, then run dead-code elimination when anything
changed. -/
def filterFusion (g : Graph) (tag : Nat) : Except PyErr (Graph × Nat) := do
  let st ← (g.nodes.map (·.1)).foldlM filterFusionStep ⟨g, [], tag, 0⟩
  if st.changes > 0 then do
    let g2 ← deadCodeElimination st.g
    .ok (g2, st.tag)
  else .ok (st.g, st.tag)

/-- One iteration of the map-fusion scan (composed transform: inner first,
then outer). -/
def mapFusionStep (st : FuseSt) (node_id : String) : Except PyErr FuseSt :=
  match dlookup st.g.nodes node_id with
  | Option.none => .ok st
  | some node =>
    if node.intent_type ≠ .map then .ok st
    else if node.inputs.isEmpty ∨ node_id ∈ st.fused then .ok st
    else
      match node.inputs.head? with
      | Option.none => .ok st
      | some input_id =>
        match dlookup st.g.nodes input_id with
        | Option.none => .ok st
        | some input_node =>
          if input_node.intent_type ≠ .map ∨ input_id ∈ st.fused then .ok st
          else
            match dlookup input_node.params "transform",
                  dlookup node.params "transform" with
            | some t1, some t2 =>
              let composed := FnExpr.comp st.tag t1.asFn t2.asFn
              let node2 := { node with
                params := dinsert node.params "transform" (.func composed),
                inputs := input_node.inputs }
              .ok { g := { st.g with nodes := dinsert st.g.nodes node_id node2 },
                    fused := input_id :: st.fused,
                    tag := st.tag + 1, changes := st.changes + 1 }
            | _, _ => .error .keyError

/-- GraphOptimizer._map_fusion. -/
def mapFusion (g : Graph) (tag : Nat) : Except PyErr (Graph × Nat) := do
  let st ← (g.nodes.map (·.1)).foldlM mapFusionStep ⟨g, [], tag, 0⟩
  if st.changes > 0 then do
    let g2 ← deadCodeElimination st.g
    .ok (g2, st.tag)
  else .ok (st.g, st.tag)

/-- GraphOptimizer._count_consumers: number of nodes listing the id among
their inputs (once per node), plus one when the id is an output. -/
def countConsumers (g : Graph) (node_id : String) : Nat :=
  (g.nodes.filter (fun kv => node_id ∈ kv.2.inputs)).length +
  (if node_id ∈ g.outputs then 1 else 0)

/-- The three probe sequences of _is_predicate_independent. -/
def testCases : List (List Val) :=
  [[.int 1, .int 2, .int 3, .int 4, .int 5, .int 10, .int 20, .int 30,
    .int (-1), .int (-5), .int 0],
   [.str "a", .str "ab", .str "abc", .str "hello", .str "world", .str "test",
    .str "x", .str ""],
   [.int 0, .int 1, .int (-1), .int 100, .int (-100), .int 42, .int 7, .int 13]]

/-- The input-domain failure kinds tolerated by the probe harness
(TypeError, AttributeError, KeyError, ValueError). -/
def tolerated : PyErr → Bool
  | .typeError => true
  | .attributeError => true
  | .keyError => true
  | .valueError => true
  | _ => false

/-- One probe dataset of _is_predicate_independent: map-then-filter, then
filter-then-map; a tolerated failure in the inner (filter-first) block
rejects the rewrite, a tolerated failure in the outer block skips the
dataset, any other exception propagates; differing results reject.
Result: none = continue to the next dataset, some b = return b. -/
def probeDataset (transform predicate : Val → Except PyErr Val)
    (test_data : List Val) : Except PyErr (Option Bool) :=
  let inner : List Val → Except PyErr (Option Bool) := fun result1 => do
    let filtered ← pyFilter predicate test_data
    let result2 ← filtered.mapM transform
    if Val.beqList result1 result2 then pure Option.none else pure (some false)
  let outer : Except PyErr (Option Bool) := do
    let mapped ← test_data.mapM transform
    let result1 ← pyFilter predicate mapped
    match inner result1 with
    | .error e => if tolerated e then pure (some false) else .error e
    | .ok r => pure r
  match outer with
  | .error e => if tolerated e then .ok Option.none else .error e
  | .ok r => .ok r

/-- GraphOptimizer._is_predicate_independent: run the probe datasets in
order; the first decisive one answers; if every dataset is skipped or
agrees, declare independence. -/
def isPredicateIndependent (transform predicate : Val → Except PyErr Val) :
    Except PyErr Bool :=
  go testCases
where
  /-- Iterate the datasets. -/
  go : List (List Val) → Except PyErr Bool
    | [] => .ok true
    | td :: rest => do
      let r ← probeDataset transform predicate td
      match r with
      | Option.none => go rest
      | some b => .ok b

/-- Truthiness of a parameter value (function objects are truthy). -/
def pvTruthy : PVal → Bool
  | .func _ => true
  | .func2 _ => true
  | .val v => truthy v

/-- One iteration of the filter-before-map scan: on a Filter with exactly
one input that is a Map with exactly one consumer and truthy transform and
predicate parameters, when the probe harness declares independence, swap
the two nodes (filter takes the map's inputs, the map consumes the filter,
every other reference to the filter and the outputs are redirected to the
map). -/
def filterBeforeMapStep (fe : FunEnv) (g : Graph) (filter_id : String) :
    Except PyErr Graph :=
  match dlookup g.nodes filter_id with
  | Option.none => .ok g
  | some filter_node =>
    if filter_node.intent_type ≠ .filter then .ok g
    else if filter_node.inputs.length ≠ 1 then .ok g
    else
      match filter_node.inputs.head? with
      | Option.none => .ok g
      | some map_id =>
        match dlookup g.nodes map_id with
        | Option.none => .ok g
        | some map_node =>
          if map_node.intent_type ≠ .map then .ok g
          else if countConsumers g map_id ≠ 1 then .ok g
          else
            match dlookup map_node.params "transform",
                  dlookup filter_node.params "predicate" with
            | some t, some p =>
              if ¬ (pvTruthy t && pvTruthy p) then .ok g
              else do
                let indep ← isPredicateIndependent
                  (applyFn fe t.asFn) (applyFn fe p.asFn)
                if indep then
                  let filter2 := { filter_node with inputs := map_node.inputs }
                  let map2 := { map_node with inputs := [filter_id] }
                  let nodes1 := dinsert (dinsert g.nodes filter_id filter2) map_id map2
                  let nodes2 := nodes1.map (fun kv =>
                    if kv.1 = map_id then kv
                    else (kv.1, { kv.2 with inputs :=
                      (kv.2.inputs.map (fun i => if i = filter_id then map_id else i)) }))
                  let outputs := g.outputs.map
                    (fun o => if o = filter_id then map_id else o)
                  .ok { g with nodes := nodes2, outputs := outputs }
                else .ok g
            | _, _ => .ok g

/-- GraphOptimizer._filter_before_map: scan the node-dict snapshot in
order (no trailing dead-code elimination). -/
def filterBeforeMap (fe : FunEnv) (g : Graph) : Except PyErr Graph :=
  (g.nodes.map (·.1)).foldlM (filterBeforeMapStep fe) g

/-- The default pass pipeline of GraphOptimizer.optimize. -/
def defaultPasses : List String :=
  ["dead_code_elimination", "common_subexpression_elimination",
   "filter_fusion", "map_fusion", "filter_before_map"]

/-- Dispatch of one optimization pass by name; an unknown name raises
ValueError. -/
def runPass (fe : FunEnv) (st : Graph × Nat) (pass_name : String) :
    Except PyErr (Graph × Nat) :=
  if pass_name = "dead_code_elimination" then do
    let g ← deadCodeElimination st.1
    .ok (g, st.2)
  else if pass_name = "common_subexpression_elimination" then do
    let g ← cse st.1
    .ok (g, st.2)
  else if pass_name = "filter_fusion" then filterFusion st.1 st.2
  else if pass_name = "map_fusion" then mapFusion st.1 st.2
  else if pass_name = "filter_before_map" then do
    let g ← filterBeforeMap fe st.1
    .ok (g, st.2)
  else .error .valueError

/-- GraphOptimizer.optimize: run the requested passes (default pipeline
when none are given) in order.  The extra Nat threads the allocation
counter for the closures built by the fusion passes. -/
def optimize (fe : FunEnv) (g : Graph) (tag : Nat)
    (passes : Option (List String) := Option.none) : Except PyErr (Graph × Nat) :=
  (passes.getD defaultPasses).foldlM (runPass fe) (g, tag)

/-! ## Denotational evaluator and well-formedness (specification devices
for the preservation proofs; `deval` recomputes shared nodes instead of
storing them, which is invisible for the pure, deterministic actions). -/

/-- Fuel-indexed denotational evaluation of one node: look the node up,
lower it, and run its action resolving inputs recursively. -/
def deval (fe : FunEnv) (g : Graph) (args : List (String × Val)) :
    Nat → String → Except PyErr Val
  | 0, _ => .error .fuelOut
  | fuel + 1, id =>
    match dlookup g.nodes id with
    | Option.none => .error .nameError
    | some node => do
      let a ← emitNode node
      runAction fe args (fun s => deval fe g args fuel s) a

/-- Denotational evaluation of the graph's outputs with the same result
shaping as the compiled plan's return statement. -/
def devalOuts (fe : FunEnv) (g : Graph) (args : List (String × Val))
    (fuel : Nat) : Except PyErr Val :=
  match g.outputs with
  | [] => .ok .none
  | [o] => deval fe g args fuel o
  | os => do
    let vs ← os.mapM (deval fe g args fuel)
    .ok (.tuple vs)

/-- Simulation order on graphs: every successful node denotation of the
first graph is reproduced under the same node id by the second at some
fuel. -/
def devalSim (fe : FunEnv) (args : List (String × Val)) (g g' : Graph) : Prop :=
  ∀ fuel id v, deval fe g args fuel id = .ok v →
    ∃ f', deval fe g' args f' id = .ok v

/-- The node variables a lowered action reads at run time. -/
def actionSources : NodeAction → List String
  | .inputA _ => []
  | .constA _ => []
  | .filterA src _ => [src]
  | .mapA src _ => [src]
  | .reduceA src _ _ => [src]
  | .sortA src _ _ => [src]
  | .groupByA src _ => [src]
  | .joinA l r _ => [l, r]
  | .flattenA src => [src]
  | .distinctA src => [src]

/-- Rename the node variables of a lowered action (the effect on the
generated code of rewriting a node's input list). -/
def actionSubst (σ : String → String) : NodeAction → NodeAction
  | .inputA n => .inputA n
  | .constA v => .constA v
  | .filterA src p => .filterA (σ src) p
  | .mapA src f => .mapA (σ src) f
  | .reduceA src op init => .reduceA (σ src) op init
  | .sortA src key rev => .sortA (σ src) key rev
  | .groupByA src key => .groupByA (σ src) key
  | .joinA l r onP => .joinA (σ l) (σ r) onP
  | .flattenA src => .flattenA (σ src)
  | .distinctA src => .distinctA (σ src)

/-- Whether a function expression denotes an actual Python callable (the
`lit`/`bin` constructors model non-callable or wrong-arity objects placed
in callable positions). -/
def FnExpr.callable : FnExpr → Bool
  | .base _ => true
  | .conj _ p1 p2 => p1.callable && p2.callable
  | .comp _ f1 f2 => f1.callable && f2.callable
  | .lit _ => false
  | .bin _ => false

/-- Kind-appropriate callable parameters: a Filter node carries a callable
predicate and a Map node a callable transform (true of every
builder-created node). -/
def IntentNode.wfCallableParams (n : IntentNode) : Bool :=
  (match n.intent_type, dlookup n.params "predicate" with
   | .filter, some (.func f) => f.callable
   | .filter, _ => false
   | _, _ => true) &&
  (match n.intent_type, dlookup n.params "transform" with
   | .map, some (.func f) => f.callable
   | .map, _ => false
   | _, _ => true)

/-- Well-formed graph: node keys are unique and each node records its own
key as id, has unique parameter keys, and carries kind-appropriate
callable parameters.  Builder-created graphs satisfy all of it. -/
def Graph.wf (g : Graph) : Bool :=
  decide ((g.nodes.map (·.1)).Nodup) &&
  g.nodes.all (fun kv =>
    kv.2.id == kv.1 &&
    decide ((kv.2.params.map (·.1)).Nodup) &&
    kv.2.wfCallableParams)

/-- Whether the CSE pass would rewrite the outputs list without merging
two distinct output positions (when false, two outputs collapse into one
and the plan's result shape changes). -/
def cseNoOutputMerge (g : Graph) : Bool :=
  match groupBySig g.nodes with
  | .error _ => false
  | .ok groups =>
    let ntc := canonicalPairs g groups
    rewriteOutputs ntc g.outputs == g.outputs.map (fun o => (dlookup ntc o).getD o)

/-! ## Concrete artifacts for the claim instances. -/

/-- Shorthand node constructor for the concrete graphs below. -/
def mkNode (id : String) (k : IntentType) (ins : List String)
    (ps : List (String × PVal)) : IntentNode :=
  { id := id, intent_type := k, inputs := ins, params := ps,
    output_type := .anyT, metadata := [] }

/-- Function table of the concrete examples: handle 0 is x > 5, handle 1 is
x < 20, handle 2 is x * 2, handle 3 is x > 10; binary handle 0 is
addition.  Non-integer arguments raise TypeError as the Python operators
would. -/
def exFunEnv : FunEnv where
  ap1 := fun h x =>
    match h, x with
    | 0, .int n => .ok (.bool (5 < n))
    | 1, .int n => .ok (.bool (n < 20))
    | 2, .int n => .ok (.int (n * 2))
    | 3, .int n => .ok (.bool (10 < n))
    | _, _ => .error .typeError
  ap2 := fun h a b =>
    match h, a, b with
    | 0, .int x, .int y => .ok (.int (x + y))
    | _, _, _ => .error .typeError

/-- The empty graph (Graph.__init__). -/
def graphInit : Graph := { nodes := [], outputs := [], node_counter := 0 }

/-- Concrete two-filter pipeline of the filter-fusion scenario: input
`data`, filter x > 5, filter x < 20. -/
def gFusion : Graph :=
  { nodes := [("in0", mkNode "in0" .input [] [("name", .val (.str "data"))]),
              ("f1", mkNode "f1" .filter ["in0"] [("predicate", .func (.base 0))]),
              ("f2", mkNode "f2" .filter ["f1"] [("predicate", .func (.base 1))])],
    outputs := ["f2"], node_counter := 3 }

/-- The probe sequence [3, 7, 10, 15, 25, 30] of the fusion scenario. -/
def dataFusion : Val := .list [.int 3, .int 7, .int 10, .int 15, .int 25, .int 30]

/-- Concrete graph with an Assert node: input `data`, assert with the x > 5
predicate. -/
def gAssert : Graph :=
  { nodes := [("in0", mkNode "in0" .input [] [("name", .val (.str "data"))]),
              ("a1", mkNode "a1" .assert ["in0"]
                [("predicate", .func (.base 0)), ("message", .val (.str "msg"))])],
    outputs := ["a1"], node_counter := 2 }

/-- Concrete graph whose single Constant carries the list [1, 2, 3]. -/
def gListConst : Graph :=
  { nodes := [("c0", mkNode "c0" .constant []
      [("value", .val (.list [.int 1, .int 2, .int 3]))])],
    outputs := ["c0"], node_counter := 1 }

/-- Concrete graph with two equal Constant nodes, both marked as outputs:
the compiled plan returns the 2-tuple (1, 1). -/
def gDupConst : Graph :=
  { nodes := [("c0", mkNode "c0" .constant [] [("value", .val (.int 1))]),
              ("c1", mkNode "c1" .constant [] [("value", .val (.int 1))])],
    outputs := ["c0", "c1"], node_counter := 2 }

/-- Concrete reduce pipeline: input `nums`, reduce by addition with
initial 0. -/
def gReduce : Graph :=
  { nodes := [("in0", mkNode "in0" .input [] [("name", .val (.str "nums"))]),
              ("r1", mkNode "r1" .reduce ["in0"]
                [("operation", .func2 0), ("initial", .val (.int 0))])],
    outputs := ["r1"], node_counter := 2 }

/-- Concrete filter node used for the strategy-selection instance. -/
def filterNodeEx : IntentNode :=
  mkNode "f1" .filter ["in0"] [("predicate", .func (.base 0))]

/-- Concrete reduce pipeline without an initial value: input `nums`,
reduce by addition (params initial = None as the builder default). -/
def gReduceNoInit : Graph :=
  { nodes := [("in0", mkNode "in0" .input [] [("name", .val (.str "nums"))]),
              ("r1", mkNode "r1" .reduce ["in0"]
                [("operation", .func2 0), ("initial", .val .none)])],
    outputs := ["r1"], node_counter := 2 }

/-- Concrete map-then-filter graph whose transform (handle 40) raises
TypeError on every probe input: input data, map, filter. -/
def gFbmDemo : Graph :=
  { nodes := [("in0", mkNode "in0" .input [] [("name", .val (.str "data"))]),
              ("m1", mkNode "m1" .map ["in0"] [("transform", .func (.base 40))]),
              ("f1", mkNode "f1" .filter ["m1"] [("predicate", .func (.base 41))])],
    outputs := ["f1"], node_counter := 3 }

/-- Concrete map-then-filter graph whose Map has two consumers (the
Filter and the outputs list). -/
def gMulti : Graph :=
  { nodes := [("in0", mkNode "in0" .input [] [("name", .val (.str "data"))]),
              ("m1", mkNode "m1" .map ["in0"] [("transform", .func (.base 2))]),
              ("f1", mkNode "f1" .filter ["m1"] [("predicate", .func (.base 0))])],
    outputs := ["f1", "m1"], node_counter := 3 }

/-! # Theorems.

Helper lemmas come first, then one theorem per claim (witnesses and
counterexamples next to their claims). -/

/-- Lookup after in-place insert finds the inserted value. -/
theorem dlookup_dinsert_self {α : Type} (l : List (String × α)) (k : String) (v : α) :
    dlookup (dinsert l k v) k = some v := by
  induction l with
  | nil => simp [dinsert, dlookup]
  | cons kv rest ih =>
    by_cases h : kv.1 = k
    · simp [dinsert, dlookup, h]
    · simp [dinsert, dlookup, h, ih]

/-- Lookup after in-place insert at a different key is unchanged. -/
theorem dlookup_dinsert_ne {α : Type} (l : List (String × α)) (k k2 : String) (v : α)
    (h : k ≠ k2) : dlookup (dinsert l k v) k2 = dlookup l k2 := by
  induction l with
  | nil => simp [dinsert, dlookup, h]
  | cons kv rest ih =>
    by_cases h2 : kv.1 = k
    · simp [dinsert, dlookup, h2, h]
    · simp [dinsert, dlookup, h2, ih]

/-- C9: profiler size bucketing is the pure function n ↦ n below 10,
10·⌊n/10⌋ below 100, 100·⌊n/100⌋ below 1000 and 1000·⌊n/1000⌋ above; in
particular sizes in [100, 199] bucket to a multiple of 10 and sizes in
[1000, 1999] to a multiple of 100. -/
theorem C9_bucket_size_formula (n : Nat) :
    bucketSize n =
      (if n < 10 then n
       else if n < 100 then 10 * (n / 10)
       else if n < 1000 then 100 * (n / 100)
       else 1000 * (n / 1000)) ∧
    (100 ≤ n → n ≤ 199 → 10 ∣ bucketSize n) ∧
    (1000 ≤ n → n ≤ 1999 → 100 ∣ bucketSize n) := by
  refine ⟨?_, ?_, ?_⟩
  · simp only [bucketSize]
    split_ifs <;> ring
  · intro h1 _
    have hb : bucketSize n = n / 100 * 100 := by
      simp only [bucketSize]
      split_ifs <;> omega
    rw [hb]
    exact ⟨n / 100 * 10, by ring⟩
  · intro h1 _
    have hb : bucketSize n = n / 1000 * 1000 := by
      simp only [bucketSize]
      split_ifs <;> omega
    rw [hb]
    exact ⟨n / 1000 * 10, by ring⟩

/-- Witness for C9 at concrete sizes. -/
theorem C9_bucket_size_formula_witness :
    bucketSize 137 = 100 ∧ 10 ∣ bucketSize 137 ∧ 100 ∣ bucketSize 1234 := by
  refine ⟨?_, ?_, ?_⟩
  · have h := (C9_bucket_size_formula 137).1
    simpa using h
  · exact (C9_bucket_size_formula 137).2.1 (by decide) (by decide)
  · exact (C9_bucket_size_formula 1234).2.2 (by decide) (by decide)

/-- C2: compiling a graph that contains an Assert node does not evaluate
the assert predicate at invocation time; it fails at lowering with the
ValueError that _select_strategy raises when no strategy can handle a kind
(the spec's UnsupportedKind), because neither strategy's can_handle lists
"assert".  The repository's own tests (test_debug.py TestAssertions)
expect this graph to compile and run. -/
theorem C2_assert_graph_unsupported :
    execute exFunEnv gAssert [("data", dataFusion)] = .error .valueError ∧
    naiveCanHandle "assert" = false ∧
    optimizedCanHandle "assert" = false := by
  refine ⟨rfl, by decide, by decide⟩

/-- C3 counterexample: Graph.map on an unknown input id does not fail; it
returns a fresh node whose inputs list dangles on the unknown id. -/
theorem C3_counterexample :
    ((Graph.map graphInit "ghost" (.base 0)).2.nodes.map
      (fun kv => (kv.1, kv.2.inputs))) = [("map_0", ["ghost"])] ∧
    dlookup (Graph.map graphInit "ghost" (.base 0)).2.nodes "ghost" = Option.none := by
  exact ⟨rfl, rfl⟩

/-- C3 amended: on an unknown input id, the constructors that read the
input node's type (filter, sort, distinct, assert_invariant) raise
KeyError (there is no dedicated InvalidReference error), while map,
reduce, group_by, join and flatten perform no check and create a node
carrying the dangling reference. -/
theorem C3_amended_constructor_validation (g : Graph) (id : String) (f : FnExpr)
    (h2 : Nat) (init : Val) (msg : String) (key : Option FnExpr) (rev : Bool)
    (h : dlookup g.nodes id = Option.none) :
    Graph.filter g id f = .error .keyError ∧
    Graph.sort g id key rev = .error .keyError ∧
    Graph.distinct g id = .error .keyError ∧
    Graph.assert_invariant g id f msg = .error .keyError ∧
    (∃ n, dlookup (Graph.map g id f).2.nodes (Graph.map g id f).1 = some n ∧
      n.inputs = [id] ∧ n.intent_type = .map) ∧
    (∃ n, dlookup (Graph.reduce g id h2 init).2.nodes (Graph.reduce g id h2 init).1 =
      some n ∧ n.inputs = [id] ∧ n.intent_type = .reduce) ∧
    (∃ n, dlookup (Graph.group_by g id f).2.nodes (Graph.group_by g id f).1 = some n ∧
      n.inputs = [id] ∧ n.intent_type = .group_by) ∧
    (∃ n, dlookup (Graph.join g id "other" h2).2.nodes (Graph.join g id "other" h2).1 =
      some n ∧ n.inputs = [id, "other"] ∧ n.intent_type = .join) ∧
    (∃ n, dlookup (Graph.flatten g id).2.nodes (Graph.flatten g id).1 = some n ∧
      n.inputs = [id] ∧ n.intent_type = .flatten) := by
  refine ⟨?_, ?_, ?_, ?_, ?_, ?_, ?_, ?_, ?_⟩
  · simp [Graph.filter, h]
  · simp [Graph.sort, h]
  · simp [Graph.distinct, h]
  · simp [Graph.assert_invariant, h]
  · exact ⟨_, dlookup_dinsert_self _ _ _, rfl, rfl⟩
  · exact ⟨_, dlookup_dinsert_self _ _ _, rfl, rfl⟩
  · exact ⟨_, dlookup_dinsert_self _ _ _, rfl, rfl⟩
  · exact ⟨_, dlookup_dinsert_self _ _ _, rfl, rfl⟩
  · exact ⟨_, dlookup_dinsert_self _ _ _, rfl, rfl⟩

/-- Witness for the amended C3 on the empty graph and an unknown id. -/
theorem C3_amended_constructor_validation_witness :
    Graph.filter graphInit "ghost" (.base 0) = .error .keyError ∧
    (∃ n, dlookup (Graph.map graphInit "ghost" (.base 0)).2.nodes
      (Graph.map graphInit "ghost" (.base 0)).1 = some n ∧
      n.inputs = ["ghost"] ∧ n.intent_type = .map) := by
  have h := C3_amended_constructor_validation graphInit "ghost" (.base 0) 0 .none
    "msg" Option.none false rfl
  exact ⟨h.1, h.2.2.2.2.1⟩

/-- C5: the claim that every optimizer pass is total on well-formed graphs
fails: on a graph whose single Constant node carries the list value
[1, 2, 3], common-subexpression elimination builds a dict key containing
the raw list and crashes with TypeError (unhashable type), and the default
pipeline propagates it; this is neither InvalidReference nor UnknownPass. -/
theorem C5_cse_crashes_on_list_constant :
    cse gListConst = .error .typeError ∧
    optimize exFunEnv gListConst 0 Option.none = .error .typeError ∧
    execute exFunEnv gListConst [] = .ok (.list [.int 1, .int 2, .int 3]) := by
  exact ⟨rfl, rfl, rfl⟩

/-- C4: in memory mode the kernel does not select the Naive strategy even
for kinds Naive can handle: the membership test compares a freshly
allocated NaiveStrategy by object identity against the kernel's own
instances and always fails, so the first capable strategy (Optimized) is
returned, contrary to the code's own "prefer naive" comment. -/
theorem C4_memory_mode_ignores_naive (ps : Profiles) (node : IntentNode) (size : Nat)
    (hn : naiveCanHandle node.intent_type.value = true)
    (ho : optimizedCanHandle node.intent_type.value = true) :
    selectStrategy ps node "memory" size = .ok optimizedInst := by
  have hcap : kernelStrategies.filter (fun s => s.canHandle node.intent_type.value) =
      [optimizedInst, naiveInst] := by
    simp [kernelStrategies, List.filter_cons, optimizedInst, naiveInst, hn, ho]
  simp only [selectStrategy, hcap]
  rfl

/-- Witness for C4: a plain filter node in memory mode. -/
theorem C4_memory_mode_ignores_naive_witness :
    selectStrategy [] filterNodeEx "memory" 1000 = .ok optimizedInst :=
  C4_memory_mode_ignores_naive [] filterNodeEx 1000 (by decide) (by decide)

/-- C8 counterexample: the claim names a single EmptyReduce failure for an
empty reduce without initial under both strategies, but no such error kind
exists: the Naive loop raises StopIteration (bare next on an empty
iterator) while the Optimized functools.reduce raises TypeError, and the
compiled plan (which lowers reduce through the Optimized strategy)
surfaces the TypeError. -/
theorem C8_counterexample :
    naiveReduceRun (PVal.asFn2 exFunEnv (.func2 0)) Option.none (.list []) =
      .error .stopIteration ∧
    optimizedReduceRun (PVal.asFn2 exFunEnv (.func2 0)) Option.none (.list []) =
      .error .typeError ∧
    execute exFunEnv gReduceNoInit [("nums", .list [])] = .error .typeError ∧
    PyErr.stopIteration ≠ PyErr.typeError := by
  exact ⟨rfl, rfl, rfl, by decide⟩

/-- C8 amended: reduce is a left fold under both strategies — with an
explicit initial value the fold starts from it, without one it starts from
the first element — and on an empty input without initial the invocation
fails, with StopIteration under Naive and TypeError under Optimized; the
compiled sum-with-initial plan returns 15 on [1, 2, 3, 4, 5]. -/
theorem C8_amended_reduce_left_fold (op : Val → Val → Except PyErr Val)
    (i x : Val) (xs : List Val) :
    naiveReduceRun op (some i) (.list xs) = xs.foldlM op i ∧
    optimizedReduceRun op (some i) (.list xs) = xs.foldlM op i ∧
    naiveReduceRun op Option.none (.list (x :: xs)) = xs.foldlM op x ∧
    optimizedReduceRun op Option.none (.list (x :: xs)) = xs.foldlM op x ∧
    naiveReduceRun op Option.none (.list []) = .error .stopIteration ∧
    optimizedReduceRun op Option.none (.list []) = .error .typeError ∧
    execute exFunEnv gReduce
      [("nums", .list [.int 1, .int 2, .int 3, .int 4, .int 5])] = .ok (.int 15) := by
  exact ⟨rfl, rfl, rfl, rfl, rfl, rfl, rfl⟩

/-- The probe loop declares independence when every dataset's map phase
raises a tolerated error (the outer handler skips the dataset). -/
theorem probe_go_all_skipped (transform predicate : Val → Except PyErr Val) :
    ∀ tds : List (List Val),
      (∀ tc ∈ tds, ∃ e, tolerated e = true ∧ tc.mapM transform = .error e) →
      isPredicateIndependent.go transform predicate tds = .ok true := by
  intro tds
  induction tds with
  | nil => intro _; rfl
  | cons td rest ih =>
    intro h
    obtain ⟨e, he, hm⟩ := h td (List.mem_cons_self td rest)
    have hp : probeDataset transform predicate td = .ok Option.none := by
      unfold probeDataset
      rw [hm]
      show (if tolerated e = true then (Except.ok Option.none : Except PyErr (Option Bool))
            else Except.error e) = Except.ok Option.none
      simp [he]
    simp only [isPredicateIndependent.go, hp]
    exact ih (fun tc htc => h tc (List.mem_cons_of_mem td htc))

/-- C10: when the transform raises a tolerated input-domain failure on each
of the three probe sequences, the runtime independence test returns true
for every predicate; concretely, on the graph whose transform (handle 40)
raises TypeError everywhere, the filter-before-map pass fires having
validated zero probe sequences, swapping the filter onto the input and the
map onto the filter. -/
theorem C10_tolerated_probe_failures_yield_independence
    (transform predicate : Val → Except PyErr Val)
    (h : ∀ tc ∈ testCases, ∃ e, tolerated e = true ∧ tc.mapM transform = .error e) :
    isPredicateIndependent transform predicate = .ok true ∧
    (filterBeforeMap exFunEnv gFbmDemo).map
      (fun g2 => (g2.outputs, (dlookup g2.nodes "f1").map (·.inputs),
                  (dlookup g2.nodes "m1").map (·.inputs))) =
      .ok (["m1"], some ["in0"], some ["f1"]) := by
  exact ⟨probe_go_all_skipped transform predicate testCases h, rfl⟩

/-- Witness for C10 with the everywhere-raising transform. -/
theorem C10_tolerated_probe_failures_witness :
    isPredicateIndependent (fun _ => .error .typeError) (fun x => .ok x) = .ok true := by
  refine (C10_tolerated_probe_failures_yield_independence _ _ ?_).1
  intro tc htc
  refine ⟨.typeError, rfl, ?_⟩
  simp only [testCases, List.mem_cons, List.not_mem_nil, or_false] at htc
  rcases htc with h | h | h <;> subst h <;> rfl

/-- C1 counterexample: on the graph with two equal Constant nodes both
marked as outputs, the unoptimized plan returns the tuple (1, 1) while the
optimized plan (CSE merges the constants and deduplicates the outputs
list) returns the bare value 1. -/
theorem C1_counterexample :
    execute exFunEnv gDupConst [] = .ok (.tuple [.int 1, .int 1]) ∧
    (optimize exFunEnv gDupConst 0 Option.none).map
      (fun p => execute exFunEnv p.1 []) = .ok (.ok (.int 1)) ∧
    Val.tuple [.int 1, .int 1] ≠ Val.int 1 := by
  exact ⟨rfl, rfl, by decide⟩

/-- Case analysis of one filter-fusion step: when every filter entry
carries a predicate parameter the step never fails, and it either leaves
the state unchanged or fires on an adjacent filter pair, rewriting the
outer node and marking the inner one fused. -/
theorem filterFusionStep_spec (st : FuseSt) (node_id : String)
    (hW : ∀ i n, dlookup st.g.nodes i = some n → n.intent_type = .filter →
          ∃ p, dlookup n.params "predicate" = some p) :
    filterFusionStep st node_id = .ok st ∨
    (∃ node input_id input_node p1 p2,
      dlookup st.g.nodes node_id = some node ∧ node.intent_type = .filter ∧
      node.inputs.head? = some input_id ∧ node_id ∉ st.fused ∧
      dlookup st.g.nodes input_id = some input_node ∧
      input_node.intent_type = .filter ∧ input_id ∉ st.fused ∧
      dlookup input_node.params "predicate" = some p1 ∧
      dlookup node.params "predicate" = some p2 ∧
      filterFusionStep st node_id = .ok
        { g := { st.g with nodes := (dinsert st.g.nodes node_id ({ node with params := (dinsert node.params "predicate" (.func (.conj st.tag p1.asFn p2.asFn))), inputs := input_node.inputs })) },
          fused := input_id :: st.fused, tag := st.tag + 1,
          changes := st.changes + 1 }) := by
  unfold filterFusionStep
  cases hn : dlookup st.g.nodes node_id with
  | none => exact Or.inl rfl
  | some node =>
    by_cases hk : node.intent_type = .filter
    · by_cases hskip : node.inputs.isEmpty = true ∨ node_id ∈ st.fused
      · left
        rcases hskip with h1 | h1 <;> simp [hk, h1]
      · cases hh : node.inputs.head? with
        | none =>
          left
          simp [hk, hskip, hh]
        | some input_id =>
          cases hi : dlookup st.g.nodes input_id with
          | none =>
            left
            simp [hk, hskip, hh, hi]
          | some input_node =>
            by_cases hif : input_node.intent_type = .filter ∧ input_id ∉ st.fused
            · obtain ⟨p1, hp1⟩ := hW input_id input_node hi hif.1
              obtain ⟨p2, hp2⟩ := hW node_id node hn hk
              right
              refine ⟨node, input_id, input_node, p1, p2, rfl, hk, hh, ?_, hi,
                hif.1, hif.2, hp1, hp2, ?_⟩
              · intro hmem
                exact hskip (Or.inr hmem)
              · simp [hk, hh, hi, hif.1, hif.2, hp1, hp2]
                intro hc
                rcases hc with hc | hc
                · exact (hskip (Or.inl (List.isEmpty_iff.mpr hc))).elim
                · exact (hskip (Or.inr hc)).elim
            · left
              have : input_node.intent_type ≠ .filter ∨ input_id ∈ st.fused := by
                by_contra hc
                push_neg at hc
                exact hif ⟨hc.1, hc.2⟩
              simp [hk, hskip, hh, hi, this]
    · left
      simp [hk]

/-- A successful lookup means the key is among the list's keys. -/
theorem mem_keys_of_dlookup_some {α : Type} {l : List (String × α)} {k : String}
    {v : α} (h : dlookup l k = some v) : k ∈ l.map (·.1) := by
  induction l with
  | nil => simp [dlookup] at h
  | cons kv rest ih =>
    by_cases hk : kv.1 = k
    · simp [hk]
    · simp [dlookup, hk] at h
      simp [ih h]

/-- In-place insertion at a present key leaves the key list unchanged. -/
theorem dinsert_keys_of_mem {α : Type} {l : List (String × α)} {k : String}
    (h : k ∈ l.map (·.1)) (v : α) : (dinsert l k v).map (·.1) = l.map (·.1) := by
  induction l with
  | nil => simp at h
  | cons kv rest ih =>
    by_cases hk : kv.1 = k
    · simp [dinsert, hk]
    · have h2 : k ∈ rest.map (·.1) := by
        rcases List.mem_map.mp h with ⟨x, hx, hk2⟩
        rcases List.mem_cons.mp hx with h3 | h3
        · exact absurd (h3 ▸ hk2) hk
        · exact List.mem_map.mpr ⟨x, h3, hk2⟩
      simp [dinsert, hk, ih h2]

/-- Invariant lemma for the filter-fusion scan on an isolated adjacent
filter pair (outer consumes inner, the inner's own input is not a filter,
no other filter consumes inner or outer): walking any duplicate-free
suffix of the snapshot, once the outer node is either still pending in its
original state or already fused, the scan completes with the outer node
fused — predicate replaced by the combined closure (inner predicate first,
then outer, short-circuiting) and inputs rewired to the inner node's
inputs — the inner node untouched, the outputs untouched and at least one
change recorded. -/
theorem filterFusion_fold_isolated_pair
    (g : Graph) (outer inner : String) (onode inode : IntentNode) (po pin : PVal)
    (hOk : onode.intent_type = .filter)
    (hOi : onode.inputs = [inner])
    (hIk : inode.intent_type = .filter)
    (hOp : dlookup onode.params "predicate" = some po)
    (hIp : dlookup inode.params "predicate" = some pin)
    (hne : inner ≠ outer)
    (hsrc : ∀ src snode, inode.inputs.head? = some src →
        dlookup g.nodes src = some snode → snode.intent_type ≠ .filter)
    (honly : ∀ id n, dlookup g.nodes id = some n → n.intent_type = .filter →
        id ≠ outer → n.inputs.head? ≠ some inner)
    (houtc : ∀ id n, dlookup g.nodes id = some n → n.intent_type = .filter →
        n.inputs.head? ≠ some outer) :
    ∀ (L : List String) (st : FuseSt),
      L.Nodup →
      st.g.nodes.map (·.1) = g.nodes.map (·.1) →
      (∀ id, (dlookup st.g.nodes id).map (·.intent_type) =
             (dlookup g.nodes id).map (·.intent_type)) →
      (∀ id n, dlookup st.g.nodes id = some n → n.intent_type = .filter →
          ∃ p, dlookup n.params "predicate" = some p) →
      (∀ id, id ∈ L → dlookup st.g.nodes id = dlookup g.nodes id) →
      dlookup st.g.nodes inner = some inode →
      ((outer ∈ L ∧ dlookup st.g.nodes outer = some onode ∧
        outer ∉ st.fused ∧ inner ∉ st.fused) ∨
       (outer ∉ L ∧ 1 ≤ st.changes ∧ ∃ t,
        dlookup st.g.nodes outer = some { onode with params := (dinsert onode.params "predicate" (.func (.conj t pin.asFn po.asFn))), inputs := inode.inputs })) →
      ∃ st2, List.foldlM filterFusionStep st L = .ok st2 ∧
        st2.g.nodes.map (·.1) = g.nodes.map (·.1) ∧
        st2.g.outputs = st.g.outputs ∧
        dlookup st2.g.nodes inner = some inode ∧
        1 ≤ st2.changes ∧ (∃ t,
        dlookup st2.g.nodes outer = some { onode with params := (dinsert onode.params "predicate" (.func (.conj t pin.asFn po.asFn))), inputs := inode.inputs }) := by
  intro L
  induction L with
  | nil =>
    intro st _ hK hT hWst hR hA hO
    rcases hO with ⟨hmem, _⟩ | ⟨_, hch, t, hOut⟩
    · simp at hmem
    · exact ⟨st, rfl, hK, rfl, hA, hch, t, hOut⟩
  | cons id rest ih =>
    intro st hnodup hK hT hWst hR hA hO
    have hRestNodup : rest.Nodup := (List.nodup_cons.mp hnodup).2
    have hHeadNotRest : id ∉ rest := (List.nodup_cons.mp hnodup).1
    by_cases hid : id = outer
    · subst hid
      rcases hO with ⟨_, hOst, hOfu, hIfu⟩ | ⟨habs, _⟩
      · have hstep : filterFusionStep st id = .ok
            { g := { st.g with nodes := (dinsert st.g.nodes id ({ onode with params := (dinsert onode.params "predicate" (.func (.conj st.tag pin.asFn po.asFn))), inputs := inode.inputs })) },
              fused := inner :: st.fused, tag := st.tag + 1,
              changes := st.changes + 1 } := by
          unfold filterFusionStep
          rw [hOst]
          simp [hOk, hOi, hOfu, hA, hIk, hIfu, hIp, hOp]
        have hKeyMem : id ∈ st.g.nodes.map (·.1) := mem_keys_of_dlookup_some hOst
        have a1 : (dinsert st.g.nodes id ({ onode with params := (dinsert onode.params "predicate" (.func (.conj st.tag pin.asFn po.asFn))), inputs := inode.inputs })).map (·.1) = g.nodes.map (·.1) := by
          rw [dinsert_keys_of_mem hKeyMem, hK]
        have a2 : ∀ i, (dlookup (dinsert st.g.nodes id ({ onode with params := (dinsert onode.params "predicate" (.func (.conj st.tag pin.asFn po.asFn))), inputs := inode.inputs })) i).map (·.intent_type) = (dlookup g.nodes i).map (·.intent_type) := by
          intro i
          by_cases hi : i = id
          · subst hi
            rw [dlookup_dinsert_self]
            have h3 := hT i
            rw [hOst] at h3
            simpa using h3
          · rw [dlookup_dinsert_ne _ _ _ _ (fun h => hi h.symm)]
            exact hT i
        have a3 : ∀ i n, dlookup (dinsert st.g.nodes id ({ onode with params := (dinsert onode.params "predicate" (.func (.conj st.tag pin.asFn po.asFn))), inputs := inode.inputs })) i = some n → n.intent_type = .filter → ∃ p, dlookup n.params "predicate" = some p := by
          intro i n hl hf
          by_cases hi : i = id
          · subst hi
            rw [dlookup_dinsert_self] at hl
            cases hl
            exact ⟨_, dlookup_dinsert_self _ _ _⟩
          · rw [dlookup_dinsert_ne _ _ _ _ (fun h => hi h.symm)] at hl
            exact hWst i n hl hf
        have a4 : ∀ i, i ∈ rest → dlookup (dinsert st.g.nodes id ({ onode with params := (dinsert onode.params "predicate" (.func (.conj st.tag pin.asFn po.asFn))), inputs := inode.inputs })) i = dlookup g.nodes i := by
          intro i hi
          have hineq : i ≠ id := fun h => hHeadNotRest (h ▸ hi)
          rw [dlookup_dinsert_ne _ _ _ _ (fun h => hineq h.symm)]
          exact hR i (List.mem_cons_of_mem _ hi)
        have a5 : dlookup (dinsert st.g.nodes id ({ onode with params := (dinsert onode.params "predicate" (.func (.conj st.tag pin.asFn po.asFn))), inputs := inode.inputs })) inner = some inode := by
          rw [dlookup_dinsert_ne _ _ _ _ (fun h => hne h.symm)]
          exact hA
        have a6 : dlookup (dinsert st.g.nodes id ({ onode with params := (dinsert onode.params "predicate" (.func (.conj st.tag pin.asFn po.asFn))), inputs := inode.inputs })) id = some ({ onode with params := (dinsert onode.params "predicate" (.func (.conj st.tag pin.asFn po.asFn))), inputs := inode.inputs }) :=
          dlookup_dinsert_self _ _ _
        obtain ⟨st2, hfold, f1, f2, f3, f4, f5⟩ :=
          ih { g := { st.g with nodes := (dinsert st.g.nodes id ({ onode with params := (dinsert onode.params "predicate" (.func (.conj st.tag pin.asFn po.asFn))), inputs := inode.inputs })) }, fused := inner :: st.fused, tag := st.tag + 1, changes := st.changes + 1 } hRestNodup a1 a2 a3 a4 a5
            (Or.inr ⟨hHeadNotRest, by show 1 ≤ st.changes + 1; omega, st.tag, a6⟩)
        refine ⟨st2, ?_, f1, f2.trans rfl, f3, f4, f5⟩
        rw [List.foldlM_cons, hstep]
        exact hfold
      · exact absurd (List.mem_cons_self _ _) habs
    · rcases filterFusionStep_spec st id hWst with hstep | ⟨node, input_id, input_node,
          p1, p2, hnd1, hkind, hhead, hnotf, hIl, hIkind, hInf, hp1, hp2, hstep⟩
      · have hO2 : (outer ∈ rest ∧ dlookup st.g.nodes outer = some onode ∧
            outer ∉ st.fused ∧ inner ∉ st.fused) ∨
            (outer ∉ rest ∧ 1 ≤ st.changes ∧ ∃ t,
             dlookup st.g.nodes outer = some { onode with params := (dinsert onode.params "predicate" (.func (.conj t pin.asFn po.asFn))), inputs := inode.inputs }) := by
          rcases hO with ⟨hmem, h2, h3, h4⟩ | ⟨hnm, hch, t, hOut⟩
          · rcases List.mem_cons.mp hmem with h | h
            · exact absurd h.symm hid
            · exact Or.inl ⟨h, h2, h3, h4⟩
          · exact Or.inr ⟨fun h => hnm (List.mem_cons_of_mem _ h), hch, t, hOut⟩
        obtain ⟨st2, hfold, f1, f2, f3, f4, f5⟩ :=
          ih _ hRestNodup hK hT hWst
            (fun i hi => hR i (List.mem_cons_of_mem _ hi)) hA hO2
        refine ⟨st2, ?_, f1, f2, f3, f4, f5⟩
        rw [List.foldlM_cons, hstep]
        exact hfold
      · -- the step fired on some other adjacent pair
        have hidOrig : dlookup g.nodes id = some node := by
          rw [← hR id (List.mem_cons_self _ _)]
          exact hnd1
        have hIdNotInner : id ≠ inner := by
          intro h
          subst h
          rw [hA] at hnd1
          cases hnd1
          obtain ⟨n2, hn2⟩ : ∃ n2, dlookup g.nodes input_id = some n2 := by
            have h3 := hT input_id
            rw [hIl] at h3
            cases hg : dlookup g.nodes input_id with
            | none => rw [hg] at h3; simp at h3
            | some n2 => exact ⟨n2, rfl⟩
          have hkind2 : n2.intent_type = input_node.intent_type := by
            have h3 := hT input_id
            rw [hIl, hn2] at h3
            simpa using h3.symm
          exact hsrc input_id n2 hhead hn2 (hkind2.trans hIkind)
        have hInputNotOuter : input_id ≠ outer :=
          fun h => houtc id node hidOrig hkind (h ▸ hhead)
        have hInputNotInner : input_id ≠ inner :=
          fun h => honly id node hidOrig hkind hid (h ▸ hhead)
        have hKeyMem : id ∈ st.g.nodes.map (·.1) := mem_keys_of_dlookup_some hnd1
        have a1 : (dinsert st.g.nodes id ({ node with params := (dinsert node.params "predicate" (.func (.conj st.tag p1.asFn p2.asFn))), inputs := input_node.inputs })).map (·.1) = g.nodes.map (·.1) := by
          rw [dinsert_keys_of_mem hKeyMem, hK]
        have a2 : ∀ i, (dlookup (dinsert st.g.nodes id ({ node with params := (dinsert node.params "predicate" (.func (.conj st.tag p1.asFn p2.asFn))), inputs := input_node.inputs })) i).map (·.intent_type) = (dlookup g.nodes i).map (·.intent_type) := by
          intro i
          by_cases hi : i = id
          · subst hi
            rw [dlookup_dinsert_self]
            have h3 := hT i
            rw [hnd1] at h3
            simpa using h3
          · rw [dlookup_dinsert_ne _ _ _ _ (fun h => hi h.symm)]
            exact hT i
        have a3 : ∀ i n, dlookup (dinsert st.g.nodes id ({ node with params := (dinsert node.params "predicate" (.func (.conj st.tag p1.asFn p2.asFn))), inputs := input_node.inputs })) i = some n → n.intent_type = .filter → ∃ p, dlookup n.params "predicate" = some p := by
          intro i n hl hf
          by_cases hi : i = id
          · subst hi
            rw [dlookup_dinsert_self] at hl
            cases hl
            exact ⟨_, dlookup_dinsert_self _ _ _⟩
          · rw [dlookup_dinsert_ne _ _ _ _ (fun h => hi h.symm)] at hl
            exact hWst i n hl hf
        have a4 : ∀ i, i ∈ rest → dlookup (dinsert st.g.nodes id ({ node with params := (dinsert node.params "predicate" (.func (.conj st.tag p1.asFn p2.asFn))), inputs := input_node.inputs })) i = dlookup g.nodes i := by
          intro i hi
          have hineq : i ≠ id := fun h => hHeadNotRest (h ▸ hi)
          rw [dlookup_dinsert_ne _ _ _ _ (fun h => hineq h.symm)]
          exact hR i (List.mem_cons_of_mem _ hi)
        have a5 : dlookup (dinsert st.g.nodes id ({ node with params := (dinsert node.params "predicate" (.func (.conj st.tag p1.asFn p2.asFn))), inputs := input_node.inputs })) inner = some inode := by
          rw [dlookup_dinsert_ne _ _ _ _ hIdNotInner]
          exact hA
        have hO2 : (outer ∈ rest ∧ dlookup (dinsert st.g.nodes id ({ node with params := (dinsert node.params "predicate" (.func (.conj st.tag p1.asFn p2.asFn))), inputs := input_node.inputs })) outer = some onode ∧
            outer ∉ input_id :: st.fused ∧ inner ∉ input_id :: st.fused) ∨
            (outer ∉ rest ∧ 1 ≤ st.changes + 1 ∧ ∃ t,
             dlookup (dinsert st.g.nodes id ({ node with params := (dinsert node.params "predicate" (.func (.conj st.tag p1.asFn p2.asFn))), inputs := input_node.inputs })) outer = some { onode with params := (dinsert onode.params "predicate" (.func (.conj t pin.asFn po.asFn))), inputs := inode.inputs }) := by
          rcases hO with ⟨hmem, h2, h3, h4⟩ | ⟨hnm, hch, t, hOut⟩
          · have hOuterRest : outer ∈ rest := by
              rcases List.mem_cons.mp hmem with h | h
              · exact absurd h.symm hid
              · exact h
            refine Or.inl ⟨hOuterRest, ?_, ?_, ?_⟩
            · rw [dlookup_dinsert_ne _ _ _ _ hid]
              exact h2
            · intro h
              rcases List.mem_cons.mp h with h | h
              · exact hInputNotOuter h.symm
              · exact h3 h
            · intro h
              rcases List.mem_cons.mp h with h | h
              · exact hInputNotInner h.symm
              · exact h4 h
          · refine Or.inr ⟨fun h => hnm (List.mem_cons_of_mem _ h), by omega, t, ?_⟩
            rw [dlookup_dinsert_ne _ _ _ _ hid]
            exact hOut
        obtain ⟨st2, hfold, f1, f2, f3, f4, f5⟩ :=
          ih { g := { st.g with nodes := (dinsert st.g.nodes id ({ node with params := (dinsert node.params "predicate" (.func (.conj st.tag p1.asFn p2.asFn))), inputs := input_node.inputs })) }, fused := input_id :: st.fused, tag := st.tag + 1, changes := st.changes + 1 } hRestNodup a1 a2 a3 a4 a5 hO2
        refine ⟨st2, ?_, f1, f2.trans rfl, f3, f4, f5⟩
        rw [List.foldlM_cons, hstep]
        exact hfold

/-- C6: for an isolated adjacent Filter pair — the outer Filter's sole
input is the inner Filter, the inner's own input is not a Filter, and no
other Filter consumes either — the filter-fusion pass rewrites the outer
node into a single Filter whose predicate is the fused closure evaluating
the inner predicate first and the outer predicate second with Python
`and` short-circuiting, rewired to the inner Filter's inputs, and the pass
finishes with dead-code elimination; on the concrete pipeline with filters
x > 5 then x < 20 applied to [3, 7, 10, 15, 25, 30] the compiled plan
returns [7, 10, 15] both before and after fusion, and fusion shrinks the
graph from 3 nodes to 2 (exactly one fewer). -/
theorem C6_filter_fusion_pair
    (g : Graph) (tag : Nat) (outer inner : String) (onode inode : IntentNode)
    (po pin : PVal) (fe : FunEnv)
    (hnd : (g.nodes.map (·.1)).Nodup)
    (hON : dlookup g.nodes outer = some onode)
    (hOk : onode.intent_type = .filter)
    (hOi : onode.inputs = [inner])
    (hIN : dlookup g.nodes inner = some inode)
    (hIk : inode.intent_type = .filter)
    (hOp : dlookup onode.params "predicate" = some po)
    (hIp : dlookup inode.params "predicate" = some pin)
    (hne : inner ≠ outer)
    (hsrc : ∀ src snode, inode.inputs.head? = some src →
        dlookup g.nodes src = some snode → snode.intent_type ≠ .filter)
    (honly : ∀ id n, dlookup g.nodes id = some n → n.intent_type = .filter →
        id ≠ outer → n.inputs.head? ≠ some inner)
    (houtc : ∀ id n, dlookup g.nodes id = some n → n.intent_type = .filter →
        n.inputs.head? ≠ some outer)
    (hW : ∀ id n, dlookup g.nodes id = some n → n.intent_type = .filter →
        ∃ p, dlookup n.params "predicate" = some p) :
    (∃ st2 t,
      List.foldlM filterFusionStep ⟨g, [], tag, 0⟩ (g.nodes.map (·.1)) = .ok st2 ∧
      filterFusion g tag = (deadCodeElimination st2.g).map (fun g2 => (g2, st2.tag)) ∧
      dlookup st2.g.nodes outer = some { onode with params := (dinsert onode.params "predicate" (.func (.conj t pin.asFn po.asFn))), inputs := inode.inputs } ∧
      dlookup st2.g.nodes inner = some inode ∧
      (∀ x, applyFn fe (.conj t pin.asFn po.asFn) x =
        (do
          let r ← applyFn fe pin.asFn x
          if truthy r then applyFn fe po.asFn x else .ok r))) ∧
    execute exFunEnv gFusion [("data", dataFusion)] =
      .ok (.list [.int 7, .int 10, .int 15]) ∧
    gFusion.nodes.length = 3 ∧
    (filterFusion gFusion 0).map
      (fun p => (execute exFunEnv p.1 [("data", dataFusion)], p.1.nodes.length)) =
      .ok (.ok (.list [.int 7, .int 10, .int 15]), 2) := by
  obtain ⟨st2, hfold, k1, k2, k3, k4, t, k5⟩ :=
    filterFusion_fold_isolated_pair g outer inner onode inode po pin hOk hOi hIk hOp hIp
      hne hsrc honly houtc (g.nodes.map (·.1)) ⟨g, [], tag, 0⟩ hnd rfl (fun _ => rfl) hW
      (fun _ _ => rfl) hIN
      (Or.inl ⟨mem_keys_of_dlookup_some hON, hON, List.not_mem_nil _, List.not_mem_nil _⟩)
  refine ⟨⟨st2, t, hfold, ?_, k5, k3, fun x => rfl⟩, rfl, rfl, rfl⟩
  unfold filterFusion
  rw [hfold]
  show (if st2.changes > 0 then do
      let g2 ← deadCodeElimination st2.g
      Except.ok (g2, st2.tag)
    else Except.ok (st2.g, st2.tag)) =
    (deadCodeElimination st2.g).map (fun g2 => (g2, st2.tag))
  rw [if_pos (show st2.changes > 0 from k4)]
  cases hdce : deadCodeElimination st2.g with
  | ok g2 => rfl
  | error e => rfl

/-- Case analysis of lookups in the concrete fusion pipeline. -/
theorem gFusion_lookup_cases {id : String} {n : IntentNode}
    (h : dlookup gFusion.nodes id = some n) :
    (id = "in0" ∧ n = mkNode "in0" .input [] [("name", .val (.str "data"))]) ∨
    (id = "f1" ∧ n = mkNode "f1" .filter ["in0"] [("predicate", .func (.base 0))]) ∨
    (id = "f2" ∧ n = mkNode "f2" .filter ["f1"] [("predicate", .func (.base 1))]) := by
  simp only [gFusion, dlookup] at h
  split_ifs at h with h1 h2 h3
  · exact Or.inl ⟨h1.symm, (Option.some_inj.mp h).symm⟩
  · exact Or.inr (Or.inl ⟨h2.symm, (Option.some_inj.mp h).symm⟩)
  · exact Or.inr (Or.inr ⟨h3.symm, (Option.some_inj.mp h).symm⟩)

/-- Witness for C6 on the concrete two-filter pipeline. -/
theorem C6_filter_fusion_pair_witness :
    execute exFunEnv gFusion [("data", dataFusion)] =
      .ok (.list [.int 7, .int 10, .int 15]) ∧
    (filterFusion gFusion 0).map
      (fun p => (execute exFunEnv p.1 [("data", dataFusion)], p.1.nodes.length)) =
      .ok (.ok (.list [.int 7, .int 10, .int 15]), 2) := by
  have h := C6_filter_fusion_pair gFusion 0 "f2" "f1"
    (mkNode "f2" .filter ["f1"] [("predicate", .func (.base 1))])
    (mkNode "f1" .filter ["in0"] [("predicate", .func (.base 0))])
    (.func (.base 1)) (.func (.base 0)) exFunEnv
    (by decide) rfl rfl rfl rfl rfl rfl rfl (by decide)
    (by
      intro src snode h1 h2
      simp only [mkNode, List.head?] at h1
      injection h1 with h1
      subst h1
      rw [show dlookup gFusion.nodes "in0" =
        some (mkNode "in0" .input [] [("name", .val (.str "data"))]) from rfl] at h2
      injection h2 with h2
      subst h2
      decide)
    (by
      intro id n hl hf hneq
      rcases gFusion_lookup_cases hl with ⟨hi, hn⟩ | ⟨hi, hn⟩ | ⟨hi, hn⟩
      · subst hn
        simp [mkNode] at hf
      · subst hn
        simp [mkNode]
      · exact absurd hi hneq)
    (by
      intro id n hl hf
      rcases gFusion_lookup_cases hl with ⟨hi, hn⟩ | ⟨hi, hn⟩ | ⟨hi, hn⟩
      · subst hn
        simp [mkNode] at hf
      · subst hn
        simp [mkNode]
      · subst hn
        simp [mkNode])
    (by
      intro id n hl hf
      rcases gFusion_lookup_cases hl with ⟨hi, hn⟩ | ⟨hi, hn⟩ | ⟨hi, hn⟩
      · subst hn
        simp [mkNode] at hf
      · subst hn
        exact ⟨.func (.base 0), rfl⟩
      · subst hn
        exact ⟨.func (.base 1), rfl⟩)
  exact ⟨h.2.1, h.2.2.2⟩

/-- Inversion of a successful Except bind. -/
theorem exc_bind_ok {ε α β : Type} {x : Except ε α} {f : α → Except ε β} {b : β}
    (h : (x >>= f) = .ok b) : ∃ a, x = .ok a ∧ f a = .ok b := by
  cases x with
  | ok a => exact ⟨a, rfl, h⟩
  | error e => simp [Bind.bind, Except.bind] at h

/-- A successful lookup yields a member pair. -/
theorem dlookup_pair_mem {α : Type} {l : List (String × α)} {k : String} {v : α}
    (h : dlookup l k = some v) : (k, v) ∈ l := by
  induction l with
  | nil => simp [dlookup] at h
  | cons kv rest ih =>
    rw [dlookup] at h
    by_cases hk : kv.1 = k
    · rw [if_pos hk] at h
      have hv : kv.2 = v := Option.some_inj.mp h
      have hkv : kv = (k, v) := by
        cases kv
        simp only at hk hv
        rw [hk, hv]
      rw [← hkv]
      exact List.mem_cons_self _ _
    · rw [if_neg hk] at h
      exact List.mem_cons_of_mem _ (ih h)

/-- Splitting off a looked-up entry as a permutation, the remainder free of
its key. -/
theorem exists_split {α : Type} {l : List (String × α)} {k : String} {v : α}
    (hnd : (l.map (·.1)).Nodup) (h : dlookup l k = some v) :
    ∃ rest, l.Perm ((k, v) :: rest) ∧ (∀ kv ∈ rest, kv.1 ≠ k) ∧
      (rest.map (·.1)).Nodup := by
  induction l with
  | nil => simp [dlookup] at h
  | cons kv rest ih =>
    rw [List.map_cons, List.nodup_cons] at hnd
    rw [dlookup] at h
    by_cases hk : kv.1 = k
    · rw [if_pos hk] at h
      have hv : kv.2 = v := Option.some_inj.mp h
      have hkv : kv = (k, v) := by
        cases kv
        simp only at hk hv
        rw [hk, hv]
      refine ⟨rest, by rw [← hkv], ?_, hnd.2⟩
      intro kv2 h2 hcon
      apply hnd.1
      rw [hk, ← hcon]
      exact List.mem_map_of_mem (·.1) h2
    · rw [if_neg hk] at h
      obtain ⟨rest2, hperm, havoid, hnd2⟩ := ih hnd.2 h
      refine ⟨kv :: rest2, ?_, ?_, ?_⟩
      · exact (List.Perm.cons kv hperm).trans (List.Perm.swap _ _ _)
      · intro kv2 hkv2
        rcases List.mem_cons.mp hkv2 with h2 | h2
        · subst h2
          exact hk
        · exact havoid kv2 h2
      · rw [List.map_cons, List.nodup_cons]
        refine ⟨?_, hnd2⟩
        intro hcon
        have hmem : kv.1 ∈ (((k, v) :: rest2).map (·.1)) := by
          simp only [List.map_cons]
          exact List.mem_cons_of_mem _ hcon
        exact hnd.1 (((hperm.map (·.1)).mem_iff).mpr hmem)

/-- Splitting off two looked-up entries with distinct keys. -/
theorem exists_two_split {α : Type} {l : List (String × α)} {k1 k2 : String}
    {v1 v2 : α} (hnd : (l.map (·.1)).Nodup) (h1 : dlookup l k1 = some v1)
    (h2 : dlookup l k2 = some v2) (hne : k1 ≠ k2) :
    ∃ rest, l.Perm ((k1, v1) :: (k2, v2) :: rest) ∧
      (∀ kv ∈ rest, kv.1 ≠ k1 ∧ kv.1 ≠ k2) := by
  obtain ⟨rest1, hp1, hav1, hnd1⟩ := exists_split hnd h1
  have hm2 : (k2, v2) ∈ rest1 := by
    have hmem : (k2, v2) ∈ l := dlookup_pair_mem h2
    rcases List.mem_cons.mp (hp1.mem_iff.mp hmem) with h | h
    · exact absurd (congrArg Prod.fst h) hne.symm
    · exact h
  obtain ⟨s, t, hst⟩ := List.append_of_mem hm2
  refine ⟨s ++ t, ?_, ?_⟩
  · refine hp1.trans (List.Perm.cons _ ?_)
    rw [hst]
    exact List.perm_middle
  · intro kv hkv
    have hkvm : kv ∈ rest1 := by
      rw [hst]
      rcases List.mem_append.mp hkv with h | h
      · exact List.mem_append_left _ h
      · exact List.mem_append_right _ (List.mem_cons_of_mem _ h)
    refine ⟨hav1 kv hkvm, ?_⟩
    intro hcon
    have hnd1b := hnd1
    rw [hst, List.map_append, List.map_cons] at hnd1b
    apply (List.nodup_cons.mp (List.nodup_middle.mp hnd1b)).1
    rw [← hcon]
    rcases List.mem_append.mp hkv with h | h
    · exact List.mem_append_left _ (List.mem_map_of_mem (·.1) h)
    · exact List.mem_append_right _ (List.mem_map_of_mem (·.1) h)

/-- Membership survives the id substitution when the element is neither the
replaced nor the replacement id. -/
theorem mem_subst_iff {M a b : String} (h1 : M ≠ a) (h2 : M ≠ b) (l : List String) :
    (M ∈ l.map (fun i => if i = a then b else i)) ↔ M ∈ l := by
  induction l with
  | nil => simp
  | cons x xs ih =>
    simp only [List.map_cons, List.mem_cons, ih]
    by_cases hx : x = a
    · simp [hx, h1, h2]
    · simp [hx]

/-- countP congruence for pointwise-equal predicates. -/
theorem countP_congr_own {α : Type} (p q : α → Bool) :
    ∀ l : List α, (∀ a ∈ l, p a = q a) → l.countP p = l.countP q := by
  intro l
  induction l with
  | nil => intro _; rfl
  | cons x xs ih =>
    intro h
    rw [List.countP_cons, List.countP_cons, h x (List.mem_cons_self _ _),
        ih (fun a ha => h a (List.mem_cons_of_mem _ ha))]

/-- A key-avoiding list is untouched by the replace-at-key map. -/
theorem map_subst_id {α : Type} {rest : List (String × α)} {k : String} (v : α)
    (h : ∀ kv ∈ rest, kv.1 ≠ k) :
    rest.map (fun kv => if kv.1 = k then (k, v) else kv) = rest := by
  induction rest with
  | nil => rfl
  | cons kv r ih =>
    rw [List.map_cons, if_neg (h kv (List.mem_cons_self _ _)),
        ih (fun kv2 h2 => h kv2 (List.mem_cons_of_mem _ h2))]

/-- In-place insertion at a present key of a duplicate-free dict is the
pointwise replace-at-key map. -/
theorem dinsert_eq_map {α : Type} {l : List (String × α)} {k : String} {w : α}
    (hnd : (l.map (·.1)).Nodup) (h : dlookup l k = some w) (v : α) :
    dinsert l k v = l.map (fun kv => if kv.1 = k then (k, v) else kv) := by
  induction l with
  | nil => simp [dlookup] at h
  | cons kv rest ih =>
    rw [List.map_cons, List.nodup_cons] at hnd
    rw [dlookup] at h
    by_cases hk : kv.1 = k
    · rw [dinsert, if_pos hk, List.map_cons, if_pos hk]
      have havoid : ∀ kv2 ∈ rest, kv2.1 ≠ k := by
        intro kv2 h2 hcon
        apply hnd.1
        rw [hk, ← hcon]
        exact List.mem_map_of_mem (·.1) h2
      rw [map_subst_id v havoid, hk]
    · rw [if_neg hk] at h
      rw [dinsert, if_neg hk, List.map_cons, if_neg hk, ih hnd.2 h]

/-- Lookup through a key-preserving entry transformation. -/
theorem dlookup_map_entry {α : Type} (f : (String × α) → α) :
    ∀ (l : List (String × α)) (k : String),
      dlookup (l.map (fun kv => (kv.1, f kv))) k =
        (dlookup l k).map (fun v => f (k, v)) := by
  intro l
  induction l with
  | nil => intro k; rfl
  | cons kv rest ih =>
    intro k
    by_cases hk : kv.1 = k
    · subst hk
      simp [dlookup]
    · simp [dlookup, hk, ih]

/-- Case analysis of one filter-before-map step: it either returns the
graph unchanged or fires on a Filter whose sole input is a Map with
exactly one consumer, swapping the two nodes and redirecting references
and outputs. -/
theorem filterBeforeMapStep_spec (fe : FunEnv) (g : Graph) (fid : String) (g2 : Graph)
    (h : filterBeforeMapStep fe g fid = .ok g2) :
    g2 = g ∨
    (∃ fnode map_id mnode,
      dlookup g.nodes fid = some fnode ∧ fnode.intent_type = .filter ∧
      fnode.inputs = [map_id] ∧
      dlookup g.nodes map_id = some mnode ∧ mnode.intent_type = .map ∧
      countConsumers g map_id = 1 ∧
      g2 = { g with
        nodes := ((dinsert (dinsert g.nodes fid ({ fnode with inputs := mnode.inputs })) map_id ({ mnode with inputs := [fid] })).map (fun kv => if kv.1 = map_id then kv else (kv.1, { kv.2 with inputs := (kv.2.inputs.map (fun i => if i = fid then map_id else i)) }))),
        outputs := (g.outputs.map (fun o => if o = fid then map_id else o)) }) := by
  unfold filterBeforeMapStep at h
  cases hn : dlookup g.nodes fid with
  | none =>
    rw [hn] at h
    exact Or.inl (Except.ok.inj (show (Except.ok g : Except PyErr Graph) = .ok g2 from h)).symm
  | some fnode =>
    simp only [hn] at h
    by_cases hk : fnode.intent_type = .filter
    case neg =>
      rw [if_pos (by simpa using hk)] at h
      exact Or.inl (Except.ok.inj (show (Except.ok g : Except PyErr Graph) = .ok g2 from h)).symm
    case pos =>
      rw [if_neg (by simpa using hk)] at h
      by_cases hlen : fnode.inputs.length = 1
      case neg =>
        rw [if_pos hlen] at h
        exact Or.inl (Except.ok.inj (show (Except.ok g : Except PyErr Graph) = .ok g2 from h)).symm
      case pos =>
        rw [if_neg (by simpa using hlen)] at h
        obtain ⟨mid, hmid⟩ := List.length_eq_one.mp hlen
        have hhead : fnode.inputs.head? = some mid := by rw [hmid]; rfl
        rw [hhead] at h
        simp only [] at h
        cases hm : dlookup g.nodes mid with
        | none =>
          rw [hm] at h
          exact Or.inl (Except.ok.inj (show (Except.ok g : Except PyErr Graph) = .ok g2 from h)).symm
        | some mnode =>
          simp only [hm] at h
          by_cases hmk : mnode.intent_type = .map
          case neg =>
            rw [if_pos (by simpa using hmk)] at h
            exact Or.inl (Except.ok.inj (show (Except.ok g : Except PyErr Graph) = .ok g2 from h)).symm
          case pos =>
            rw [if_neg (by simpa using hmk)] at h
            by_cases hcc : countConsumers g mid = 1
            case neg =>
              rw [if_pos hcc] at h
              exact Or.inl (Except.ok.inj (show (Except.ok g : Except PyErr Graph) = .ok g2 from h)).symm
            case pos =>
              rw [if_neg (by simpa using hcc)] at h
              cases ht : dlookup mnode.params "transform" with
              | none =>
                rw [ht] at h
                exact Or.inl (Except.ok.inj (show (Except.ok g : Except PyErr Graph) = .ok g2 from h)).symm
              | some t =>
                simp only [ht] at h
                cases hp : dlookup fnode.params "predicate" with
                | none =>
                  rw [hp] at h
                  exact Or.inl (Except.ok.inj (show (Except.ok g : Except PyErr Graph) = .ok g2 from h)).symm
                | some p =>
                  simp only [hp] at h
                  by_cases htr : pvTruthy t && pvTruthy p
                  case neg =>
                    rw [if_pos (by simpa using htr)] at h
                    exact Or.inl (Except.ok.inj (show (Except.ok g : Except PyErr Graph) = .ok g2 from h)).symm
                  case pos =>
                    rw [if_neg (by simpa using htr)] at h
                    obtain ⟨b, hb, hbody⟩ := exc_bind_ok h
                    cases b with
                    | false =>
                      simp only [if_neg Bool.false_ne_true] at hbody
                      exact Or.inl (Except.ok.inj
                        (show (Except.ok g : Except PyErr Graph) = .ok g2 from hbody)).symm
                    | true =>
                      rw [if_pos rfl] at hbody
                      refine Or.inr ⟨fnode, mid, mnode, rfl, hk, hmid, hm, hmk, hcc, ?_⟩
                      exact (Except.ok.inj hbody).symm

/-- Keys are unchanged by a key-preserving entry transformation. -/
theorem map_fst_keyed {α : Type} (F : (String × α) → (String × α))
    (hkey : ∀ kv, (F kv).1 = kv.1) :
    ∀ l : List (String × α), (l.map F).map (·.1) = l.map (·.1) := by
  intro l
  induction l with
  | nil => rfl
  | cons kv rest ih => rw [List.map_cons, List.map_cons, List.map_cons, hkey, ih]

/-- Lookup through a key-preserving entry transformation. -/
theorem dlookup_map_keyed {α : Type} (F : (String × α) → (String × α))
    (hkey : ∀ kv, (F kv).1 = kv.1) :
    ∀ (l : List (String × α)) (k : String),
      dlookup (l.map F) k = (dlookup l k).map (fun v => (F (k, v)).2) := by
  intro l
  induction l with
  | nil => intro k; rfl
  | cons kv rest ih =>
    intro k
    rw [List.map_cons, dlookup, dlookup, hkey]
    by_cases hk : kv.1 = k
    · rw [if_pos hk, if_pos hk]
      have hkv : (k, kv.2) = kv := by
        cases kv
        simp only at hk
        rw [hk]
      simp only [Option.map]
      rw [hkv]
    · rw [if_neg hk, if_neg hk, ih]

/-- A fired filter-before-map swap preserves the consumer count of every
id other than the swapped pair: the filter hands its consumption of the
map onward while the map now consumes the filter instead of its old
inputs. -/
theorem countConsumers_swap_preserved
    (g : Graph) (fid mid M : String) (fnode mnode : IntentNode)
    (hnd : (g.nodes.map (·.1)).Nodup)
    (hF : dlookup g.nodes fid = some fnode)
    (hM : dlookup g.nodes mid = some mnode)
    (hFi : fnode.inputs = [mid])
    (hne : fid ≠ mid)
    (hMf : M ≠ fid) (hMm : M ≠ mid) :
    countConsumers { g with
      nodes := ((dinsert (dinsert g.nodes fid ({ fnode with inputs := mnode.inputs })) mid ({ mnode with inputs := [fid] })).map (fun kv => if kv.1 = mid then kv else (kv.1, { kv.2 with inputs := (kv.2.inputs.map (fun i => if i = fid then mid else i)) }))),
      outputs := (g.outputs.map (fun o => if o = fid then mid else o)) } M =
    countConsumers g M := by
  have hkey1 : ∀ kv : String × IntentNode,
      ((fun kv : String × IntentNode => if kv.1 = fid then (fid, { fnode with inputs := mnode.inputs }) else kv) kv).1 = kv.1 := by
    intro kv
    by_cases h : kv.1 = fid <;> simp [h]
  have e1 : dinsert g.nodes fid ({ fnode with inputs := mnode.inputs }) =
      g.nodes.map (fun kv => if kv.1 = fid then (fid, { fnode with inputs := mnode.inputs }) else kv) :=
    dinsert_eq_map hnd hF _
  have keys1 : ((g.nodes.map (fun kv => if kv.1 = fid then (fid, { fnode with inputs := mnode.inputs }) else kv)).map (·.1)) = g.nodes.map (·.1) :=
    map_fst_keyed _ hkey1 _
  have hnd1 : (((g.nodes.map (fun kv => if kv.1 = fid then (fid, { fnode with inputs := mnode.inputs }) else kv)).map (·.1))).Nodup := by
    rw [keys1]
    exact hnd
  have look1 : dlookup (g.nodes.map (fun kv => if kv.1 = fid then (fid, { fnode with inputs := mnode.inputs }) else kv)) mid = some mnode := by
    rw [dlookup_map_keyed _ hkey1 g.nodes mid, hM]
    simp only [Option.map]
    rw [if_neg (by simpa using hne.symm)]
  have e2 : dinsert (g.nodes.map (fun kv => if kv.1 = fid then (fid, { fnode with inputs := mnode.inputs }) else kv)) mid ({ mnode with inputs := [fid] }) =
      (g.nodes.map (fun kv => if kv.1 = fid then (fid, { fnode with inputs := mnode.inputs }) else kv)).map (fun kv => if kv.1 = mid then (mid, { mnode with inputs := [fid] }) else kv) :=
    dinsert_eq_map hnd1 look1 _
  obtain ⟨rest, hperm, havoid⟩ := exists_two_split hnd hF hM hne
  unfold countConsumers
  rw [e1, e2]
  rw [← List.countP_eq_length_filter, ← List.countP_eq_length_filter]
  simp only [List.countP_map]
  rw [List.Perm.countP_eq _ hperm, List.Perm.countP_eq _ hperm]
  rw [List.countP_cons, List.countP_cons, List.countP_cons, List.countP_cons]
  have hrest : rest.countP ((((fun kv : String × IntentNode => decide (M ∈ kv.2.inputs)) ∘ (fun kv : String × IntentNode => if kv.1 = mid then kv else (kv.1, { kv.2 with inputs := (kv.2.inputs.map (fun i => if i = fid then mid else i)) }))) ∘ (fun kv => if kv.1 = mid then (mid, { mnode with inputs := [fid] }) else kv)) ∘ (fun kv => if kv.1 = fid then (fid, { fnode with inputs := mnode.inputs }) else kv)) =
      rest.countP (fun kv : String × IntentNode => decide (M ∈ kv.2.inputs)) := by
    apply countP_congr_own
    intro kv hkv
    obtain ⟨hk1, hk2⟩ := havoid kv hkv
    simp only [Function.comp]
    simp only [if_neg hk1, if_neg hk2]
    simp only [decide_eq_decide]
    exact mem_subst_iff hMf hMm _
  rw [hrest]
  simp only [Function.comp]
  simp [hne, Ne.symm hne, hMf, hMm, hFi, mem_subst_iff hMf hMm]

/-- One filter-before-map step preserves a multi-consumer Map pattern: the
Filter entry survives verbatim, the Map entry keeps everything but possibly
its input wiring, the key set stays duplicate-free, and the Map's consumer
count is untouched. -/
theorem filterBeforeMapStep_multi_preserved
    (fe : FunEnv) (g g2 : Graph) (F M nid : String) (fnode mnode : IntentNode)
    (hkF : fnode.intent_type = .filter) (hkM : mnode.intent_type = .map)
    (hFi : fnode.inputs = [M])
    (hnd : (g.nodes.map (·.1)).Nodup)
    (hF : dlookup g.nodes F = some fnode)
    (hM : ∃ ins, dlookup g.nodes M = some { mnode with inputs := ins })
    (hcc : 2 ≤ countConsumers g M)
    (h : filterBeforeMapStep fe g nid = .ok g2) :
    (g2.nodes.map (·.1)).Nodup ∧
    dlookup g2.nodes F = some fnode ∧
    (∃ ins, dlookup g2.nodes M = some { mnode with inputs := ins }) ∧
    countConsumers g2 M = countConsumers g M := by
  rcases filterBeforeMapStep_spec fe g nid g2 h with heq | hfire
  · rw [heq]; exact ⟨hnd, hF, hM, rfl⟩
  obtain ⟨fnode2, mid, mnode2, hF2, hkF2, hFi2, hM2, hkM2, hcc2, hg2⟩ := hfire
  obtain ⟨ins, hMl⟩ := hM
  have hfm : nid ≠ mid := by
    intro e
    rw [e, hM2] at hF2
    rw [← Option.some.inj hF2] at hkF2
    rw [hkM2] at hkF2
    exact absurd hkF2 (by decide)
  have hMnid : M ≠ nid := by
    intro e
    rw [e, hF2] at hMl
    have : fnode2.intent_type = mnode.intent_type := by
      rw [Option.some.inj hMl]
    rw [hkF2, hkM] at this
    exact absurd this (by decide)
  have hMmid : M ≠ mid := by
    intro e
    rw [← e] at hcc2
    omega
  have hFnid : F ≠ nid := by
    intro e
    rw [e, hF2] at hF
    have hi : fnode2.inputs = [M] := by rw [Option.some.inj hF, hFi]
    rw [hFi2] at hi
    exact hMmid (List.cons.inj hi).1.symm
  have hFmid : F ≠ mid := by
    intro e
    rw [e, hM2] at hF
    have : fnode.intent_type = mnode2.intent_type := by
      rw [Option.some.inj hF]
    rw [hkF, hkM2] at this
    exact absurd this (by decide)
  have hkey1 : ∀ kv : String × IntentNode,
      ((fun kv : String × IntentNode => if kv.1 = nid then (nid, { fnode2 with inputs := mnode2.inputs }) else kv) kv).1 = kv.1 := by
    intro kv
    by_cases hx : kv.1 = nid <;> simp [hx]
  have e1 : dinsert g.nodes nid ({ fnode2 with inputs := mnode2.inputs }) =
      g.nodes.map (fun kv => if kv.1 = nid then (nid, { fnode2 with inputs := mnode2.inputs }) else kv) :=
    dinsert_eq_map hnd hF2 _
  have keys1 : ((g.nodes.map (fun kv => if kv.1 = nid then (nid, { fnode2 with inputs := mnode2.inputs }) else kv)).map (·.1)) = g.nodes.map (·.1) :=
    map_fst_keyed _ hkey1 _
  have hnd1 : (((g.nodes.map (fun kv => if kv.1 = nid then (nid, { fnode2 with inputs := mnode2.inputs }) else kv)).map (·.1))).Nodup := by
    rw [keys1]; exact hnd
  have look1 : dlookup (g.nodes.map (fun kv => if kv.1 = nid then (nid, { fnode2 with inputs := mnode2.inputs }) else kv)) mid = some mnode2 := by
    rw [dlookup_map_keyed _ hkey1 g.nodes mid, hM2]
    simp only [Option.map]
    rw [if_neg (by simpa using hfm.symm)]
  have e2 : dinsert (g.nodes.map (fun kv => if kv.1 = nid then (nid, { fnode2 with inputs := mnode2.inputs }) else kv)) mid ({ mnode2 with inputs := [nid] }) =
      (g.nodes.map (fun kv => if kv.1 = nid then (nid, { fnode2 with inputs := mnode2.inputs }) else kv)).map (fun kv => if kv.1 = mid then (mid, { mnode2 with inputs := [nid] }) else kv) :=
    dinsert_eq_map hnd1 look1 _
  have hkey2 : ∀ kv : String × IntentNode,
      ((fun kv : String × IntentNode => if kv.1 = mid then (mid, { mnode2 with inputs := [nid] }) else kv) kv).1 = kv.1 := by
    intro kv
    by_cases hx : kv.1 = mid <;> simp [hx]
  have hkeym : ∀ kv : String × IntentNode,
      ((fun kv : String × IntentNode => if kv.1 = mid then kv else (kv.1, { kv.2 with inputs := (kv.2.inputs.map (fun i => if i = nid then mid else i)) })) kv).1 = kv.1 := by
    intro kv
    by_cases hx : kv.1 = mid <;> simp [hx]
  have hnodes0 : g2.nodes = ((dinsert (dinsert g.nodes nid ({ fnode2 with inputs := mnode2.inputs })) mid ({ mnode2 with inputs := [nid] })).map (fun kv => if kv.1 = mid then kv else (kv.1, { kv.2 with inputs := (kv.2.inputs.map (fun i => if i = nid then mid else i)) }))) := by
    rw [hg2]
  have hnodes : g2.nodes = ((g.nodes.map (fun kv => if kv.1 = nid then (nid, { fnode2 with inputs := mnode2.inputs }) else kv)).map (fun kv => if kv.1 = mid then (mid, { mnode2 with inputs := [nid] }) else kv)).map (fun kv => if kv.1 = mid then kv else (kv.1, { kv.2 with inputs := (kv.2.inputs.map (fun i => if i = nid then mid else i)) })) := by
    rw [hnodes0, e1, e2]
  refine ⟨?_, ?_, ?_, ?_⟩
  · rw [hnodes, map_fst_keyed _ hkeym, map_fst_keyed _ hkey2, keys1]
    exact hnd
  · rw [hnodes, dlookup_map_keyed _ hkeym, dlookup_map_keyed _ hkey2,
      dlookup_map_keyed _ hkey1, hF]
    simp only [Option.map]
    rw [if_neg (show ¬ F = nid from hFnid), if_neg (show ¬ F = mid from hFmid),
      if_neg (show ¬ F = mid from hFmid)]
    have hsub : fnode.inputs.map (fun i => if i = nid then mid else i) = fnode.inputs := by
      rw [hFi]
      simp [hMnid]
    simp only [hsub]
  · refine ⟨ins.map (fun i => if i = nid then mid else i), ?_⟩
    rw [hnodes, dlookup_map_keyed _ hkeym, dlookup_map_keyed _ hkey2,
      dlookup_map_keyed _ hkey1, hMl]
    simp only [Option.map]
    rw [if_neg (show ¬ M = nid from hMnid), if_neg (show ¬ M = mid from hMmid),
      if_neg (show ¬ M = mid from hMmid)]
  · rw [hg2]
    exact countConsumers_swap_preserved g nid mid M fnode2 mnode2 hnd hF2 hM2 hFi2 hfm hMnid hMmid

/-- Folding filter-before-map steps over any id list preserves a
multi-consumer Map pattern. -/
theorem filterBeforeMap_fold_multi
    (fe : FunEnv) (F M : String) (fnode mnode : IntentNode)
    (hkF : fnode.intent_type = .filter) (hkM : mnode.intent_type = .map)
    (hFi : fnode.inputs = [M]) :
    ∀ (ids : List String) (g g2 : Graph),
      (g.nodes.map (·.1)).Nodup →
      dlookup g.nodes F = some fnode →
      (∃ ins, dlookup g.nodes M = some { mnode with inputs := ins }) →
      2 ≤ countConsumers g M →
      ids.foldlM (filterBeforeMapStep fe) g = .ok g2 →
      dlookup g2.nodes F = some fnode ∧
      (∃ ins, dlookup g2.nodes M = some { mnode with inputs := ins }) ∧
      countConsumers g2 M = countConsumers g M := by
  intro ids
  induction ids with
  | nil =>
    intro g g2 _ hF hM _ h
    have e : g = g2 := Except.ok.inj h
    subst e
    exact ⟨hF, hM, rfl⟩
  | cons nid rest ih =>
    intro g g2 hnd hF hM hcc h
    rw [List.foldlM_cons] at h
    obtain ⟨b, hb, hrest⟩ := exc_bind_ok h
    obtain ⟨hndb, hFb, hMb, hccb⟩ :=
      filterBeforeMapStep_multi_preserved fe g b F M nid fnode mnode
        hkF hkM hFi hnd hF hM hcc hb
    obtain ⟨h1, h2, h3⟩ := ih b g2 hndb hFb hMb (by omega) hrest
    exact ⟨h1, h2, by rw [h3, hccb]⟩

/-- C7: on every Map-then-Filter pattern whose Map has at least two
consumers (occurrences in node input lists plus one for membership in the
outputs), the filter-before-map pass never fires the reorder on that pair:
the Filter entry survives verbatim (still consuming the Map), the Map
entry keeps its id, kind, params, output type and metadata, and the Map's
consumer count is unchanged. -/
theorem C7_multi_consumer_map_not_reordered
    (fe : FunEnv) (g g2 : Graph) (F M : String) (fnode mnode : IntentNode)
    (hnd : (g.nodes.map (·.1)).Nodup)
    (hF : dlookup g.nodes F = some fnode)
    (hkF : fnode.intent_type = .filter)
    (hFi : fnode.inputs = [M])
    (hM : dlookup g.nodes M = some mnode)
    (hkM : mnode.intent_type = .map)
    (hcc : 2 ≤ countConsumers g M)
    (h : filterBeforeMap fe g = .ok g2) :
    dlookup g2.nodes F = some fnode ∧
    (∃ ins, dlookup g2.nodes M = some { mnode with inputs := ins }) ∧
    countConsumers g2 M = countConsumers g M := by
  unfold filterBeforeMap at h
  exact filterBeforeMap_fold_multi fe F M fnode mnode hkF hkM hFi
    (g.nodes.map (·.1)) g g2 hnd hF ⟨mnode.inputs, by rw [hM]⟩ hcc h

theorem C7_multi_consumer_map_not_reordered_witness :
    dlookup gMulti.nodes "f1" = some (mkNode "f1" .filter ["m1"] [("predicate", .func (.base 0))]) ∧
    (∃ ins, dlookup gMulti.nodes "m1" = some { (mkNode "m1" .map ["in0"] [("transform", .func (.base 2))]) with inputs := ins }) ∧
    countConsumers gMulti "m1" = countConsumers gMulti "m1" :=
  C7_multi_consumer_map_not_reordered exFunEnv gMulti gMulti "f1" "m1"
    (mkNode "f1" .filter ["m1"] [("predicate", .func (.base 0))])
    (mkNode "m1" .map ["in0"] [("transform", .func (.base 2))])
    (by decide) rfl rfl rfl rfl rfl (by decide) rfl

/-- Renaming by the identity substitution changes no action. -/
theorem actionSubst_id (a : NodeAction) : actionSubst (fun s => s) a = a := by
  cases a <;> rfl

/-- Run-time congruence: an action evaluated under a resolver that
reproduces every successful source read (through a renaming of the source
variables) yields the same successful value. -/
theorem runAction_congr (fe : FunEnv) (args : List (String × Val))
    (σ : String → String) (ρ ρ' : String → Except PyErr Val)
    (a : NodeAction) (v : Val)
    (hρ : ∀ s ∈ actionSources a, ∀ w, ρ s = .ok w → ρ' (σ s) = .ok w)
    (h : runAction fe args ρ a = .ok v) :
    runAction fe args ρ' (actionSubst σ a) = .ok v := by
  cases a with
  | inputA n => exact h
  | constA w => exact h
  | filterA src p =>
    simp only [actionSubst, runAction] at h ⊢
    obtain ⟨w, hw, h2⟩ := exc_bind_ok h
    rw [hρ src (by simp [actionSources]) w hw]
    exact h2
  | mapA src f =>
    simp only [actionSubst, runAction] at h ⊢
    obtain ⟨w, hw, h2⟩ := exc_bind_ok h
    rw [hρ src (by simp [actionSources]) w hw]
    exact h2
  | reduceA src op init =>
    simp only [actionSubst, runAction] at h ⊢
    obtain ⟨w, hw, h2⟩ := exc_bind_ok h
    rw [hρ src (by simp [actionSources]) w hw]
    exact h2
  | sortA src key rev =>
    simp only [actionSubst, runAction] at h ⊢
    obtain ⟨w, hw, h2⟩ := exc_bind_ok h
    rw [hρ src (by simp [actionSources]) w hw]
    exact h2
  | groupByA src key =>
    simp only [actionSubst, runAction] at h ⊢
    obtain ⟨w, hw, h2⟩ := exc_bind_ok h
    rw [hρ src (by simp [actionSources]) w hw]
    exact h2
  | joinA l r onP =>
    simp only [actionSubst, runAction] at h ⊢
    obtain ⟨lw, hlw, h2⟩ := exc_bind_ok h
    obtain ⟨rw2, hrw, h3⟩ := exc_bind_ok h2
    rw [hρ l (by simp [actionSources]) lw hlw]
    show (ρ' (σ r) >>= fun rv => pyJoin (onP.asFn2 fe) lw rv) = .ok v
    rw [hρ r (by simp [actionSources]) rw2 hrw]
    exact h3
  | flattenA src =>
    simp only [actionSubst, runAction] at h ⊢
    obtain ⟨w, hw, h2⟩ := exc_bind_ok h
    rw [hρ src (by simp [actionSources]) w hw]
    exact h2
  | distinctA src =>
    simp only [actionSubst, runAction] at h ⊢
    obtain ⟨w, hw, h2⟩ := exc_bind_ok h
    rw [hρ src (by simp [actionSources]) w hw]
    exact h2

/-- Successful denotations are stable under extra fuel. -/
theorem deval_mono (fe : FunEnv) (g : Graph) (args : List (String × Val)) :
    ∀ fuel fuel' id v, fuel ≤ fuel' →
      deval fe g args fuel id = .ok v → deval fe g args fuel' id = .ok v := by
  intro fuel
  induction fuel with
  | zero =>
    intro fuel' id v _ h
    simp [deval] at h
  | succ f ih =>
    intro fuel' id v hle h
    obtain ⟨f', rfl⟩ : ∃ f', fuel' = f' + 1 := ⟨fuel' - 1, by omega⟩
    simp only [deval] at h ⊢
    cases hn : dlookup g.nodes id with
    | none =>
      simp only [hn] at h
      exact Except.noConfusion h
    | some node =>
      simp only [hn] at h ⊢
      obtain ⟨a, ha, h2⟩ := exc_bind_ok h
      rw [ha]
      have hr := runAction_congr fe args (fun s => s) (fun s => deval fe g args f s)
        (fun s => deval fe g args f' s) a v
        (fun s _ w hw => ih f' s w (by omega) hw) h2
      rw [actionSubst_id] at hr
      exact hr

/-- Successful monadic maps transfer along pointwise successful
agreement. -/
theorem mapM_ok_congr {α β : Type} (f f' : α → Except PyErr β) :
    ∀ (l : List α) (ys : List β),
      (∀ x ∈ l, ∀ y, f x = .ok y → f' x = .ok y) →
      l.mapM f = .ok ys → l.mapM f' = .ok ys := by
  intro l
  induction l with
  | nil => intro ys _ h; simpa using h
  | cons x xs ih =>
    intro ys hp h
    rw [List.mapM_cons] at h ⊢
    obtain ⟨y, hy, h2⟩ := exc_bind_ok h
    obtain ⟨zs, hzs, h3⟩ := exc_bind_ok h2
    rw [hp x (by simp) y hy]
    show (xs.mapM f' >>= fun zs => pure (y :: zs)) = .ok ys
    rw [ih zs (fun a ha => hp a (by simp [ha])) hzs]
    exact h3

/-- Every element of a successful monadic map comes from a successful
application to a source element. -/
theorem mapM_ok_mem {α β : Type} (f : α → Except PyErr β) :
    ∀ (l : List α) (ys : List β), l.mapM f = .ok ys →
      ∀ y ∈ ys, ∃ x ∈ l, f x = .ok y := by
  intro l
  induction l with
  | nil =>
    intro ys h y hy
    have e : ([] : List β) = ys := Except.ok.inj h
    rw [← e] at hy
    simp at hy
  | cons x xs ih =>
    intro ys h y hy
    rw [List.mapM_cons] at h
    obtain ⟨y0, hy0, h2⟩ := exc_bind_ok h
    obtain ⟨zs, hzs, h3⟩ := exc_bind_ok h2
    have e : y0 :: zs = ys := Except.ok.inj h3
    rw [← e] at hy
    rcases List.mem_cons.mp hy with rfl | hmem
    · exact ⟨x, by simp, hy0⟩
    · obtain ⟨x2, hx2, hfx2⟩ := ih zs hzs y hmem
      exact ⟨x2, by simp [hx2], hfx2⟩

/-- The environment built by the compiled plan's statement sequence binds
every node variable to its denotation. -/
theorem execute_fold_inv (fe : FunEnv) (g : Graph) (args : List (String × Val)) :
    ∀ (acts : List (String × NodeAction)) (env env' : List (String × Val)),
      (∀ ia ∈ acts, ∃ node, dlookup g.nodes ia.1 = some node ∧ emitNode node = .ok ia.2) →
      (∃ F, ∀ id w, dlookup env id = some w → deval fe g args F id = .ok w) →
      acts.foldlM
        (fun env (idA : String × NodeAction) => do
          let v ← runAction fe args
            (fun s =>
              match dlookup env s with
              | some v => .ok v
              | Option.none => .error .nameError)
            idA.2
          pure (dinsert env idA.1 v)) env = .ok env' →
      (∃ F, ∀ id w, dlookup env' id = some w → deval fe g args F id = .ok w) := by
  intro acts
  induction acts with
  | nil =>
    intro env env' _ hinv h
    have e : env = env' := Except.ok.inj h
    subst e
    exact hinv
  | cons ia rest ih =>
    intro env env' hprov hinv h
    rw [List.foldlM_cons] at h
    obtain ⟨env₁, h1, h2⟩ := exc_bind_ok h
    obtain ⟨w, hw, hpure⟩ := exc_bind_ok h1
    have e1 : dinsert env ia.1 w = env₁ := Except.ok.inj hpure
    obtain ⟨node, hnode, hemit⟩ := hprov ia (by simp)
    obtain ⟨F, hF⟩ := hinv
    have hdev : deval fe g args (F + 1) ia.1 = .ok w := by
      simp only [deval, hnode]
      rw [hemit]
      have hr := runAction_congr fe args (fun s => s)
        (fun s => match dlookup env s with
          | some v => .ok v
          | Option.none => .error .nameError)
        (fun s => deval fe g args F s) ia.2 w
        (fun s _ u hu => by
          cases hds : dlookup env s with
          | none => simp [hds] at hu
          | some u2 =>
            simp only [hds] at hu
            have hu2 : u2 = u := Except.ok.inj hu
            rw [← hu2]
            exact hF s u2 hds) hw
      rw [actionSubst_id] at hr
      exact hr
    apply ih env₁ env' (fun x hx => hprov x (by simp [hx])) ?_ h2
    refine ⟨F + 1, ?_⟩
    intro id u hu
    rw [← e1] at hu
    by_cases hid : ia.1 = id
    · rw [← hid] at hu ⊢
      rw [dlookup_dinsert_self] at hu
      rw [← Option.some.inj hu]
      exact hdev
    · rw [dlookup_dinsert_ne env ia.1 id w hid] at hu
      exact deval_mono fe g args F (F + 1) id u (by omega) (hF id u hu)

/-- Forward bridge: a successful plan invocation is reproduced by the
denotational evaluator at some fuel. -/
theorem execute_ok_devalOuts (fe : FunEnv) (g : Graph) (args : List (String × Val))
    (v : Val) (h : execute fe g args = .ok v) :
    ∃ fuel, devalOuts fe g args fuel = .ok v := by
  unfold execute at h
  obtain ⟨order, ho, h1⟩ := exc_bind_ok h
  obtain ⟨actions, ha, h2⟩ := exc_bind_ok h1
  obtain ⟨names, hn, h3⟩ := exc_bind_ok h2
  by_cases hnd : ¬ names.Nodup
  · rw [if_pos hnd] at h3
    exact Except.noConfusion h3
  rw [if_neg hnd] at h3
  by_cases hmiss : names.any (fun n => ¬ dmem args n)
  · rw [if_pos hmiss] at h3
    exact Except.noConfusion h3
  rw [if_neg hmiss] at h3
  by_cases hunex : args.any (fun kv => ¬ names.contains kv.1)
  · rw [if_pos hunex] at h3
    exact Except.noConfusion h3
  rw [if_neg hunex] at h3
  obtain ⟨env, henv, hshape⟩ := exc_bind_ok h3
  have hprov : ∀ ia ∈ actions,
      ∃ node, dlookup g.nodes ia.1 = some node ∧ emitNode node = .ok ia.2 := by
    intro ia hia
    obtain ⟨id, hid, hfa⟩ := mapM_ok_mem _ order actions ha ia hia
    cases hnode : dlookup g.nodes id with
    | none =>
      simp only [hnode] at hfa
      exact Except.noConfusion hfa
    | some node =>
      simp only [hnode] at hfa
      obtain ⟨a, hea, hp⟩ := exc_bind_ok hfa
      have e : (id, a) = ia := Except.ok.inj hp
      rw [← e]
      exact ⟨node, hnode, hea⟩
  obtain ⟨F, hF⟩ := execute_fold_inv fe g args actions [] env hprov
    ⟨0, by intro id w hw; simp [dlookup] at hw⟩ henv
  refine ⟨F, ?_⟩
  unfold devalOuts
  cases hout : g.outputs with
  | nil =>
    simp only [hout] at hshape
    exact hshape
  | cons o os =>
    cases os with
    | nil =>
      simp only [hout] at hshape
      cases hlo : dlookup env o with
      | none =>
        simp only [hlo] at hshape
        exact Except.noConfusion hshape
      | some w =>
        simp only [hlo] at hshape
        simp only [hout]
        rw [hF o w hlo]
        exact hshape
    | cons o2 os2 =>
      simp only [hout] at hshape
      obtain ⟨vs, hvs, htup⟩ := exc_bind_ok hshape
      simp only [hout]
      have hm : (o :: o2 :: os2).mapM (deval fe g args F) = .ok vs := by
        refine mapM_ok_congr _ _ _ vs ?_ hvs
        intro x _ y hy
        cases hlx : dlookup env x with
        | none =>
          simp only [hlx] at hy
          exact Except.noConfusion hy
        | some u =>
          simp only [hlx] at hy
          rw [← Except.ok.inj hy]
          exact hF x u hlx
      rw [hm]
      exact htup

/-- Output denotations are stable under extra fuel. -/
theorem devalOuts_mono (fe : FunEnv) (g : Graph) (args : List (String × Val))
    (F F' : Nat) (v : Val) (hle : F ≤ F')
    (h : devalOuts fe g args F = .ok v) : devalOuts fe g args F' = .ok v := by
  unfold devalOuts at h ⊢
  cases hout : g.outputs with
  | nil =>
    simp only [hout] at h ⊢
    exact h
  | cons o os =>
    cases os with
    | nil =>
      simp only [hout] at h ⊢
      exact deval_mono fe g args F F' o v hle h
    | cons o2 os2 =>
      simp only [hout] at h ⊢
      obtain ⟨vs, hvs, htup⟩ := exc_bind_ok h
      have hm : (o :: o2 :: os2).mapM (deval fe g args F') = .ok vs := by
        refine mapM_ok_congr _ _ _ vs ?_ hvs
        intro x _ y hy
        exact deval_mono fe g args F F' x y hle hy
      rw [hm]
      exact htup

/-- The head of a list is a member. -/
theorem head_mem_of_head? {α : Type} {l : List α} {x : α}
    (h : l.head? = some x) : x ∈ l := by
  cases l with
  | nil => exact Option.noConfusion h
  | cons y ys =>
    have e : y = x := Option.some.inj h
    rw [← e]
    simp

/-- Reachability marking only grows the set and records the start node. -/
theorem markReach_subset (g : Graph) :
    ∀ fuel n r r', markReach g fuel n r = .ok r' → (∀ x ∈ r, x ∈ r') ∧ n ∈ r' := by
  intro fuel
  induction fuel with
  | zero => intro n r r' h; exact Except.noConfusion h
  | succ f ih =>
    intro n r r' h
    unfold markReach at h
    by_cases hmem : n ∈ r
    · rw [if_pos hmem] at h
      have e : r = r' := Except.ok.inj h
      subst e
      exact ⟨fun _ hx => hx, hmem⟩
    rw [if_neg hmem] at h
    cases hn : dlookup g.nodes n with
    | none =>
      simp only [hn] at h
      exact Except.noConfusion h
    | some node =>
      simp only [hn] at h
      have hfold : ∀ (li : List String) (acc acc' : List String),
          li.foldlM (fun r i => markReach g f i r) acc = .ok acc' →
          ∀ x ∈ acc, x ∈ acc' := by
        intro li
        induction li with
        | nil =>
          intro acc acc' hh
          have e := Except.ok.inj hh
          subst e
          exact fun _ hx => hx
        | cons i li2 ih2 =>
          intro acc acc' hh
          rw [List.foldlM_cons] at hh
          obtain ⟨acc₁, ha1, ha2⟩ := exc_bind_ok hh
          exact fun x hx => ih2 acc₁ acc' ha2 x ((ih i acc acc₁ ha1).1 x hx)
      have hsub := hfold node.inputs (n :: r) r' h
      exact ⟨fun x hx => hsub x (by simp [hx]), hsub n (by simp)⟩

/-- Folding reachability marking only grows the set. -/
theorem markReach_fold_subset (g : Graph) (f : Nat) :
    ∀ (li : List String) (acc acc' : List String),
      li.foldlM (fun r i => markReach g f i r) acc = .ok acc' →
      ∀ x ∈ acc, x ∈ acc' := by
  intro li
  induction li with
  | nil =>
    intro acc acc' hh
    have e := Except.ok.inj hh
    subst e
    exact fun _ hx => hx
  | cons i li2 ih2 =>
    intro acc acc' hh
    rw [List.foldlM_cons] at hh
    obtain ⟨acc₁, ha1, ha2⟩ := exc_bind_ok hh
    exact fun x hx => ih2 acc₁ acc' ha2 x ((markReach_subset g f i acc acc₁ ha1).1 x hx)

/-- Every seed of a reachability fold lands in the result. -/
theorem markReach_fold_mem (g : Graph) (f : Nat) :
    ∀ (li : List String) (acc acc' : List String),
      li.foldlM (fun r i => markReach g f i r) acc = .ok acc' →
      ∀ i ∈ li, i ∈ acc' := by
  intro li
  induction li with
  | nil => intro acc acc' _ i hi; simp at hi
  | cons j li2 ih2 =>
    intro acc acc' hh i hi
    rw [List.foldlM_cons] at hh
    obtain ⟨acc₁, ha1, ha2⟩ := exc_bind_ok hh
    rcases List.mem_cons.mp hi with rfl | hmem
    · exact markReach_fold_subset g f li2 acc₁ acc' ha2 i
        ((markReach_subset g f i acc acc₁ ha1).2)
    · exact ih2 acc₁ acc' ha2 i hmem

/-- Reachability marking yields a set closed under inputs (outside the
seed). -/
theorem markReach_closed (g : Graph) :
    ∀ fuel n r r', markReach g fuel n r = .ok r' →
      ∀ x ∈ r', x ∈ r ∨
        ∃ node, dlookup g.nodes x = some node ∧ ∀ i ∈ node.inputs, i ∈ r' := by
  intro fuel
  induction fuel with
  | zero => intro n r r' h; exact Except.noConfusion h
  | succ f ih =>
    intro n r r' h
    unfold markReach at h
    by_cases hmem : n ∈ r
    · rw [if_pos hmem] at h
      have e : r = r' := Except.ok.inj h
      subst e
      exact fun x hx => Or.inl hx
    rw [if_neg hmem] at h
    cases hn : dlookup g.nodes n with
    | none =>
      simp only [hn] at h
      exact Except.noConfusion h
    | some node =>
      simp only [hn] at h
      have hfoldC : ∀ (li : List String) (acc acc' : List String),
          li.foldlM (fun r i => markReach g f i r) acc = .ok acc' →
          ∀ x ∈ acc', x ∈ acc ∨
            ∃ nd, dlookup g.nodes x = some nd ∧ ∀ i ∈ nd.inputs, i ∈ acc' := by
        intro li
        induction li with
        | nil =>
          intro acc acc' hh
          have e := Except.ok.inj hh
          subst e
          exact fun x hx => Or.inl hx
        | cons i li2 ih2 =>
          intro acc acc' hh
          rw [List.foldlM_cons] at hh
          obtain ⟨acc₁, ha1, ha2⟩ := exc_bind_ok hh
          intro x hx
          rcases ih2 acc₁ acc' ha2 x hx with h1 | h1
          · rcases ih i acc acc₁ ha1 x h1 with h2 | h2
            · exact Or.inl h2
            · obtain ⟨nd, hnd, hin⟩ := h2
              exact Or.inr ⟨nd, hnd, fun j hj =>
                markReach_fold_subset g f li2 acc₁ acc' ha2 j (hin j hj)⟩
          · exact Or.inr h1
      intro x hx
      rcases hfoldC node.inputs (n :: r) r' h x hx with h1 | h1
      · rcases List.mem_cons.mp h1 with rfl | h2
        · exact Or.inr ⟨node, hn, markReach_fold_mem g f node.inputs (x :: r) r' h⟩
        · exact Or.inl h2
      · exact Or.inr h1

/-- A fold of reachability markings yields a set closed under inputs
outside the seed. -/
theorem markReach_fold_closed (g : Graph) (f : Nat) :
    ∀ (li : List String) (acc acc' : List String),
      li.foldlM (fun r i => markReach g f i r) acc = .ok acc' →
      ∀ x ∈ acc', x ∈ acc ∨
        ∃ nd, dlookup g.nodes x = some nd ∧ ∀ i ∈ nd.inputs, i ∈ acc' := by
  intro li
  induction li with
  | nil =>
    intro acc acc' hh
    have e := Except.ok.inj hh
    subst e
    exact fun x hx => Or.inl hx
  | cons i li2 ih2 =>
    intro acc acc' hh
    rw [List.foldlM_cons] at hh
    obtain ⟨acc₁, ha1, ha2⟩ := exc_bind_ok hh
    intro x hx
    rcases ih2 acc₁ acc' ha2 x hx with h1 | h1
    · rcases markReach_closed g f i acc acc₁ ha1 x h1 with h2 | h2
      · exact Or.inl h2
      · obtain ⟨nd, hnd, hin⟩ := h2
        exact Or.inr ⟨nd, hnd, fun j hj =>
          markReach_fold_subset g f li2 acc₁ acc' ha2 j (hin j hj)⟩
    · exact Or.inr h1

/-- The reachable set computed by dead-code elimination contains the
outputs and is closed under node inputs. -/
theorem dce_reachable (g : Graph) (R : List String)
    (h : g.outputs.foldlM (fun r o => markReach g (g.nodes.length + 1) o r) [] = .ok R) :
    (∀ o ∈ g.outputs, o ∈ R) ∧
    (∀ x ∈ R, ∃ nd, dlookup g.nodes x = some nd ∧ ∀ i ∈ nd.inputs, i ∈ R) := by
  refine ⟨markReach_fold_mem g _ g.outputs [] R h, ?_⟩
  intro x hx
  rcases markReach_fold_closed g _ g.outputs [] R h x hx with h1 | h1
  · simp at h1
  · exact h1

/-- Filtering a dict to a key set preserves lookups inside the set. -/
theorem dlookup_filter_of_mem {α : Type} (R : List String) :
    ∀ (l : List (String × α)) (k : String), k ∈ R →
      dlookup (l.filter (fun kv => kv.1 ∈ R)) k = dlookup l k := by
  intro l
  induction l with
  | nil => intro k _; rfl
  | cons kv rest ih =>
    intro k hk
    by_cases he : kv.1 = k
    · have hmem : kv.1 ∈ R := by rw [he]; exact hk
      rw [List.filter_cons, if_pos (by simpa using hmem)]
      rw [dlookup, if_pos he, dlookup, if_pos he]
    · by_cases hmem : kv.1 ∈ R
      · rw [List.filter_cons, if_pos (by simpa using hmem)]
        rw [dlookup, if_neg he, dlookup, if_neg he]
        exact ih k hk
      · rw [List.filter_cons, if_neg (by simpa using hmem)]
        rw [show dlookup (kv :: rest) k = dlookup rest k from by
          rw [dlookup, if_neg he]]
        exact ih k hk

/-- The sources of an emitted action are inputs of the node. -/
theorem emit_sources (node : IntentNode) (a : NodeAction)
    (h : emitNode node = .ok a) : ∀ s ∈ actionSources a, s ∈ node.inputs := by
  unfold emitNode at h
  by_cases hcap : (kernelStrategies.filter
      (fun s => s.canHandle node.intent_type.value)).isEmpty
  · rw [if_pos hcap] at h
    exact Except.noConfusion h
  rw [if_neg hcap] at h
  cases hk : node.intent_type with
  | input =>
    simp only [hk] at h
    cases hn : dlookup node.params "name" with
    | none => simp only [hn] at h; exact Except.noConfusion h
    | some p =>
      simp only [hn] at h
      cases p with
      | val v =>
        cases v <;> simp only [] at h <;> try exact Except.noConfusion h
        rw [← Except.ok.inj h]
        intro x hx
        simp [actionSources] at hx
      | func f => exact Except.noConfusion h
      | func2 f => exact Except.noConfusion h
  | constant =>
    simp only [hk] at h
    cases hn : dlookup node.params "value" with
    | none => simp only [hn] at h; exact Except.noConfusion h
    | some p =>
      simp only [hn] at h
      cases p with
      | val v =>
        rw [← Except.ok.inj h]
        intro x hx
        simp [actionSources] at hx
      | func f => exact Except.noConfusion h
      | func2 f => exact Except.noConfusion h
  | filter =>
    simp only [hk] at h
    cases hh : node.inputs.head? with
    | none => simp only [hh] at h; exact Except.noConfusion h
    | some src =>
      simp only [hh] at h
      cases hp : dlookup node.params "predicate" with
      | none => simp only [hp] at h; exact Except.noConfusion h
      | some p =>
        simp only [hp] at h
        rw [← Except.ok.inj h]
        intro s hs
        simp only [actionSources, List.mem_singleton] at hs
        rw [hs]
        exact head_mem_of_head? hh
  | map =>
    simp only [hk] at h
    cases hh : node.inputs.head? with
    | none => simp only [hh] at h; exact Except.noConfusion h
    | some src =>
      simp only [hh] at h
      cases hp : dlookup node.params "transform" with
      | none => simp only [hp] at h; exact Except.noConfusion h
      | some p =>
        simp only [hp] at h
        rw [← Except.ok.inj h]
        intro s hs
        simp only [actionSources, List.mem_singleton] at hs
        rw [hs]
        exact head_mem_of_head? hh
  | reduce =>
    simp only [hk] at h
    cases hh : node.inputs.head? with
    | none => simp only [hh] at h; exact Except.noConfusion h
    | some src =>
      simp only [hh] at h
      cases hp : dlookup node.params "operation" with
      | none => simp only [hp] at h; exact Except.noConfusion h
      | some p =>
        simp only [hp] at h
        obtain ⟨init, hinit, h2⟩ := exc_bind_ok h
        rw [← Except.ok.inj h2]
        intro s hs
        simp only [actionSources, List.mem_singleton] at hs
        rw [hs]
        exact head_mem_of_head? hh
  | sort =>
    simp only [hk] at h
    cases hh : node.inputs.head? with
    | none => simp only [hh] at h; exact Except.noConfusion h
    | some src =>
      simp only [hh] at h
      cases hr : dlookup node.params "reverse" with
      | none =>
        simp only [hr] at h
        rw [← Except.ok.inj h]
        intro s hs
        simp only [actionSources, List.mem_singleton] at hs
        rw [hs]
        exact head_mem_of_head? hh
      | some p =>
        simp only [hr] at h
        cases p with
        | val v =>
          cases v <;> simp only [] at h <;> try exact Except.noConfusion h
          all_goals (rw [← Except.ok.inj h]; intro s hs; simp only [actionSources, List.mem_singleton] at hs; rw [hs]; exact head_mem_of_head? hh)
        | func f => exact Except.noConfusion h
        | func2 f => exact Except.noConfusion h
  | group_by =>
    simp only [hk] at h
    cases hh : node.inputs.head? with
    | none => simp only [hh] at h; exact Except.noConfusion h
    | some src =>
      simp only [hh] at h
      cases hp : dlookup node.params "key" with
      | none => simp only [hp] at h; exact Except.noConfusion h
      | some p =>
        simp only [hp] at h
        rw [← Except.ok.inj h]
        intro s hs
        simp only [actionSources, List.mem_singleton] at hs
        rw [hs]
        exact head_mem_of_head? hh
  | join =>
    simp only [hk] at h
    cases hi : node.inputs with
    | nil => simp only [hi] at h; exact Except.noConfusion h
    | cons l rest =>
      cases rest with
      | nil => simp only [hi] at h; exact Except.noConfusion h
      | cons r rest2 =>
        cases rest2 with
        | nil =>
          simp only [hi] at h
          cases hp : dlookup node.params "on" with
          | none => simp only [hp] at h; exact Except.noConfusion h
          | some p =>
            simp only [hp] at h
            rw [← Except.ok.inj h]
            intro s hs
            simp only [actionSources, List.mem_cons, List.mem_singleton] at hs
            rcases hs with rfl | rfl | hs0
            · simp
            · simp
            · simp at hs0
        | cons x rest3 => simp only [hi] at h; exact Except.noConfusion h
  | flatten =>
    simp only [hk] at h
    cases hh : node.inputs.head? with
    | none => simp only [hh] at h; exact Except.noConfusion h
    | some src =>
      simp only [hh] at h
      rw [← Except.ok.inj h]
      intro s hs
      simp only [actionSources, List.mem_singleton] at hs
      rw [hs]
      exact head_mem_of_head? hh
  | distinct =>
    simp only [hk] at h
    cases hh : node.inputs.head? with
    | none => simp only [hh] at h; exact Except.noConfusion h
    | some src =>
      simp only [hh] at h
      rw [← Except.ok.inj h]
      intro s hs
      simp only [actionSources, List.mem_singleton] at hs
      rw [hs]
      exact head_mem_of_head? hh
  | output => simp only [hk] at h; exact Except.noConfusion h
  | compose => simp only [hk] at h; exact Except.noConfusion h
  | parallel => simp only [hk] at h; exact Except.noConfusion h
  | assert => simp only [hk] at h; exact Except.noConfusion h

/-- Frame lemma: evaluation only depends on nodes reachable through
action sources. -/
theorem deval_frame (fe : FunEnv) (args : List (String × Val)) (g g' : Graph)
    (P : String → Prop)
    (hagree : ∀ id, P id → dlookup g'.nodes id = dlookup g.nodes id)
    (hclosed : ∀ id node, P id → dlookup g.nodes id = some node →
      ∀ i ∈ node.inputs, P i) :
    ∀ fuel id v, P id → deval fe g args fuel id = .ok v →
      deval fe g' args fuel id = .ok v := by
  intro fuel
  induction fuel with
  | zero => intro id v _ h; simp [deval] at h
  | succ f ih =>
    intro id v hP h
    simp only [deval] at h ⊢
    cases hn : dlookup g.nodes id with
    | none =>
      simp only [hn] at h
      exact Except.noConfusion h
    | some node =>
      simp only [hn] at h
      rw [hagree id hP]
      simp only [hn]
      obtain ⟨a, ha, h2⟩ := exc_bind_ok h
      rw [ha]
      have hr := runAction_congr fe args (fun s => s)
        (fun s => deval fe g args f s) (fun s => deval fe g' args f s) a v
        (fun s hsm w hw =>
          ih s w (hclosed id node hP hn s (emit_sources node a ha s hsm)) hw) h2
      rw [actionSubst_id] at hr
      exact hr

/-- Pointwise fuel-existential transfer lifts through a monadic map of
denotations. -/
theorem mapM_deval_exists (fe : FunEnv) (args : List (String × Val))
    (g g' : Graph) (σ : String → String) (fuel : Nat) :
    ∀ (l : List String) (vs : List Val),
      (∀ id ∈ l, ∀ fuel v, deval fe g args fuel id = .ok v →
        ∃ f', deval fe g' args f' (σ id) = .ok v) →
      l.mapM (deval fe g args fuel) = .ok vs →
      ∃ F, (l.map σ).mapM (deval fe g' args F) = .ok vs := by
  intro l
  induction l with
  | nil =>
    intro vs _ hm
    exact ⟨0, by simpa using hm⟩
  | cons x xs ih =>
    intro vs hv hm
    rw [List.mapM_cons] at hm
    obtain ⟨y, hy, h2⟩ := exc_bind_ok hm
    obtain ⟨zs, hzs, h3⟩ := exc_bind_ok h2
    obtain ⟨f1, h1⟩ := hv x (by simp) fuel y hy
    obtain ⟨F2, hF2⟩ := ih zs (fun id hid fl w hw => hv id (by simp [hid]) fl w hw) hzs
    refine ⟨max f1 F2, ?_⟩
    rw [List.map_cons, List.mapM_cons]
    rw [deval_mono fe g' args f1 (max f1 F2) (σ x) y (by omega) h1]
    show ((xs.map σ).mapM (deval fe g' args (max f1 F2)) >>=
      fun zs2 => pure (y :: zs2)) = .ok vs
    rw [mapM_ok_congr (deval fe g' args F2) (deval fe g' args (max f1 F2))
      (xs.map σ) zs
      (fun z _ w hw => deval_mono fe g' args F2 (max f1 F2) z w (by omega) hw) hF2]
    exact h3

/-- Transfer of the plan's output denotation along a per-node
fuel-existential simulation whose output list is renamed pointwise. -/
theorem devalOuts_transfer (fe : FunEnv) (args : List (String × Val))
    (g g' : Graph) (σ : String → String)
    (houts : g'.outputs = g.outputs.map σ)
    (hv : ∀ id ∈ g.outputs, ∀ fuel v, deval fe g args fuel id = .ok v →
      ∃ f', deval fe g' args f' (σ id) = .ok v)
    (fuel : Nat) (v : Val) (hd : devalOuts fe g args fuel = .ok v) :
    ∃ f', devalOuts fe g' args f' = .ok v := by
  unfold devalOuts at hd ⊢
  rw [houts]
  cases hO : g.outputs with
  | nil =>
    simp only [hO] at hd
    exact ⟨0, by simp only [List.map_nil]; exact hd⟩
  | cons o os =>
    cases os with
    | nil =>
      simp only [hO] at hd
      obtain ⟨f', h'⟩ := hv o (by rw [hO]; simp) fuel v hd
      exact ⟨f', by simp only [List.map_cons, List.map_nil]; exact h'⟩
    | cons o2 os2 =>
      simp only [hO] at hd
      obtain ⟨vs, hvs, htup⟩ := exc_bind_ok hd
      obtain ⟨F, hF⟩ := mapM_deval_exists fe args g g' σ fuel (o :: o2 :: os2) vs
        (fun id hid fl w hw => hv id (by rw [hO]; exact hid) fl w hw) hvs
      refine ⟨F, ?_⟩
      simp only [List.map_cons]
      simp only [List.map_cons] at hF
      rw [hF]
      exact htup

/-- Dead-code elimination preserves the successful denotation of the
plan's outputs. -/
theorem dce_devalOuts (fe : FunEnv) (args : List (String × Val)) (g g₁ : Graph)
    (h : deadCodeElimination g = .ok g₁) (fuel : Nat) (v : Val)
    (hd : devalOuts fe g args fuel = .ok v) :
    ∃ f', devalOuts fe g₁ args f' = .ok v := by
  unfold deadCodeElimination at h
  obtain ⟨R, hR, hfin⟩ := exc_bind_ok h
  obtain ⟨hout, hclosed⟩ := dce_reachable g R hR
  have e : g₁ = { g with nodes := g.nodes.filter (fun kv => kv.1 ∈ R) } :=
    (Except.ok.inj hfin).symm
  have hframe : ∀ fuel id v, id ∈ R → deval fe g args fuel id = .ok v →
      deval fe g₁ args fuel id = .ok v := by
    refine deval_frame fe args g g₁ (fun id => id ∈ R) ?_ ?_
    · intro id hP
      rw [e]
      exact dlookup_filter_of_mem R g.nodes id hP
    · intro id node hP hn i hi
      obtain ⟨nd, hnd, hin⟩ := hclosed id hP
      have e2 : nd = node := Option.some.inj (hnd.symm.trans hn)
      exact hin i (by rw [e2]; exact hi)
  refine devalOuts_transfer fe args g g₁ (fun s => s) (by rw [e]; simp) ?_ fuel v hd
  intro id hid fl w hw
  exact ⟨fl, hframe fl id w (hout id hid) hw⟩

/-- Dead-code elimination preserves graph well-formedness. -/
theorem wf_dce (g g₁ : Graph) (h : deadCodeElimination g = .ok g₁)
    (hwf : Graph.wf g = true) : Graph.wf g₁ = true := by
  unfold deadCodeElimination at h
  obtain ⟨R, hR, hfin⟩ := exc_bind_ok h
  have e : g₁ = { g with nodes := g.nodes.filter (fun kv => kv.1 ∈ R) } :=
    (Except.ok.inj hfin).symm
  subst e
  unfold Graph.wf at hwf ⊢
  rw [Bool.and_eq_true] at hwf ⊢
  obtain ⟨h1, h2⟩ := hwf
  constructor
  · rw [decide_eq_true_iff] at h1 ⊢
    exact (((List.filter_sublist _)).map _).nodup h1
  · rw [List.all_eq_true] at h2 ⊢
    intro kv hkv
    exact h2 kv (List.mem_of_mem_filter hkv)

/-- Rewriting a node's input list renames the sources of its emitted
action. -/
theorem emit_subst (σ : String → String) (node : IntentNode) :
    emitNode { node with inputs := node.inputs.map σ } =
      (emitNode node).map (actionSubst σ) := by
  cases node with
  | mk nid kind ins params otype meta =>
    cases kind with
    | input =>
      simp only [emitNode]
      cases hn : dlookup params "name" with
      | none => rfl
      | some p =>
        cases p with
        | val v => cases v <;> rfl
        | func f => rfl
        | func2 f2 => rfl
    | constant =>
      simp only [emitNode]
      cases hn : dlookup params "value" with
      | none => rfl
      | some p => cases p <;> rfl
    | filter =>
      cases ins with
      | nil => rfl
      | cons x xs =>
        simp only [emitNode]
        cases hp : dlookup params "predicate" <;> rfl
    | map =>
      cases ins with
      | nil => rfl
      | cons x xs =>
        simp only [emitNode]
        cases hp : dlookup params "transform" <;> rfl
    | reduce =>
      cases ins with
      | nil => rfl
      | cons x xs =>
        simp only [emitNode]
        cases ho : dlookup params "operation" with
        | none => rfl
        | some op =>
          cases hi2 : initOf (dlookup params "initial") <;> rfl
    | sort =>
      cases ins with
      | nil => rfl
      | cons x xs =>
        simp only [emitNode]
        cases hr : dlookup params "reverse" with
        | none => rfl
        | some p =>
          cases p with
          | val v => cases v <;> rfl
          | func f => rfl
          | func2 f2 => rfl
    | group_by =>
      cases ins with
      | nil => rfl
      | cons x xs =>
        simp only [emitNode]
        cases hp : dlookup params "key" <;> rfl
    | join =>
      simp only [emitNode]
      cases ins with
      | nil => rfl
      | cons x xs =>
        cases xs with
        | nil => rfl
        | cons y ys =>
          cases ys with
          | nil => cases hp : dlookup params "on" <;> rfl
          | cons z zs => rfl
    | flatten =>
      cases ins with
      | nil => rfl
      | cons x xs =>
        simp only [emitNode]
        rfl
    | distinct =>
      cases ins with
      | nil => rfl
      | cons x xs =>
        simp only [emitNode]
        rfl
    | output =>
      simp only [emitNode]
      rfl
    | compose =>
      simp only [emitNode]
      rfl
    | parallel =>
      simp only [emitNode]
      rfl
    | assert =>
      simp only [emitNode]
      rfl


/-- Code generation only reads the node's kind, its input list and its
parameters through lookups. -/
theorem emit_congr (n1 n2 : IntentNode)
    (hk : n1.intent_type = n2.intent_type)
    (hi : n1.inputs = n2.inputs)
    (hp : ∀ k, dlookup n1.params k = dlookup n2.params k) :
    emitNode n1 = emitNode n2 := by
  unfold emitNode
  rw [hk, hi, hp "name", hp "value", hp "predicate", hp "transform",
    hp "operation", hp "initial", hp "key", hp "reverse", hp "on"]

/-- Signature entries determine the parameter value. -/
theorem sigValOf_inj {a b : PVal} (h : sigValOf a = sigValOf b) : a = b := by
  cases a <;> cases b <;> simp_all [sigValOf]

/-- Inserting into the key-sorted prefix is a permutation. -/
theorem insertByKey_perm (kv : String × PVal) :
    ∀ l : List (String × PVal), (sortParams.insertByKey kv l).Perm (kv :: l) := by
  intro l
  induction l with
  | nil => simp [sortParams.insertByKey]
  | cons kv2 rest ih =>
    unfold sortParams.insertByKey
    by_cases h : kv.1 ≤ kv2.1
    · rw [if_pos h]
    · rw [if_neg h]
      exact (ih.cons kv2).trans (List.Perm.swap kv kv2 rest)

/-- Parameter sorting permutes the parameter list. -/
theorem sortParams_perm : ∀ l : List (String × PVal), (sortParams l).Perm l := by
  intro l
  induction l with
  | nil => simp [sortParams]
  | cons kv rest ih =>
    unfold sortParams
    exact (insertByKey_perm kv (sortParams rest)).trans (ih.cons kv)

/-- Lookup in a duplicate-free dict is permutation-invariant. -/
theorem dlookup_eq_of_perm {α : Type} :
    ∀ {l l' : List (String × α)}, l.Perm l' → (l.map (·.1)).Nodup →
      ∀ k, dlookup l k = dlookup l' k := by
  intro l l' hp
  induction hp with
  | nil => intro _ _; rfl
  | cons x hp ih =>
    intro hnd k
    rw [List.map_cons, List.nodup_cons] at hnd
    rw [dlookup, dlookup]
    by_cases hk : x.1 = k
    · rw [if_pos hk, if_pos hk]
    · rw [if_neg hk, if_neg hk]
      exact ih hnd.2 k
  | swap x y l =>
    intro hnd k
    simp only [List.map_cons, List.nodup_cons, List.mem_cons] at hnd
    have hxy : y.1 ≠ x.1 := fun e => hnd.1 (Or.inl e)
    by_cases hy : y.1 = k <;> by_cases hx : x.1 = k
    · exact absurd (hy.trans hx.symm) hxy
    · simp [dlookup, hy, hx]
    · simp [dlookup, hy, hx]
    · simp [dlookup, hy, hx]
  | trans hp1 hp2 ih1 ih2 =>
    intro hnd k
    rw [ih1 hnd k]
    exact ih2 (((hp1.map (·.1)).nodup_iff).mp hnd) k

/-- Membership determines lookup under duplicate-free keys. -/
theorem dlookup_of_mem_nodup {α : Type} :
    ∀ {l : List (String × α)} {k : String} {v : α},
      (k, v) ∈ l → (l.map (·.1)).Nodup → dlookup l k = some v := by
  intro l
  induction l with
  | nil => intro k v h _; simp at h
  | cons kv rest ih =>
    intro k v h hnd
    rw [List.map_cons, List.nodup_cons] at hnd
    rcases List.mem_cons.mp h with rfl | hmem
    · rw [dlookup, if_pos rfl]
    · by_cases hk : kv.1 = k
      · exact absurd (by rw [hk]; exact List.mem_map.mpr ⟨(k, v), hmem, rfl⟩) hnd.1
      · rw [dlookup, if_neg hk]
        exact ih hmem hnd.2

/-- Equal signatures give pointwise-equal parameter lookups. -/
theorem params_lookup_eq_of_sig {p q : List (String × PVal)}
    (hnd1 : (p.map (·.1)).Nodup) (hnd2 : (q.map (·.1)).Nodup)
    (hsig : (sortParams p).map (fun kv => (kv.1, sigValOf kv.2)) =
            (sortParams q).map (fun kv => (kv.1, sigValOf kv.2))) :
    ∀ k, dlookup p k = dlookup q k := by
  have hinj : Function.Injective (fun kv : String × PVal => (kv.1, sigValOf kv.2)) := by
    intro a b h
    simp only [Prod.mk.injEq] at h
    exact Prod.ext h.1 (sigValOf_inj h.2)
  have hsort : sortParams p = sortParams q := List.map_injective_iff.mpr hinj hsig
  have hndp : ((sortParams p).map (·.1)).Nodup :=
    (((sortParams_perm p).map (·.1)).nodup_iff).mpr hnd1
  have hndq : ((sortParams q).map (·.1)).Nodup :=
    (((sortParams_perm q).map (·.1)).nodup_iff).mpr hnd2
  intro k
  rw [← dlookup_eq_of_perm (sortParams_perm p) hndp k, hsort]
  exact dlookup_eq_of_perm (sortParams_perm q) hndq k

/-- Prepending an id to its signature group preserves the group
invariant. -/
theorem addTo_good (l : List (String × IntentNode)) (id0 : String)
    (node : IntentNode) (s0 : Sig) (hs : sigOf node = s0) :
    ∀ gs : List (Sig × List String),
      (∀ s ids, (s, ids) ∈ gs → ∀ id ∈ ids, ∃ nd, (id, nd) ∈ l ∧ sigOf nd = s) →
      ∀ s ids, (s, ids) ∈ groupBySig.addTo s0 id0 gs → ∀ id ∈ ids,
        ∃ nd, (id, nd) ∈ (id0, node) :: l ∧ sigOf nd = s := by
  intro gs
  induction gs with
  | nil =>
    intro _ s ids hmem id hid
    simp only [groupBySig.addTo, List.mem_singleton] at hmem
    injection hmem with e1 e2
    subst e1
    subst e2
    simp only [List.mem_singleton] at hid
    subst hid
    exact ⟨node, by simp, hs⟩
  | cons g2 gs2 ih =>
    intro hgood s ids hmem id hid
    obtain ⟨s2, ids2⟩ := g2
    unfold groupBySig.addTo at hmem
    by_cases he : s2 = s0
    · rw [if_pos he] at hmem
      rcases List.mem_cons.mp hmem with h1 | h1
      · injection h1 with e1 e2
        subst e1
        subst e2
        rcases List.mem_cons.mp hid with rfl | h2
        · exact ⟨node, by simp, by rw [he]; exact hs⟩
        · obtain ⟨nd, hm, hsig⟩ := hgood s ids2 (by simp) id h2
          exact ⟨nd, List.mem_cons_of_mem _ hm, hsig⟩
      · obtain ⟨nd, hm, hsig⟩ := hgood s ids (List.mem_cons_of_mem _ h1) id hid
        exact ⟨nd, List.mem_cons_of_mem _ hm, hsig⟩
    · rw [if_neg he] at hmem
      rcases List.mem_cons.mp hmem with h1 | h1
      · injection h1 with e1 e2
        subst e1
        subst e2
        obtain ⟨nd, hm, hsig⟩ := hgood s ids (by simp) id hid
        exact ⟨nd, List.mem_cons_of_mem _ hm, hsig⟩
      · exact ih (fun s' ids' hm' => hgood s' ids' (List.mem_cons_of_mem _ hm'))
          s ids h1 id hid

/-- Every id grouped under a signature names a node of that signature. -/
theorem groupBySig_good :
    ∀ (l : List (String × IntentNode)) (groups : List (Sig × List String)),
      groupBySig l = .ok groups →
      ∀ s ids, (s, ids) ∈ groups → ∀ id ∈ ids,
        ∃ nd, (id, nd) ∈ l ∧ sigOf nd = s := by
  intro l
  induction l with
  | nil =>
    intro groups h s ids hmem
    have e : ([] : List (Sig × List String)) = groups := Except.ok.inj h
    rw [← e] at hmem
    simp at hmem
  | cons kv rest ih =>
    intro groups h s ids hmem id hid
    obtain ⟨kid, knode⟩ := kv
    unfold groupBySig at h
    by_cases hh : ¬ sigHashable knode
    · rw [if_pos (by simpa using hh)] at h
      exact Except.noConfusion h
    · rw [if_neg (by simpa using hh)] at h
      obtain ⟨gs', hgs, hpure⟩ := exc_bind_ok h
      have e : groupBySig.addTo (sigOf knode) kid gs' = groups := Except.ok.inj hpure
      rw [← e] at hmem
      exact addTo_good rest kid knode (sigOf knode) rfl gs' (ih gs' hgs) s ids hmem id hid

/-- Every pair produced by the CSE fold is a duplicate pointing at the
head of its signature group. -/
theorem canonicalPairs_mem (g : Graph) :
    ∀ (groups : List (Sig × List String)) (acc : List (String × String))
      (p : String × String),
      p ∈ groups.foldl
        (fun acc sg =>
          match sg.2 with
          | canonical_id :: rest =>
            if rest.isEmpty then acc
            else
              match dlookup g.nodes canonical_id with
              | Option.none => acc
              | some cnode =>
                if cnode.intent_type = .constant then
                  acc ++ (rest.filter (fun dup =>
                    match dlookup g.nodes dup with
                    | some dnode =>
                        pvalEqOpt (dlookup cnode.params "value") (dlookup dnode.params "value")
                    | Option.none => false)).map (fun dup => (dup, canonical_id))
                else
                  acc ++ (rest.filter (fun dup =>
                    match dlookup g.nodes dup with
                    | some dnode => paramsIdentical cnode.params dnode.params
                    | Option.none => false)).map (fun dup => (dup, canonical_id))
          | [] => acc) acc →
      p ∈ acc ∨ ∃ s c rest, (s, c :: rest) ∈ groups ∧ p.2 = c ∧ p.1 ∈ rest := by
  intro groups
  induction groups with
  | nil =>
    intro acc p hp
    exact Or.inl (by simpa using hp)
  | cons sg gs ih =>
    intro acc p hp
    rw [List.foldl_cons] at hp
    rcases ih _ p hp with h1 | h1
    · obtain ⟨s0, ids0⟩ := sg
      cases ids0 with
      | nil => exact Or.inl h1
      | cons c rest =>
        simp only [] at h1
        by_cases hre : rest.isEmpty
        · rw [if_pos hre] at h1
          exact Or.inl h1
        rw [if_neg hre] at h1
        cases hcn : dlookup g.nodes c with
        | none =>
          simp only [hcn] at h1
          exact Or.inl h1
        | some cnode =>
          simp only [hcn] at h1
          by_cases hconst : cnode.intent_type = .constant
          · rw [if_pos hconst] at h1
            rcases List.mem_append.mp h1 with h2 | h2
            · exact Or.inl h2
            · obtain ⟨dup, hdup, heq⟩ := List.mem_map.mp h2
              refine Or.inr ⟨s0, c, rest, by simp, ?_, ?_⟩
              · rw [← heq]
              · rw [← heq]
                exact List.mem_of_mem_filter hdup
          · rw [if_neg hconst] at h1
            rcases List.mem_append.mp h1 with h2 | h2
            · exact Or.inl h2
            · obtain ⟨dup, hdup, heq⟩ := List.mem_map.mp h2
              refine Or.inr ⟨s0, c, rest, by simp, ?_, ?_⟩
              · rw [← heq]
              · rw [← heq]
                exact List.mem_of_mem_filter hdup
    · obtain ⟨s, c, rest, hmem, h2, h3⟩ := h1
      exact Or.inr ⟨s, c, rest, List.mem_cons_of_mem _ hmem, h2, h3⟩

/-- A canonical-pair lookup names two stored nodes of equal signature. -/
theorem canonicalPairs_nodes (g : Graph) (groups : List (Sig × List String))
    (hgroups : groupBySig g.nodes = .ok groups)
    (hnd : (g.nodes.map (·.1)).Nodup)
    (d c : String) (h : dlookup (canonicalPairs g groups) d = some c) :
    ∃ nd nc, dlookup g.nodes d = some nd ∧ dlookup g.nodes c = some nc ∧
      sigOf nd = sigOf nc := by
  have hm : (d, c) ∈ canonicalPairs g groups := dlookup_pair_mem h
  unfold canonicalPairs at hm
  rcases canonicalPairs_mem g groups [] (d, c) hm with h1 | h1
  · simp at h1
  obtain ⟨s, c', rest, hg, h2, h3⟩ := h1
  simp only [] at h2 h3
  subst h2
  obtain ⟨nc, hmc, hsc⟩ := groupBySig_good g.nodes groups hgroups s (c :: rest) hg c (by simp)
  obtain ⟨nd, hmd, hsd⟩ := groupBySig_good g.nodes groups hgroups s (c :: rest) hg d
    (List.mem_cons_of_mem _ h3)
  exact ⟨nd, nc, dlookup_of_mem_nodup hmd hnd, dlookup_of_mem_nodup hmc hnd,
    by rw [hsd, hsc]⟩

/-- Well-formedness gives duplicate-free node keys. -/
theorem wf_keys_nodup (g : Graph) (hwf : Graph.wf g = true) :
    (g.nodes.map (·.1)).Nodup := by
  unfold Graph.wf at hwf
  rw [Bool.and_eq_true] at hwf
  exact decide_eq_true_iff.mp hwf.1

/-- Well-formedness gives duplicate-free parameter keys on every stored
node. -/
theorem wf_params_nodup (g : Graph) (hwf : Graph.wf g = true)
    {id : String} {node : IntentNode} (h : dlookup g.nodes id = some node) :
    (node.params.map (·.1)).Nodup := by
  unfold Graph.wf at hwf
  rw [Bool.and_eq_true] at hwf
  have hall := List.all_eq_true.mp hwf.2 (id, node) (dlookup_pair_mem h)
  rw [Bool.and_eq_true, Bool.and_eq_true] at hall
  exact decide_eq_true_iff.mp hall.1.2

/-- Well-formedness gives a callable predicate on every stored Filter
node. -/
theorem wf_filter_pred (g : Graph) (hwf : Graph.wf g = true)
    {id : String} {node : IntentNode} (h : dlookup g.nodes id = some node)
    (hk : node.intent_type = .filter) :
    ∃ f, dlookup node.params "predicate" = some (.func f) ∧ f.callable = true := by
  unfold Graph.wf at hwf
  rw [Bool.and_eq_true] at hwf
  have hall := List.all_eq_true.mp hwf.2 (id, node) (dlookup_pair_mem h)
  rw [Bool.and_eq_true, Bool.and_eq_true] at hall
  have hcp := hall.2
  unfold IntentNode.wfCallableParams at hcp
  rw [Bool.and_eq_true] at hcp
  have h1 := hcp.1
  rw [hk] at h1
  cases hp : dlookup node.params "predicate" with
  | none => rw [hp] at h1; exact Bool.noConfusion h1
  | some p =>
    rw [hp] at h1
    cases p with
    | val v => exact Bool.noConfusion h1
    | func f => exact ⟨f, rfl, h1⟩
    | func2 f2 => exact Bool.noConfusion h1

/-- Well-formedness gives a callable transform on every stored Map
node. -/
theorem wf_map_transform (g : Graph) (hwf : Graph.wf g = true)
    {id : String} {node : IntentNode} (h : dlookup g.nodes id = some node)
    (hk : node.intent_type = .map) :
    ∃ f, dlookup node.params "transform" = some (.func f) ∧ f.callable = true := by
  unfold Graph.wf at hwf
  rw [Bool.and_eq_true] at hwf
  have hall := List.all_eq_true.mp hwf.2 (id, node) (dlookup_pair_mem h)
  rw [Bool.and_eq_true, Bool.and_eq_true] at hall
  have hcp := hall.2
  unfold IntentNode.wfCallableParams at hcp
  rw [Bool.and_eq_true] at hcp
  have h2 := hcp.2
  rw [hk] at h2
  cases hp : dlookup node.params "transform" with
  | none => rw [hp] at h2; exact Bool.noConfusion h2
  | some p =>
    rw [hp] at h2
    cases p with
    | val v => exact Bool.noConfusion h2
    | func f => exact ⟨f, rfl, h2⟩
    | func2 f2 => exact Bool.noConfusion h2

/-- CSE input rewriting simulates the original graph: the denotation of a
node transfers to its canonical representative in the rewritten graph. -/
theorem cse_sim (fe : FunEnv) (args : List (String × Val)) (g₁ g₂ : Graph)
    (hwf : Graph.wf g₁ = true)
    (groups : List (Sig × List String))
    (hgroups : groupBySig g₁.nodes = .ok groups)
    (hnodes : g₂.nodes = g₁.nodes.map (fun kv => (kv.1, { kv.2 with inputs := kv.2.inputs.map (fun i => (dlookup (canonicalPairs g₁ groups) i).getD i) }))) :
    ∀ fuel id v, deval fe g₁ args fuel id = .ok v →
      deval fe g₂ args fuel ((dlookup (canonicalPairs g₁ groups) id).getD id) = .ok v := by
  have hnd : (g₁.nodes.map (·.1)).Nodup := wf_keys_nodup g₁ hwf
  intro fuel
  induction fuel with
  | zero => intro id v h; simp [deval] at h
  | succ f ih =>
    intro id v h
    simp only [deval] at h
    cases hn : dlookup g₁.nodes id with
    | none =>
      simp only [hn] at h
      exact Except.noConfusion h
    | some node =>
      simp only [hn] at h
      obtain ⟨a, ha, hrun⟩ := exc_bind_ok h
      have hr := runAction_congr fe args
        (fun i => (dlookup (canonicalPairs g₁ groups) i).getD i)
        (fun s => deval fe g₁ args f s) (fun s => deval fe g₂ args f s) a v
        (fun s _ w hw => ih s w hw) hrun
      cases hc : dlookup (canonicalPairs g₁ groups) id with
      | none =>
        simp only [hc, Option.getD]
        have hlook : dlookup g₂.nodes id =
            some { node with inputs := node.inputs.map (fun i => (dlookup (canonicalPairs g₁ groups) i).getD i) } := by
          rw [hnodes, dlookup_map_entry, hn]
          rfl
        simp only [deval, hlook]
        rw [emit_subst, ha]
        exact hr
      | some c =>
        simp only [hc, Option.getD]
        obtain ⟨nd, nc, hnd', hnc, hsig⟩ :=
          canonicalPairs_nodes g₁ groups hgroups hnd id c hc
        have hnode_eq : nd = node := Option.some.inj (hnd'.symm.trans hn)
        subst hnode_eq
        unfold sigOf at hsig
        rw [Prod.mk.injEq, Prod.mk.injEq] at hsig
        obtain ⟨hk, hi, hps⟩ := hsig
        have hpeq : ∀ k, dlookup nd.params k = dlookup nc.params k :=
          params_lookup_eq_of_sig (wf_params_nodup g₁ hwf hnd')
            (wf_params_nodup g₁ hwf hnc) hps
        have hemitc : emitNode nc = .ok a := by
          rw [← emit_congr nd nc hk hi hpeq]
          exact ha
        have hlook : dlookup g₂.nodes c =
            some { nc with inputs := nc.inputs.map (fun i => (dlookup (canonicalPairs g₁ groups) i).getD i) } := by
          rw [hnodes, dlookup_map_entry, hnc]
          rfl
        simp only [deval, hlook]
        rw [emit_subst, hemitc]
        exact hr

/-- The CSE input rewrite (before its dead-code sweep) preserves graph
well-formedness. -/
theorem wf_cse_mid (g : Graph) (hwf : Graph.wf g = true)
    (ntc : List (String × String)) (O : List String) :
    Graph.wf { g with nodes := g.nodes.map (fun kv => (kv.1, { kv.2 with inputs := kv.2.inputs.map (fun i => (dlookup ntc i).getD i) })), outputs := O } = true := by
  unfold Graph.wf at hwf ⊢
  rw [Bool.and_eq_true] at hwf ⊢
  obtain ⟨h1, h2⟩ := hwf
  constructor
  · rw [decide_eq_true_iff] at h1 ⊢
    have e := map_fst_keyed
      (fun kv : String × IntentNode => (kv.1, { kv.2 with inputs := kv.2.inputs.map (fun i => (dlookup ntc i).getD i) }))
      (fun kv => rfl) g.nodes
    exact e ▸ h1
  · rw [List.all_eq_true] at h2 ⊢
    intro kv' hkv'
    obtain ⟨kv, hkv, hfe⟩ := List.mem_map.mp hkv'
    have horig := h2 kv hkv
    rw [Bool.and_eq_true, Bool.and_eq_true] at horig
    rw [← hfe, Bool.and_eq_true, Bool.and_eq_true]
    exact ⟨⟨horig.1.1, horig.1.2⟩, horig.2⟩

/-- Common-subexpression elimination preserves graph well-formedness. -/
theorem wf_cse (g₁ g₂ : Graph) (h : cse g₁ = .ok g₂)
    (hwf : Graph.wf g₁ = true) : Graph.wf g₂ = true := by
  unfold cse at h
  obtain ⟨groups, hgroups, h2⟩ := exc_bind_ok h
  simp only [] at h2
  by_cases hemp : (canonicalPairs g₁ groups).isEmpty
  · rw [if_pos hemp] at h2
    rw [← Except.ok.inj h2]
    exact hwf
  · rw [if_neg hemp] at h2
    exact wf_dce _ g₂ h2 (wf_cse_mid g₁ hwf _ _)

/-- Common-subexpression elimination preserves the successful denotation
of the plan's outputs when it merges no two distinct output positions. -/
theorem cse_devalOuts (fe : FunEnv) (args : List (String × Val)) (g₁ g₂ : Graph)
    (hwf : Graph.wf g₁ = true)
    (hnm : cseNoOutputMerge g₁ = true)
    (h : cse g₁ = .ok g₂) (fuel : Nat) (v : Val)
    (hd : devalOuts fe g₁ args fuel = .ok v) :
    ∃ f', devalOuts fe g₂ args f' = .ok v := by
  unfold cse at h
  obtain ⟨groups, hgroups, h2⟩ := exc_bind_ok h
  simp only [] at h2
  by_cases hemp : (canonicalPairs g₁ groups).isEmpty
  · rw [if_pos hemp] at h2
    rw [← Except.ok.inj h2]
    exact ⟨fuel, hd⟩
  rw [if_neg hemp] at h2
  unfold cseNoOutputMerge at hnm
  simp only [hgroups] at hnm
  have houts : rewriteOutputs (canonicalPairs g₁ groups) g₁.outputs =
      g₁.outputs.map (fun o => (dlookup (canonicalPairs g₁ groups) o).getD o) :=
    eq_of_beq hnm
  obtain ⟨F, hG⟩ := devalOuts_transfer fe args g₁
    { g₁ with nodes := g₁.nodes.map (fun kv => (kv.1, { kv.2 with inputs := kv.2.inputs.map (fun i => (dlookup (canonicalPairs g₁ groups) i).getD i) })), outputs := rewriteOutputs (canonicalPairs g₁ groups) g₁.outputs }
    (fun o => (dlookup (canonicalPairs g₁ groups) o).getD o)
    houts
    (fun id _ fl w hw => ⟨fl, cse_sim fe args g₁
      { g₁ with nodes := g₁.nodes.map (fun kv => (kv.1, { kv.2 with inputs := kv.2.inputs.map (fun i => (dlookup (canonicalPairs g₁ groups) i).getD i) })), outputs := rewriteOutputs (canonicalPairs g₁ groups) g₁.outputs }
      hwf groups hgroups rfl fl id w hw⟩)
    fuel v hd
  exact dce_devalOuts fe args _ g₂ h2 F v hG

/-- Filtering by the fused conjunction equals filtering twice: the fused
closure short-circuits exactly as the two-stage pipeline does on every
element both stages accept to evaluate. -/
theorem pyFilter_conj (fe : FunEnv) (t : Nat) (p1 p2 : FnExpr) :
    ∀ (zs ws ys : List Val),
      pyFilter (applyFn fe p1) zs = .ok ws →
      pyFilter (applyFn fe p2) ws = .ok ys →
      pyFilter (applyFn fe (.conj t p1 p2)) zs = .ok ys := by
  intro zs
  induction zs with
  | nil =>
    intro ws ys h1 h2
    have e : ([] : List Val) = ws := Except.ok.inj h1
    rw [← e] at h2
    simpa using h2
  | cons x zs' ih =>
    intro ws ys h1 h2
    simp only [pyFilter] at h1
    obtain ⟨r1, hr1, h12⟩ := exc_bind_ok h1
    obtain ⟨ws', hws', h13⟩ := exc_bind_ok h12
    by_cases ht1 : truthy r1
    · rw [if_pos ht1] at h13
      have e : x :: ws' = ws := Except.ok.inj h13
      rw [← e] at h2
      simp only [pyFilter] at h2
      obtain ⟨r2, hr2, h22⟩ := exc_bind_ok h2
      obtain ⟨ys', hys', h23⟩ := exc_bind_ok h22
      have hcon : applyFn fe (.conj t p1 p2) x = .ok r2 := by
        show (do
          let r1 ← applyFn fe p1 x
          if truthy r1 then applyFn fe p2 x else .ok r1) = .ok r2
        rw [hr1]
        show (if truthy r1 then applyFn fe p2 x else .ok r1) = .ok r2
        rw [if_pos ht1]
        exact hr2
      simp only [pyFilter]
      rw [hcon]
      show (pyFilter (applyFn fe (.conj t p1 p2)) zs' >>=
        fun rest => if truthy r2 then .ok (x :: rest) else .ok rest) = .ok ys
      rw [ih ws' ys' hws' hys']
      exact h23
    · rw [if_neg ht1] at h13
      have e : ws' = ws := Except.ok.inj h13
      rw [← e] at h2
      have hcon : applyFn fe (.conj t p1 p2) x = .ok r1 := by
        show (do
          let r1 ← applyFn fe p1 x
          if truthy r1 then applyFn fe p2 x else .ok r1) = .ok r1
        rw [hr1]
        show (if truthy r1 then applyFn fe p2 x else .ok r1) = .ok r1
        rw [if_neg ht1]
      simp only [pyFilter]
      rw [hcon]
      show (pyFilter (applyFn fe (.conj t p1 p2)) zs' >>=
        fun rest => if truthy r1 then .ok (x :: rest) else .ok rest) = .ok ys
      rw [ih ws' ys hws' h2]
      show (if truthy r1 then Except.ok (x :: ys) else .ok ys) = .ok ys
      rw [if_neg ht1]

/-- Mapping by the fused composition equals mapping twice (inner stage
first). -/
theorem mapM_comp (fe : FunEnv) (t : Nat) (f1 f2 : FnExpr) :
    ∀ (zs ws ys : List Val),
      zs.mapM (applyFn fe f1) = .ok ws →
      ws.mapM (applyFn fe f2) = .ok ys →
      zs.mapM (applyFn fe (.comp t f1 f2)) = .ok ys := by
  intro zs
  induction zs with
  | nil =>
    intro ws ys h1 h2
    have e : ([] : List Val) = ws := Except.ok.inj h1
    rw [← e] at h2
    simpa using h2
  | cons x zs' ih =>
    intro ws ys h1 h2
    rw [List.mapM_cons] at h1
    obtain ⟨w, hw, h12⟩ := exc_bind_ok h1
    obtain ⟨ws', hws', h13⟩ := exc_bind_ok h12
    have e : w :: ws' = ws := Except.ok.inj h13
    rw [← e] at h2
    rw [List.mapM_cons] at h2
    obtain ⟨y, hy, h22⟩ := exc_bind_ok h2
    obtain ⟨ys', hys', h23⟩ := exc_bind_ok h22
    have hcomp : applyFn fe (.comp t f1 f2) x = .ok y := by
      show (do
        let y ← applyFn fe f1 x
        applyFn fe f2 y) = .ok y
      rw [hw]
      exact hy
    rw [List.mapM_cons, hcomp]
    show (zs'.mapM (applyFn fe (.comp t f1 f2)) >>=
      fun rest => pure (y :: rest)) = .ok ys
    rw [ih ws' ys' hws' hys']
    exact h23

/-- Simulation is reflexive. -/
theorem devalSim_refl (fe : FunEnv) (args : List (String × Val)) (g : Graph) :
    devalSim fe args g g :=
  fun fuel _ _ h => ⟨fuel, h⟩

/-- Simulation is transitive. -/
theorem devalSim_trans (fe : FunEnv) (args : List (String × Val))
    {g1 g2 g3 : Graph} (h12 : devalSim fe args g1 g2)
    (h23 : devalSim fe args g2 g3) : devalSim fe args g1 g3 := by
  intro fuel id v h
  obtain ⟨f2, h2⟩ := h12 fuel id v h
  exact h23 f2 id v h2

/-- A pointwise fuel-existential over finitely many sources has a uniform
fuel. -/
theorem exists_uniform_fuel (fe : FunEnv) (args : List (String × Val))
    (g' : Graph) (ρ : String → Except PyErr Val) :
    ∀ srcs : List String,
      (∀ s ∈ srcs, ∀ w, ρ s = .ok w → ∃ f', deval fe g' args f' s = .ok w) →
      ∃ F, ∀ s ∈ srcs, ∀ w, ρ s = .ok w → deval fe g' args F s = .ok w := by
  intro srcs
  induction srcs with
  | nil => intro _; exact ⟨0, by intro s hs; simp at hs⟩
  | cons s srcs' ih =>
    intro h
    obtain ⟨F2, hF2⟩ := ih (fun x hx w hw => h x (by simp [hx]) w hw)
    cases hρ : ρ s with
    | error e =>
      refine ⟨F2, ?_⟩
      intro x hx w hw
      rcases List.mem_cons.mp hx with rfl | hx2
      · rw [hρ] at hw
        exact Except.noConfusion hw
      · exact hF2 x hx2 w hw
    | ok w0 =>
      obtain ⟨f1, h1⟩ := h s (by simp) w0 hρ
      refine ⟨max f1 F2, ?_⟩
      intro x hx w hw
      rcases List.mem_cons.mp hx with rfl | hx2
      · rw [hρ] at hw
        rw [← Except.ok.inj hw]
        exact deval_mono fe g' args f1 (max f1 F2) x w0 (by omega) h1
      · exact deval_mono fe g' args F2 (max f1 F2) x w (by omega) (hF2 x hx2 w hw)

/-- Code generation for a Filter node with a present predicate. -/
theorem emit_filter (node : IntentNode) (src : String) (p : PVal)
    (hk : node.intent_type = .filter) (hh : node.inputs.head? = some src)
    (hp : dlookup node.params "predicate" = some p) :
    emitNode node = .ok (.filterA src p.asFn) := by
  simp only [emitNode, hk, hh, hp]
  rw [if_neg (by decide)]

/-- Code generation for a Map node with a present transform. -/
theorem emit_map (node : IntentNode) (src : String) (p : PVal)
    (hk : node.intent_type = .map) (hh : node.inputs.head? = some src)
    (hp : dlookup node.params "transform" = some p) :
    emitNode node = .ok (.mapA src p.asFn) := by
  simp only [emitNode, hk, hh, hp]
  rw [if_neg (by decide)]

/-- Running a Filter action over an actual callable takes the pyFilter
path. -/
theorem runAction_filter_callable (fe : FunEnv) (args : List (String × Val))
    (ρ : String → Except PyErr Val) (src : String) (p : FnExpr)
    (hcall : p.callable = true) :
    runAction fe args ρ (.filterA src p) = (do
      let v ← ρ src
      let xs ← pyIter v
      let ys ← pyFilter (applyFn fe p) xs
      .ok (.list ys)) := by
  cases p with
  | base h => rfl
  | conj t p1 p2 => rfl
  | comp t f1 f2 => rfl
  | lit v => exact Bool.noConfusion hcall
  | bin h => exact Bool.noConfusion hcall

/-- Emitting a Filter with no input raises IndexError. -/
theorem emit_filter_nohead (node : IntentNode)
    (hk : node.intent_type = .filter) (hh : node.inputs.head? = Option.none) :
    emitNode node = .error .indexError := by
  simp only [emitNode, hk, hh]
  rw [if_neg (by decide)]

/-- Emitting a Map with no input raises IndexError. -/
theorem emit_map_nohead (node : IntentNode)
    (hk : node.intent_type = .map) (hh : node.inputs.head? = Option.none) :
    emitNode node = .error .indexError := by
  simp only [emitNode, hk, hh]
  rw [if_neg (by decide)]

/-- One filter-fusion step preserves well-formedness and the outputs and
simulates the original graph. -/
theorem filterFusionStep_sim (fe : FunEnv) (args : List (String × Val))
    (st st' : FuseSt) (nid : String)
    (hwf : Graph.wf st.g = true)
    (h : filterFusionStep st nid = .ok st') :
    Graph.wf st'.g = true ∧ st'.g.outputs = st.g.outputs ∧
    devalSim fe args st.g st'.g := by
  have hW : ∀ i n, dlookup st.g.nodes i = some n → n.intent_type = .filter →
      ∃ p, dlookup n.params "predicate" = some p := by
    intro i n hni hki
    obtain ⟨f, hp, _⟩ := wf_filter_pred st.g hwf hni hki
    exact ⟨.func f, hp⟩
  rcases filterFusionStep_spec st nid hW with hsame | hfire
  · rw [h] at hsame
    have e : st' = st := Except.ok.inj hsame
    rw [e]
    exact ⟨hwf, rfl, devalSim_refl fe args st.g⟩
  obtain ⟨node, input_id, input_node, p1, p2, hn, hk, hh, hnf, hi, hik, hif,
    hp1, hp2, hstep⟩ := hfire
  rw [h] at hstep
  have est : st' = { g := { st.g with nodes := (dinsert st.g.nodes nid ({ node with params := (dinsert node.params "predicate" (.func (.conj st.tag p1.asFn p2.asFn))), inputs := input_node.inputs })) }, fused := input_id :: st.fused, tag := st.tag + 1, changes := st.changes + 1 } := Except.ok.inj hstep
  have hg'g : st'.g = { st.g with nodes := (dinsert st.g.nodes nid ({ node with params := (dinsert node.params "predicate" (.func (.conj st.tag p1.asFn p2.asFn))), inputs := input_node.inputs })) } := by
    rw [est]
  obtain ⟨fo2, hpo2, hc2⟩ := wf_filter_pred st.g hwf hn hk
  obtain ⟨fo1, hpo1, hc1⟩ := wf_filter_pred st.g hwf hi hik
  have hp2f : p2 = .func fo2 := Option.some.inj (hp2.symm.trans hpo2)
  have hp1f : p1 = .func fo1 := Option.some.inj (hp1.symm.trans hpo1)
  have hcall2 : (p2.asFn).callable = true := by rw [hp2f]; exact hc2
  have hcall1 : (p1.asFn).callable = true := by rw [hp1f]; exact hc1
  have hnd := wf_keys_nodup st.g hwf
  have hpmem : "predicate" ∈ node.params.map (·.1) := mem_keys_of_dlookup_some hp2
  have horig := List.all_eq_true.mp (by
    unfold Graph.wf at hwf
    rw [Bool.and_eq_true] at hwf
    exact hwf.2) (nid, node) (dlookup_pair_mem hn)
  rw [Bool.and_eq_true, Bool.and_eq_true] at horig
  refine ⟨?_, ?_, ?_⟩
  · -- well-formedness of the rewritten graph
    rw [hg'g]
    unfold Graph.wf
    rw [Bool.and_eq_true]
    constructor
    · rw [decide_eq_true_iff]
      show ((dinsert st.g.nodes nid _).map (·.1)).Nodup
      rw [dinsert_keys_of_mem (mem_keys_of_dlookup_some hn)]
      exact hnd
    · rw [List.all_eq_true]
      intro kv' hkv'
      rw [show (({ st.g with nodes := (dinsert st.g.nodes nid ({ node with params := (dinsert node.params "predicate" (.func (.conj st.tag p1.asFn p2.asFn))), inputs := input_node.inputs })) }) : Graph).nodes = dinsert st.g.nodes nid ({ node with params := (dinsert node.params "predicate" (.func (.conj st.tag p1.asFn p2.asFn))), inputs := input_node.inputs }) from rfl,
        dinsert_eq_map hnd hn _] at hkv'
      obtain ⟨kv0, h0, heq⟩ := List.mem_map.mp hkv'
      by_cases hkey : kv0.1 = nid
      · rw [if_pos hkey] at heq
        rw [← heq]
        rw [Bool.and_eq_true, Bool.and_eq_true]
        refine ⟨⟨horig.1.1, ?_⟩, ?_⟩
        · rw [decide_eq_true_iff]
          show ((dinsert node.params "predicate" (.func (.conj st.tag p1.asFn p2.asFn))).map (·.1)).Nodup
          rw [dinsert_keys_of_mem hpmem]
          exact decide_eq_true_iff.mp horig.1.2
        · unfold IntentNode.wfCallableParams
          rw [show ({ node with params := (dinsert node.params "predicate" (.func (.conj st.tag p1.asFn p2.asFn))), inputs := input_node.inputs } : IntentNode).intent_type = IntentType.filter from hk]
          rw [show dlookup ({ node with params := (dinsert node.params "predicate" (.func (.conj st.tag p1.asFn p2.asFn))), inputs := input_node.inputs } : IntentNode).params "predicate" = some (.func (.conj st.tag p1.asFn p2.asFn)) from dlookup_dinsert_self _ _ _]
          rw [show dlookup ({ node with params := (dinsert node.params "predicate" (.func (.conj st.tag p1.asFn p2.asFn))), inputs := input_node.inputs } : IntentNode).params "transform" = dlookup node.params "transform" from dlookup_dinsert_ne _ _ _ _ (by decide)]
          simp [FnExpr.callable, hcall1, hcall2]
      · rw [if_neg hkey] at heq
        rw [← heq]
        have horig0 := List.all_eq_true.mp (by
          unfold Graph.wf at hwf
          rw [Bool.and_eq_true] at hwf
          exact hwf.2) kv0 h0
        exact horig0
  · rw [hg'g]
  · -- simulation
    intro fuel
    induction fuel using Nat.strong_induction_on with
    | _ fuel ih =>
      intro id v hdv
      cases fuel with
      | zero => simp [deval] at hdv
      | succ f =>
        simp only [deval] at hdv
        cases hn0 : dlookup st.g.nodes id with
        | none =>
          simp only [hn0] at hdv
          exact Except.noConfusion hdv
        | some node0 =>
          simp only [hn0] at hdv
          obtain ⟨a, ha, hrun⟩ := exc_bind_ok hdv
          by_cases hid : id = nid
          · -- the fused node: two-level inversion
            subst hid
            have hnode0 : node0 = node := Option.some.inj (hn0.symm.trans hn)
            subst hnode0
            have hae : a = .filterA input_id p2.asFn :=
              (Except.ok.inj ((emit_filter node0 input_id p2 hk hh hp2).symm.trans ha)).symm
            subst hae
            rw [runAction_filter_callable fe args _ input_id p2.asFn hcall2] at hrun
            obtain ⟨v0, hv0, t2⟩ := exc_bind_ok hrun
            obtain ⟨xs, hxs, t3⟩ := exc_bind_ok t2
            obtain ⟨ys, hys, t4⟩ := exc_bind_ok t3
            cases f with
            | zero => simp [deval] at hv0
            | succ f1 =>
              simp only [deval] at hv0
              simp only [hi] at hv0
              obtain ⟨a1, ha1, hrun1⟩ := exc_bind_ok hv0
              cases hh1 : input_node.inputs.head? with
              | none =>
                rw [emit_filter_nohead input_node hik hh1] at ha1
                exact Except.noConfusion ha1
              | some src1 =>
                have hae1 : a1 = .filterA src1 p1.asFn :=
                  (Except.ok.inj ((emit_filter input_node src1 p1 hik hh1 hp1).symm.trans ha1)).symm
                subst hae1
                rw [runAction_filter_callable fe args _ src1 p1.asFn hcall1] at hrun1
                obtain ⟨u, hu, s2⟩ := exc_bind_ok hrun1
                obtain ⟨zs, hzs, s3⟩ := exc_bind_ok s2
                obtain ⟨ws, hws, s4⟩ := exc_bind_ok s3
                have hv0e : v0 = .list ws := (Except.ok.inj s4).symm
                rw [hv0e] at hxs
                have hxse : ws = xs := Except.ok.inj hxs
                rw [hxse] at hws
                obtain ⟨fs, hfs⟩ := ih f1 (by omega) src1 u hu
                refine ⟨fs + 1, ?_⟩
                have hlook2 : dlookup st'.g.nodes id = some ({ node0 with params := (dinsert node0.params "predicate" (.func (.conj st.tag p1.asFn p2.asFn))), inputs := input_node.inputs }) := by
                  rw [hg'g]
                  exact dlookup_dinsert_self _ _ _
                simp only [deval, hlook2]
                rw [emit_filter ({ node0 with params := (dinsert node0.params "predicate" (.func (.conj st.tag p1.asFn p2.asFn))), inputs := input_node.inputs }) src1 (.func (.conj st.tag p1.asFn p2.asFn)) hk hh1 (dlookup_dinsert_self _ _ _)]
                show (do
                  let v1 ← deval fe st'.g args fs src1
                  let xs1 ← pyIter v1
                  let ys1 ← pyFilter (applyFn fe (FnExpr.conj st.tag p1.asFn p2.asFn)) xs1
                  (.ok (.list ys1) : Except PyErr Val)) = .ok v
                rw [hfs]
                show (do
                  let xs1 ← pyIter u
                  let ys1 ← pyFilter (applyFn fe (FnExpr.conj st.tag p1.asFn p2.asFn)) xs1
                  (.ok (.list ys1) : Except PyErr Val)) = .ok v
                rw [hzs]
                show (do
                  let ys1 ← pyFilter (applyFn fe (FnExpr.conj st.tag p1.asFn p2.asFn)) zs
                  (.ok (.list ys1) : Except PyErr Val)) = .ok v
                rw [pyFilter_conj fe st.tag p1.asFn p2.asFn zs xs ys hws hys]
                exact t4
          · have hlook : dlookup st'.g.nodes id = some node0 := by
              rw [hg'g]
              exact (dlookup_dinsert_ne _ _ _ _ (fun e => hid e.symm)).trans hn0
            obtain ⟨F, hF⟩ := exists_uniform_fuel fe args st'.g
              (fun s => deval fe st.g args f s) (actionSources a)
              (fun s _ w hw => ih f (by omega) s w hw)
            have hr := runAction_congr fe args (fun s => s)
              (fun s => deval fe st.g args f s) (fun s => deval fe st'.g args F s) a v
              (fun s hs w hw => hF s hs w hw) hrun
            rw [actionSubst_id] at hr
            refine ⟨F + 1, ?_⟩
            simp only [deval, hlook]
            rw [ha]
            exact hr

/-- The filter-fusion scan preserves well-formedness and outputs and
simulates the input graph. -/
theorem filterFusion_fold_sim (fe : FunEnv) (args : List (String × Val)) :
    ∀ (ids : List String) (st st' : FuseSt),
      Graph.wf st.g = true →
      ids.foldlM filterFusionStep st = .ok st' →
      Graph.wf st'.g = true ∧ st'.g.outputs = st.g.outputs ∧
      devalSim fe args st.g st'.g := by
  intro ids
  induction ids with
  | nil =>
    intro st st' hwf h
    have e : st = st' := Except.ok.inj h
    subst e
    exact ⟨hwf, rfl, devalSim_refl fe args st.g⟩
  | cons nid rest ih =>
    intro st st' hwf h
    rw [List.foldlM_cons] at h
    obtain ⟨st₁, h1, h2⟩ := exc_bind_ok h
    obtain ⟨hwf1, hout1, hsim1⟩ := filterFusionStep_sim fe args st st₁ nid hwf h1
    obtain ⟨hwf2, hout2, hsim2⟩ := ih st₁ st' hwf1 h2
    exact ⟨hwf2, hout2.trans hout1, devalSim_trans fe args hsim1 hsim2⟩

/-- The filter-fusion pass preserves well-formedness and the successful
denotation of the plan's outputs. -/
theorem filterFusion_devalOuts (fe : FunEnv) (args : List (String × Val))
    (g g₃ : Graph) (tag c₃ : Nat)
    (hwf : Graph.wf g = true)
    (h : filterFusion g tag = .ok (g₃, c₃)) (fuel : Nat) (v : Val)
    (hd : devalOuts fe g args fuel = .ok v) :
    (∃ f', devalOuts fe g₃ args f' = .ok v) ∧ Graph.wf g₃ = true := by
  unfold filterFusion at h
  obtain ⟨st, hst, h2⟩ := exc_bind_ok h
  obtain ⟨hwfs, houts, hsim⟩ :=
    filterFusion_fold_sim fe args (g.nodes.map (·.1)) ⟨g, [], tag, 0⟩ st hwf hst
  have hdst : ∃ f', devalOuts fe st.g args f' = .ok v := by
    refine devalOuts_transfer fe args g st.g (fun s => s) ?_ ?_ fuel v hd
    · rw [houts]
      simp
    · intro idd _ fl w hw
      exact hsim fl idd w hw
  by_cases hch : st.changes > 0
  · rw [if_pos hch] at h2
    obtain ⟨g₃', hdce, hfin⟩ := exc_bind_ok h2
    have e : (g₃', st.tag) = (g₃, c₃) := Except.ok.inj hfin
    have e1 : g₃' = g₃ := congrArg Prod.fst e
    obtain ⟨F, hF⟩ := hdst
    obtain ⟨F2, hF2⟩ := dce_devalOuts fe args st.g g₃' hdce F v hF
    rw [e1] at hF2
    exact ⟨⟨F2, hF2⟩, e1 ▸ wf_dce st.g g₃' hdce hwfs⟩
  · rw [if_neg hch] at h2
    have e : (st.g, st.tag) = (g₃, c₃) := Except.ok.inj h2
    have e1 : st.g = g₃ := congrArg Prod.fst e
    rw [← e1]
    exact ⟨hdst, hwfs⟩

/-- Case analysis of one map-fusion step: when every map entry carries a
transform parameter the step never fails, and it either leaves the state
unchanged or fires on an adjacent map pair, rewriting the outer node and
marking the inner one fused. -/
theorem mapFusionStep_spec (st : FuseSt) (node_id : String)
    (hW : ∀ i n, dlookup st.g.nodes i = some n → n.intent_type = .map →
          ∃ p, dlookup n.params "transform" = some p) :
    mapFusionStep st node_id = .ok st ∨
    (∃ node input_id input_node t1 t2,
      dlookup st.g.nodes node_id = some node ∧ node.intent_type = .map ∧
      node.inputs.head? = some input_id ∧ node_id ∉ st.fused ∧
      dlookup st.g.nodes input_id = some input_node ∧
      input_node.intent_type = .map ∧ input_id ∉ st.fused ∧
      dlookup input_node.params "transform" = some t1 ∧
      dlookup node.params "transform" = some t2 ∧
      mapFusionStep st node_id = .ok
        { g := { st.g with nodes := (dinsert st.g.nodes node_id ({ node with params := (dinsert node.params "transform" (.func (.comp st.tag t1.asFn t2.asFn))), inputs := input_node.inputs })) },
          fused := input_id :: st.fused, tag := st.tag + 1,
          changes := st.changes + 1 }) := by
  unfold mapFusionStep
  cases hn : dlookup st.g.nodes node_id with
  | none => exact Or.inl rfl
  | some node =>
    by_cases hk : node.intent_type = .map
    · by_cases hskip : node.inputs.isEmpty = true ∨ node_id ∈ st.fused
      · left
        rcases hskip with h1 | h1 <;> simp [hk, h1]
      · cases hh : node.inputs.head? with
        | none =>
          left
          simp [hk, hskip, hh]
        | some input_id =>
          cases hi : dlookup st.g.nodes input_id with
          | none =>
            left
            simp [hk, hskip, hh, hi]
          | some input_node =>
            by_cases hif : input_node.intent_type = .map ∧ input_id ∉ st.fused
            · obtain ⟨t1, ht1⟩ := hW input_id input_node hi hif.1
              obtain ⟨t2, ht2⟩ := hW node_id node hn hk
              right
              refine ⟨node, input_id, input_node, t1, t2, rfl, hk, hh, ?_, hi,
                hif.1, hif.2, ht1, ht2, ?_⟩
              · intro hmem
                exact hskip (Or.inr hmem)
              · simp [hk, hh, hi, hif.1, hif.2, ht1, ht2]
                intro hc
                rcases hc with hc | hc
                · exact (hskip (Or.inl (List.isEmpty_iff.mpr hc))).elim
                · exact (hskip (Or.inr hc)).elim
            · left
              have : input_node.intent_type ≠ .map ∨ input_id ∈ st.fused := by
                by_contra hc
                push_neg at hc
                exact hif ⟨hc.1, hc.2⟩
              simp [hk, hskip, hh, hi, this]
    · left
      simp [hk]

/-- One map-fusion step preserves well-formedness and the outputs and
simulates the original graph. -/
theorem mapFusionStep_sim (fe : FunEnv) (args : List (String × Val))
    (st st' : FuseSt) (nid : String)
    (hwf : Graph.wf st.g = true)
    (h : mapFusionStep st nid = .ok st') :
    Graph.wf st'.g = true ∧ st'.g.outputs = st.g.outputs ∧
    devalSim fe args st.g st'.g := by
  have hW : ∀ i n, dlookup st.g.nodes i = some n → n.intent_type = .map →
      ∃ p, dlookup n.params "transform" = some p := by
    intro i n hni hki
    obtain ⟨f, hp, _⟩ := wf_map_transform st.g hwf hni hki
    exact ⟨.func f, hp⟩
  rcases mapFusionStep_spec st nid hW with hsame | hfire
  · rw [h] at hsame
    have e : st' = st := Except.ok.inj hsame
    rw [e]
    exact ⟨hwf, rfl, devalSim_refl fe args st.g⟩
  obtain ⟨node, input_id, input_node, p1, p2, hn, hk, hh, hnf, hi, hik, hif,
    hp1, hp2, hstep⟩ := hfire
  rw [h] at hstep
  have est : st' = { g := { st.g with nodes := (dinsert st.g.nodes nid ({ node with params := (dinsert node.params "transform" (.func (.comp st.tag p1.asFn p2.asFn))), inputs := input_node.inputs })) }, fused := input_id :: st.fused, tag := st.tag + 1, changes := st.changes + 1 } := Except.ok.inj hstep
  have hg'g : st'.g = { st.g with nodes := (dinsert st.g.nodes nid ({ node with params := (dinsert node.params "transform" (.func (.comp st.tag p1.asFn p2.asFn))), inputs := input_node.inputs })) } := by
    rw [est]
  obtain ⟨fo2, hpo2, hc2⟩ := wf_map_transform st.g hwf hn hk
  obtain ⟨fo1, hpo1, hc1⟩ := wf_map_transform st.g hwf hi hik
  have hp2f : p2 = .func fo2 := Option.some.inj (hp2.symm.trans hpo2)
  have hp1f : p1 = .func fo1 := Option.some.inj (hp1.symm.trans hpo1)
  have hcall2 : (p2.asFn).callable = true := by rw [hp2f]; exact hc2
  have hcall1 : (p1.asFn).callable = true := by rw [hp1f]; exact hc1
  have hnd := wf_keys_nodup st.g hwf
  have hpmem : "transform" ∈ node.params.map (·.1) := mem_keys_of_dlookup_some hp2
  have horig := List.all_eq_true.mp (by
    unfold Graph.wf at hwf
    rw [Bool.and_eq_true] at hwf
    exact hwf.2) (nid, node) (dlookup_pair_mem hn)
  rw [Bool.and_eq_true, Bool.and_eq_true] at horig
  refine ⟨?_, ?_, ?_⟩
  · rw [hg'g]
    unfold Graph.wf
    rw [Bool.and_eq_true]
    constructor
    · rw [decide_eq_true_iff]
      show ((dinsert st.g.nodes nid _).map (·.1)).Nodup
      rw [dinsert_keys_of_mem (mem_keys_of_dlookup_some hn)]
      exact hnd
    · rw [List.all_eq_true]
      intro kv' hkv'
      rw [show (({ st.g with nodes := (dinsert st.g.nodes nid ({ node with params := (dinsert node.params "transform" (.func (.comp st.tag p1.asFn p2.asFn))), inputs := input_node.inputs })) }) : Graph).nodes = dinsert st.g.nodes nid ({ node with params := (dinsert node.params "transform" (.func (.comp st.tag p1.asFn p2.asFn))), inputs := input_node.inputs }) from rfl,
        dinsert_eq_map hnd hn _] at hkv'
      obtain ⟨kv0, h0, heq⟩ := List.mem_map.mp hkv'
      by_cases hkey : kv0.1 = nid
      · rw [if_pos hkey] at heq
        rw [← heq]
        rw [Bool.and_eq_true, Bool.and_eq_true]
        refine ⟨⟨horig.1.1, ?_⟩, ?_⟩
        · rw [decide_eq_true_iff]
          show ((dinsert node.params "transform" (.func (.comp st.tag p1.asFn p2.asFn))).map (·.1)).Nodup
          rw [dinsert_keys_of_mem hpmem]
          exact decide_eq_true_iff.mp horig.1.2
        · unfold IntentNode.wfCallableParams
          rw [show ({ node with params := (dinsert node.params "transform" (.func (.comp st.tag p1.asFn p2.asFn))), inputs := input_node.inputs } : IntentNode).intent_type = IntentType.map from hk]
          rw [show dlookup ({ node with params := (dinsert node.params "transform" (.func (.comp st.tag p1.asFn p2.asFn))), inputs := input_node.inputs } : IntentNode).params "transform" = some (.func (.comp st.tag p1.asFn p2.asFn)) from dlookup_dinsert_self _ _ _]
          simp [FnExpr.callable, hcall1, hcall2]
      · rw [if_neg hkey] at heq
        rw [← heq]
        exact List.all_eq_true.mp (by
          unfold Graph.wf at hwf
          rw [Bool.and_eq_true] at hwf
          exact hwf.2) kv0 h0
  · rw [hg'g]
  · intro fuel
    induction fuel using Nat.strong_induction_on with
    | _ fuel ih =>
      intro id v hdv
      cases fuel with
      | zero => simp [deval] at hdv
      | succ f =>
        simp only [deval] at hdv
        cases hn0 : dlookup st.g.nodes id with
        | none =>
          simp only [hn0] at hdv
          exact Except.noConfusion hdv
        | some node0 =>
          simp only [hn0] at hdv
          obtain ⟨a, ha, hrun⟩ := exc_bind_ok hdv
          by_cases hid : id = nid
          · subst hid
            have hnode0 : node0 = node := Option.some.inj (hn0.symm.trans hn)
            subst hnode0
            have hae : a = .mapA input_id p2.asFn :=
              (Except.ok.inj ((emit_map node0 input_id p2 hk hh hp2).symm.trans ha)).symm
            subst hae
            simp only [runAction] at hrun
            obtain ⟨v0, hv0, t2⟩ := exc_bind_ok hrun
            obtain ⟨xs, hxs, t3⟩ := exc_bind_ok t2
            obtain ⟨ys, hys, t4⟩ := exc_bind_ok t3
            cases f with
            | zero => simp [deval] at hv0
            | succ f1 =>
              simp only [deval] at hv0
              simp only [hi] at hv0
              obtain ⟨a1, ha1, hrun1⟩ := exc_bind_ok hv0
              cases hh1 : input_node.inputs.head? with
              | none =>
                rw [emit_map_nohead input_node hik hh1] at ha1
                exact Except.noConfusion ha1
              | some src1 =>
                have hae1 : a1 = .mapA src1 p1.asFn :=
                  (Except.ok.inj ((emit_map input_node src1 p1 hik hh1 hp1).symm.trans ha1)).symm
                subst hae1
                simp only [runAction] at hrun1
                obtain ⟨u, hu, s2⟩ := exc_bind_ok hrun1
                obtain ⟨zs, hzs, s3⟩ := exc_bind_ok s2
                obtain ⟨ws, hws, s4⟩ := exc_bind_ok s3
                have hv0e : v0 = .list ws := (Except.ok.inj s4).symm
                rw [hv0e] at hxs
                have hxse : ws = xs := Except.ok.inj hxs
                rw [hxse] at hws
                obtain ⟨fs, hfs⟩ := ih f1 (by omega) src1 u hu
                refine ⟨fs + 1, ?_⟩
                have hlook2 : dlookup st'.g.nodes id = some ({ node0 with params := (dinsert node0.params "transform" (.func (.comp st.tag p1.asFn p2.asFn))), inputs := input_node.inputs }) := by
                  rw [hg'g]
                  exact dlookup_dinsert_self _ _ _
                simp only [deval, hlook2]
                rw [emit_map ({ node0 with params := (dinsert node0.params "transform" (.func (.comp st.tag p1.asFn p2.asFn))), inputs := input_node.inputs }) src1 (.func (.comp st.tag p1.asFn p2.asFn)) hk hh1 (dlookup_dinsert_self _ _ _)]
                show (do
                  let v1 ← deval fe st'.g args fs src1
                  let xs1 ← pyIter v1
                  let ys1 ← xs1.mapM (applyFn fe (FnExpr.comp st.tag p1.asFn p2.asFn))
                  (.ok (.list ys1) : Except PyErr Val)) = .ok v
                rw [hfs]
                show (do
                  let xs1 ← pyIter u
                  let ys1 ← xs1.mapM (applyFn fe (FnExpr.comp st.tag p1.asFn p2.asFn))
                  (.ok (.list ys1) : Except PyErr Val)) = .ok v
                rw [hzs]
                show (do
                  let ys1 ← zs.mapM (applyFn fe (FnExpr.comp st.tag p1.asFn p2.asFn))
                  (.ok (.list ys1) : Except PyErr Val)) = .ok v
                rw [mapM_comp fe st.tag p1.asFn p2.asFn zs xs ys hws hys]
                exact t4
          · have hlook : dlookup st'.g.nodes id = some node0 := by
              rw [hg'g]
              exact (dlookup_dinsert_ne _ _ _ _ (fun e => hid e.symm)).trans hn0
            obtain ⟨F, hF⟩ := exists_uniform_fuel fe args st'.g
              (fun s => deval fe st.g args f s) (actionSources a)
              (fun s _ w hw => ih f (by omega) s w hw)
            have hr := runAction_congr fe args (fun s => s)
              (fun s => deval fe st.g args f s) (fun s => deval fe st'.g args F s) a v
              (fun s hs w hw => hF s hs w hw) hrun
            rw [actionSubst_id] at hr
            refine ⟨F + 1, ?_⟩
            simp only [deval, hlook]
            rw [ha]
            exact hr

/-- The map-fusion scan preserves well-formedness and outputs and
simulates the input graph. -/
theorem mapFusion_fold_sim (fe : FunEnv) (args : List (String × Val)) :
    ∀ (ids : List String) (st st' : FuseSt),
      Graph.wf st.g = true →
      ids.foldlM mapFusionStep st = .ok st' →
      Graph.wf st'.g = true ∧ st'.g.outputs = st.g.outputs ∧
      devalSim fe args st.g st'.g := by
  intro ids
  induction ids with
  | nil =>
    intro st st' hwf h
    have e : st = st' := Except.ok.inj h
    subst e
    exact ⟨hwf, rfl, devalSim_refl fe args st.g⟩
  | cons nid rest ih =>
    intro st st' hwf h
    rw [List.foldlM_cons] at h
    obtain ⟨st₁, h1, h2⟩ := exc_bind_ok h
    obtain ⟨hwf1, hout1, hsim1⟩ := mapFusionStep_sim fe args st st₁ nid hwf h1
    obtain ⟨hwf2, hout2, hsim2⟩ := ih st₁ st' hwf1 h2
    exact ⟨hwf2, hout2.trans hout1, devalSim_trans fe args hsim1 hsim2⟩

/-- The map-fusion pass preserves well-formedness and the successful
denotation of the plan's outputs. -/
theorem mapFusion_devalOuts (fe : FunEnv) (args : List (String × Val))
    (g g₄ : Graph) (tag c₄ : Nat)
    (hwf : Graph.wf g = true)
    (h : mapFusion g tag = .ok (g₄, c₄)) (fuel : Nat) (v : Val)
    (hd : devalOuts fe g args fuel = .ok v) :
    (∃ f', devalOuts fe g₄ args f' = .ok v) ∧ Graph.wf g₄ = true := by
  unfold mapFusion at h
  obtain ⟨st, hst, h2⟩ := exc_bind_ok h
  obtain ⟨hwfs, houts, hsim⟩ :=
    mapFusion_fold_sim fe args (g.nodes.map (·.1)) ⟨g, [], tag, 0⟩ st hwf hst
  have hdst : ∃ f', devalOuts fe st.g args f' = .ok v := by
    refine devalOuts_transfer fe args g st.g (fun s => s) ?_ ?_ fuel v hd
    · rw [houts]
      simp
    · intro idd _ fl w hw
      exact hsim fl idd w hw
  by_cases hch : st.changes > 0
  · rw [if_pos hch] at h2
    obtain ⟨g₄', hdce, hfin⟩ := exc_bind_ok h2
    have e : (g₄', st.tag) = (g₄, c₄) := Except.ok.inj hfin
    have e1 : g₄' = g₄ := congrArg Prod.fst e
    obtain ⟨F, hF⟩ := hdst
    obtain ⟨F2, hF2⟩ := dce_devalOuts fe args st.g g₄' hdce F v hF
    rw [e1] at hF2
    exact ⟨⟨F2, hF2⟩, e1 ▸ wf_dce st.g g₄' hdce hwfs⟩
  · rw [if_neg hch] at h2
    have e : (st.g, st.tag) = (g₄, c₄) := Except.ok.inj h2
    have e1 : st.g = g₄ := congrArg Prod.fst e
    rw [← e1]
    exact ⟨hdst, hwfs⟩

/-- The default pipeline unfolds to its five passes in order. -/
theorem optimize_pipeline (fe : FunEnv) (g g₁ g₂ g₃ g₄ : Graph) (c c₃ c₄ : Nat)
    (h1 : deadCodeElimination g = .ok g₁)
    (h2 : cse g₁ = .ok g₂)
    (h3 : filterFusion g₂ c = .ok (g₃, c₃))
    (h4 : mapFusion g₃ c₃ = .ok (g₄, c₄))
    (h5 : filterBeforeMap fe g₄ = .ok g₄) :
    optimize fe g c Option.none = .ok (g₄, c₄) := by
  have s1 : runPass fe (g, c) "dead_code_elimination" = .ok (g₁, c) := by
    unfold runPass
    rw [if_pos rfl, h1]
    rfl
  have s2 : runPass fe (g₁, c) "common_subexpression_elimination" = .ok (g₂, c) := by
    unfold runPass
    rw [if_neg (by decide), if_pos rfl, h2]
    rfl
  have s3 : runPass fe (g₂, c) "filter_fusion" = .ok (g₃, c₃) := by
    unfold runPass
    rw [if_neg (by decide), if_neg (by decide), if_pos rfl]
    exact h3
  have s4 : runPass fe (g₃, c₃) "map_fusion" = .ok (g₄, c₄) := by
    unfold runPass
    rw [if_neg (by decide), if_neg (by decide), if_neg (by decide), if_pos rfl]
    exact h4
  have s5 : runPass fe (g₄, c₄) "filter_before_map" = .ok (g₄, c₄) := by
    unfold runPass
    rw [if_neg (by decide), if_neg (by decide), if_neg (by decide),
      if_neg (by decide), if_pos rfl, h5]
    rfl
  show defaultPasses.foldlM (runPass fe) (g, c) = .ok (g₄, c₄)
  rw [defaultPasses, List.foldlM_cons, s1]
  show (["common_subexpression_elimination", "filter_fusion", "map_fusion",
    "filter_before_map"].foldlM (runPass fe) (g₁, c)) = .ok (g₄, c₄)
  rw [List.foldlM_cons, s2]
  show (["filter_fusion", "map_fusion", "filter_before_map"].foldlM
    (runPass fe) (g₂, c)) = .ok (g₄, c₄)
  rw [List.foldlM_cons, s3]
  show (["map_fusion", "filter_before_map"].foldlM (runPass fe) (g₃, c₃)) =
    .ok (g₄, c₄)
  rw [List.foldlM_cons, s4]
  show (["filter_before_map"].foldlM (runPass fe) (g₄, c₄)) = .ok (g₄, c₄)
  rw [List.foldlM_cons, s5]
  rfl

/-- C1 (amended): the default optimization pipeline is exactly dead-code
elimination, common-subexpression elimination, filter fusion, map fusion
and filter-before-map in that order, and it never silently changes a
result: for every well-formed graph, whenever CSE merges no two distinct
output positions, the filter-before-map scan performs no rewrite, and both
the original and the optimized compiled plans succeed on the same keyword
arguments, the two invocations return the same value.  (Unconditionally
the claim is false: see the counterexample, where output deduplication
changes the result shape.) -/
theorem C1_pipeline_agreement
    (fe : FunEnv) (g g₁ g₂ g₃ g₄ : Graph) (c c₃ c₄ : Nat)
    (args : List (String × Val)) (v w : Val)
    (hwf : Graph.wf g = true)
    (h1 : deadCodeElimination g = .ok g₁)
    (hnm : cseNoOutputMerge g₁ = true)
    (h2 : cse g₁ = .ok g₂)
    (h3 : filterFusion g₂ c = .ok (g₃, c₃))
    (h4 : mapFusion g₃ c₃ = .ok (g₄, c₄))
    (h5 : filterBeforeMap fe g₄ = .ok g₄)
    (he : execute fe g args = .ok v)
    (he4 : execute fe g₄ args = .ok w) :
    optimize fe g c Option.none = .ok (g₄, c₄) ∧ v = w := by
  refine ⟨optimize_pipeline fe g g₁ g₂ g₃ g₄ c c₃ c₄ h1 h2 h3 h4 h5, ?_⟩
  obtain ⟨F0, hd0⟩ := execute_ok_devalOuts fe g args v he
  obtain ⟨F1, hd1⟩ := dce_devalOuts fe args g g₁ h1 F0 v hd0
  have hwf1 : Graph.wf g₁ = true := wf_dce g g₁ h1 hwf
  obtain ⟨F2, hd2⟩ := cse_devalOuts fe args g₁ g₂ hwf1 hnm h2 F1 v hd1
  have hwf2 : Graph.wf g₂ = true := wf_cse g₁ g₂ h2 hwf1
  obtain ⟨⟨F3, hd3⟩, hwf3⟩ :=
    filterFusion_devalOuts fe args g₂ g₃ c c₃ hwf2 h3 F2 v hd2
  obtain ⟨⟨F4, hd4⟩, hwf4⟩ :=
    mapFusion_devalOuts fe args g₃ g₄ c₃ c₄ hwf3 h4 F3 v hd3
  obtain ⟨F5, hd5⟩ := execute_ok_devalOuts fe g₄ args w he4
  have hA := devalOuts_mono fe g₄ args F4 (max F4 F5) v (by omega) hd4
  have hB := devalOuts_mono fe g₄ args F5 (max F4 F5) w (by omega) hd5
  exact Except.ok.inj (hA.symm.trans hB)

theorem C1_pipeline_agreement_witness :
    optimize exFunEnv gFusion 3 Option.none =
      .ok ({ nodes := [("in0", mkNode "in0" .input [] [("name", .val (.str "data"))]), ("f2", mkNode "f2" .filter ["in0"] [("predicate", .func (.conj 3 (.base 0) (.base 1)))])], outputs := ["f2"], node_counter := 3 }, 4) ∧
    Val.list [.int 7, .int 10, .int 15] = Val.list [.int 7, .int 10, .int 15] :=
  C1_pipeline_agreement exFunEnv gFusion gFusion gFusion
    { nodes := [("in0", mkNode "in0" .input [] [("name", .val (.str "data"))]), ("f2", mkNode "f2" .filter ["in0"] [("predicate", .func (.conj 3 (.base 0) (.base 1)))])], outputs := ["f2"], node_counter := 3 }
    { nodes := [("in0", mkNode "in0" .input [] [("name", .val (.str "data"))]), ("f2", mkNode "f2" .filter ["in0"] [("predicate", .func (.conj 3 (.base 0) (.base 1)))])], outputs := ["f2"], node_counter := 3 }
    3 4 4 [("data", dataFusion)]
    (.list [.int 7, .int 10, .int 15]) (.list [.int 7, .int 10, .int 15])
    (by decide) rfl (by decide) rfl rfl rfl rfl rfl rfl
